import Mathlib

/-!
# Transition parser core: sparse averaged matrix and deterministic decoder

A shallow embedding of

* `algorithm/transition/model/avgmatsparse.go` (the sparse averaged weight matrix), and
* `NLP/Parser/Dependency/Transition/deterministic.go` (the greedy decoder and its
  transition classifier),

followed by theorems about the embedded functions.

Conventions of the embedding.

* A Go panic is the `error` case of `Except`; the string is the panic message.
* An `int64` is an `Int` kept in range by `wrap64` after every addition the source performs.
  An `int` is 64 bits wide and treated alike: the counters of type `int` (generations,
  numbers of examples and of iterations) wrap as Go integers do.
* A `float64` is a value of `Float64`: not-a-number, an infinity, or a sign with a magnitude
  that is a multiple of 2^-1074; sums are rounded to the nearest `float64`, ties to even.
* A pointer to a matrix that several parties hold is an address into a `Heap`.
* A `*FeaturesList` is the list of nodes reached from it through `Previous`, most recent
  node first; the nil pointer is the empty list.
* A feature is an interned token (`Nat`); a nil feature is `none`.
* Goroutines are run in program order (the order the source takes when `Log` is set);
  log output is not part of the state.
-/

namespace Yap

deriving instance DecidableEq for Except

set_option maxRecDepth 100000

/-! ## Machine integers -/

/-- Two-complement reduction of an integer to the `int64` range, which is also the range
of an `int` on the 64-bit platforms. -/
def wrap64 (x : Int) : Int :=
  (x + 9223372036854775808) % 18446744073709551616 - 9223372036854775808

/-! ## Feature lists -/

/-- Feature values are hashable tokens; the embedding takes the interned integer. -/
abbrev Feature := Nat

/-- Transitions are dense integers (`type Transition int`). -/
abbrev Transition := Int

/-- One node of `transition.FeaturesList` without its `Previous` link. -/
structure FeaturesNode where
  Features : List (Option Feature)
  Transition : Transition
deriving DecidableEq, Repr

/-- A `*FeaturesList`: the head is the node pointed to, the tail is `Previous`,
the empty list is the nil pointer. -/
abbrev FeaturesList := List FeaturesNode

/-! ## Template shards -/

/-- Modelled from the spec: the per-transition accumulator of a shard cell (the type
`AvgSparse` and its cells are not part of the sources at hand). It stores the live weight,
the sum of the live weight over past generations and the generation of the last change.
The weights are `int64`, the generation an `int`. -/
structure HistoryValue where
  current : Int
  total : Int
  lastGeneration : Int
deriving DecidableEq, Repr

/-- Modelled from the spec: updating an accumulator first advances
`total += current * (generation - lastGeneration)` and then applies the change
`current += amount`. The weights are fixed-width integers, `int64` as the amounts the
source passes: every sum and product is reduced by `wrap64`, as Go arithmetic does. -/
def HistoryValue.Add (h : HistoryValue) (generation amount : Int) : HistoryValue :=
  { current := wrap64 (h.current + amount)
    total := wrap64 (h.total + h.current * (generation - h.lastGeneration))
    lastGeneration := generation }

/-- Modelled from the spec: a template shard `AvgSparse`, a mapping from feature value and
transition to an accumulator; a cell that was never touched is not allocated. -/
structure AvgSparse where
  Vals : Feature → Transition → Option HistoryValue

/-- Modelled from the spec: `AvgSparse.Value(transition, feature)`, the live weight of the
cell, 0 for a cell that is not allocated. The weight is an `int64`: the integer kept in the
cell is read in that range. -/
def AvgSparse.Value (v : AvgSparse) (transition : Transition) (feature : Feature) : Int :=
  match v.Vals feature transition with
  | some h => wrap64 h.current
  | none => 0

/-- Modelled from the spec: `AvgSparse.Add(generation, transition, feature, amount)`; the
cell is allocated on first touch with the amount as its live weight, otherwise updated
through `HistoryValue.Add`. Every other cell is left as it is. -/
def AvgSparse.Add (v : AvgSparse) (generation : Int) (transition : Transition)
    (feature : Feature) (amount : Int) : AvgSparse :=
  { Vals := fun f tr =>
      if f = feature ∧ tr = transition then
        match v.Vals f tr with
        | some h => some (h.Add generation amount)
        | none => some { current := wrap64 amount, total := 0, lastGeneration := generation }
      else v.Vals f tr }

/-- Modelled from the spec: the shard `NewAvgSparse()` creates, with no cell allocated. -/
def NewAvgSparse : AvgSparse :=
  { Vals := fun _ _ => none }

/-! ## The matrix -/

/-- The struct `AvgMatrixSparse`. A formatter is kept as its printed descriptor. -/
structure AvgMatrixSparse where
  Mat : List AvgSparse
  Features : Int
  Generation : Int
  Formatters : List String
  Log : Bool

/-- Panic message of a nil pointer dereference. -/
def nilDereference : String := "runtime error: invalid memory address or nil pointer dereference"

/-- Panic message of an index outside a slice. -/
def indexOutOfRange : String := "runtime error: index out of range"

/-- The loop `for i, feature := range features` shared by `Score` and `TransitionScore`:
`retval += t.Mat[i].Value(intTrans, feature)` for every feature that is not nil, starting
at index `i` with `retval` accumulated so far. -/
def scoreLoop (Mat : List AvgSparse) (intTrans : Transition) :
    Nat → List (Option Feature) → Int → Except String Int
  | _, [], retval => .ok retval
  | i, none :: rest, retval => scoreLoop Mat intTrans (i + 1) rest retval
  | i, some feature :: rest, retval =>
    match Mat[i]? with
    | none => .error indexOutOfRange
    | some shard =>
      scoreLoop Mat intTrans (i + 1) rest (wrap64 (retval + shard.Value intTrans feature))

/-- The method `AvgMatrixSparse.Score`. -/
def AvgMatrixSparse.Score (t : AvgMatrixSparse) : FeaturesList → Except String Int
  | [] => .error nilDereference
  | [_] => .ok 0
  | f :: featuresList :: rest =>
    match AvgMatrixSparse.Score t (featuresList :: rest) with
    | .error e => .error e
    | .ok prevScore =>
      match scoreLoop t.Mat f.Transition 0 featuresList.Features 0 with
      | .error e => .error e
      | .ok retval => .ok (wrap64 (prevScore + retval))

/-- The method `AvgMatrixSparse.TransitionScore`. -/
def AvgMatrixSparse.TransitionScore (t : AvgMatrixSparse) (transition : Transition)
    (features : List (Option Feature)) : Except String Int :=
  if features.length > t.Mat.length then
    .error "Got more features than known matrix features"
  else
    scoreLoop t.Mat transition 0 features 0

/-- The loop of `apply` over the features of the previous node: for every feature that is
not nil, read `t.Formatters[i]` when logging and then run `t.Mat[i].Add`. The shards are
threaded through as the list being updated. -/
def applyLoop (Log : Bool) (Formatters : List String) (Generation : Int)
    (intTrans : Transition) (amount : Int) :
    Nat → List (Option Feature) → List AvgSparse → Except String (List AvgSparse)
  | _, [], Mat => .ok Mat
  | i, none :: rest, Mat => applyLoop Log Formatters Generation intTrans amount (i + 1) rest Mat
  | i, some feat :: rest, Mat =>
    if Log = true ∧ Formatters.length ≤ i then .error indexOutOfRange
    else
      match Mat[i]? with
      | none => .error indexOutOfRange
      | some shard =>
        applyLoop Log Formatters Generation intTrans amount (i + 1) rest
          (Mat.set i (shard.Add Generation intTrans feat amount))

/-- The method `AvgMatrixSparse.apply`. -/
def AvgMatrixSparse.apply (t : AvgMatrixSparse) (features : FeaturesList) (amount : Int) :
    Except String AvgMatrixSparse :=
  match features with
  | [] => .error nilDereference
  | [_] => .ok t
  | f :: featuresList :: _ =>
    if f.Transition ≥ 96 then .ok t
    else
      match applyLoop t.Log t.Formatters t.Generation f.Transition amount 0
          featuresList.Features t.Mat with
      | .error e => .error e
      | .ok Mat => .ok { t with Mat := Mat }

/-- The method `AvgMatrixSparse.Add`. -/
def AvgMatrixSparse.Add (t : AvgMatrixSparse) (features : FeaturesList) :
    Except String AvgMatrixSparse :=
  t.apply features 1

/-- The method `AvgMatrixSparse.Subtract`. -/
def AvgMatrixSparse.Subtract (t : AvgMatrixSparse) (features : FeaturesList) :
    Except String AvgMatrixSparse :=
  t.apply features (-1)

/-- The method `AvgMatrixSparse.AddSubtract`: the recursive call on both `Previous` links
runs first, then `t.apply(goldFeatures, amount)`. -/
def AvgMatrixSparse.AddSubtract (t : AvgMatrixSparse) :
    FeaturesList → FeaturesList → Int → Except String AvgMatrixSparse
  | _, [], _ => .error nilDereference
  | _, [_], _ => .ok t
  | [], _ :: _ :: _, _ => .error nilDereference
  | g :: gPrevious, _ :: fPrevious :: rest, amount =>
    match AvgMatrixSparse.AddSubtract t gPrevious (fPrevious :: rest) amount with
    | .error e => .error e
    | .ok t1 => t1.apply (g :: gPrevious) amount

/-! ### Vocabulary for stating what the matrix operations do -/

/-- The live weight a list of shards holds at template `i`, transition `tr`, feature `f`
(0 when the template does not exist). -/
def matCell (Mat : List AvgSparse) (i : Nat) (tr : Transition) (f : Feature) : Int :=
  match Mat[i]? with
  | some shard => shard.Value tr f
  | none => 0

/-- The live weight of the matrix at the cell (template `i`, transition `tr`, feature `f`). -/
def AvgMatrixSparse.cell (t : AvgMatrixSparse) (i : Nat) (tr : Transition) (f : Feature) : Int :=
  matCell t.Mat i tr f

/-- A feature vector the matrix can take: no more entries than template shards, and no more
than formatters when the matrix logs. -/
abbrev AvgMatrixSparse.fits (t : AvgMatrixSparse) (n : FeaturesNode) : Prop :=
  n.Features.length ≤ t.Mat.length ∧ (t.Log = true → n.Features.length ≤ t.Formatters.length)

/-- The pairs a feature list is read by: the transition of each node that has a predecessor,
with the features of that predecessor; most recent pair first. -/
def transitionPairs : FeaturesList → List (Transition × List (Option Feature))
  | f :: featuresList :: rest =>
    (f.Transition, featuresList.Features) :: transitionPairs (featuresList :: rest)
  | _ => []

/-- How many nodes of a list address the cell (template `i`, transition `tr`, feature `f`)
in an update: nodes with a transition below 96, equal to `tr`, whose predecessor has
feature `f` at position `i`. -/
def touches : FeaturesList → Nat → Transition → Feature → Nat
  | n :: p :: rest, i, tr, f =>
    (if n.Transition < 96 ∧ n.Transition = tr ∧ p.Features[i]? = some (some f) then 1 else 0)
      + touches (p :: rest) i tr f
  | _, _, _, _ => 0

/-! ## Floating-point scores -/

/-- A `float64`. Every finite `float64` is a multiple of 2^-1074, the least positive one:
a finite value is its sign and its magnitude counted in these units. The magnitudes of
`float64` values are those below 2^53 and those of the form `m * 2^s` with `m` below 2^53,
up to `(2^53 - 1) * 2^2045`. -/
inductive Float64 where
  | NaN
  | Inf (neg : Bool)
  | Fin (neg : Bool) (units : Nat)
deriving DecidableEq, Repr

/-- The value `0.0`. -/
def Float64.zero : Float64 := .Fin false 0

/-- Whether a value is not-a-number. -/
def Float64.isNaN : Float64 → Bool
  | .NaN => true
  | _ => false

/-- The number of low bits by which `n` exceeds 53 bits; the first argument bounds the
search, and `n` itself is a sufficient bound. -/
def Float64.excess : Nat → Nat → Nat
  | 0, _ => 0
  | fuel + 1, n => if n < 9007199254740992 then 0 else Float64.excess fuel (n / 2) + 1

/-- Rounding of the magnitude `n` (in units of 2^-1074) to the nearest `float64`, ties to
the even significand; a result of 2^1024 or more, which is 2^2098 units, is an infinity.
With `s` the number of bits to drop, `q = n >>> s` is the quotient of `n` by 2^s, `r` the
remainder, and `q1 <<< s` the product of `q1` and 2^s. -/
def Float64.round (neg : Bool) (n : Nat) : Float64 :=
  let s := Float64.excess n n
  let q := n >>> s
  let r := n - (q <<< s)
  let q1 := if (1 <<< s) < 2 * r ∨ (2 * r = (1 <<< s) ∧ q % 2 = 1) then q + 1 else q
  if (1 <<< 2098) ≤ (q1 <<< s) then .Inf neg else .Fin neg (q1 <<< s)

/-- The sum `x + y` of two `float64` values: the exact sum rounded by `Float64.round`; a sum
that is exactly zero is `+0`, except that `-0 + -0` is `-0`. -/
def Float64.add : Float64 → Float64 → Float64
  | .NaN, _ => .NaN
  | _, .NaN => .NaN
  | .Inf a, .Inf b => if a = b then .Inf a else .NaN
  | .Inf a, .Fin _ _ => .Inf a
  | .Fin _ _, .Inf b => .Inf b
  | .Fin a m, .Fin b n =>
    if a = b then Float64.round a (m + n)
    else if m = n then .Fin false 0
    else if n < m then Float64.round a (m - n)
    else Float64.round b (n - m)

/-- The signed magnitude of a finite value, in units of 2^-1074. -/
def Float64.signed (neg : Bool) (units : Nat) : Int :=
  if neg then -(units : Int) else units

/-- The comparison `x > y` of two `float64` values; it is false when either is not-a-number,
and the two zeros are equal. -/
def Float64.gt : Float64 → Float64 → Bool
  | .NaN, _ => false
  | _, .NaN => false
  | .Inf a, .Inf b => !a && b
  | .Inf a, .Fin _ _ => !a
  | .Fin _ _, .Inf b => b
  | .Fin a m, .Fin b n => decide (Float64.signed b n < Float64.signed a m)

/-- The conversion `float64(z)` of an integer. -/
def Float64.ofInt (z : Int) : Float64 :=
  Float64.round (decide (z < 0)) (z.natAbs <<< 1074)

/-- The `float64` sum of a sequence of values, added one after the other to `0.0`. -/
def floatSum (xs : List Float64) : Float64 :=
  xs.foldl Float64.add Float64.zero

/-! ## The collaborators of the decoder

The configuration, the transition system with its oracle, the feature extractor and the
parameter model are interfaces whose implementations lie outside the two files embedded
here. They are taken as parameters: records of total functions, except for the oracle,
whose failure the decoder is written to handle. -/

/-- The methods of `Transition.Configuration` the decoder calls. -/
class Configuration (Conf : Type) where
  Terminal : Conf → Bool
  GetLastTransition : Conf → Transition
  GetSequence : Conf → List Conf

/-- The interface `Transition.TransitionSystem`: `Transition(c, t)`, the channel of
`YieldTransitions(c)` as the list of what it yields, and the oracle after
`SetGold(gold)`, whose `Transition(c)` may panic. -/
structure TransitionSystem (Conf Gold : Type) where
  Transition : Conf → Yap.Transition → Conf
  YieldTransitions : Conf → List Yap.Transition
  Oracle : Gold → Conf → Except String Yap.Transition

/-- How a run of the decoder can fail to return: a panic, or the loop `for !c.Terminal()`
still running when the fuel of the embedding is used up. -/
inductive Fault where
  | panic (msg : String)
  | outOfFuel
deriving DecidableEq, Repr

/-- The struct `ParseResultParameters`; `modelValue` is `none` for the nil interface. -/
structure ParseResultParameters (Conf : Type) where
  modelValue : Option FeaturesList
  Sequence : List Conf
deriving DecidableEq, Repr

/-- The struct `TransitionClassifier`. `Model` stands for
`tc.Model.TransitionModel().TransitionScore`, whose result the source adds to the `float64`
field `Score`. -/
structure TransitionClassifier (Conf Gold : Type) where
  Model : Transition → List (Option Feature) → Float64
  TransFunc : TransitionSystem Conf Gold
  FeatExtractor : Conf → List (Option Feature)
  Score : Float64
  FeaturesList : Yap.FeaturesList
  ShowConsiderations : Bool

/-- The struct `Deterministic`. `TransFunc` is `none` for the nil interface; `Base` is the
configuration obtained from the base by `Copy()`, `Clear()` and `Init(sent)`. -/
structure Deterministic (Conf Sent Gold : Type) where
  TransFunc : Option (TransitionSystem Conf Gold)
  FeatExtractor : Conf → List (Option Feature)
  ReturnModelValue : Bool
  ReturnSequence : Bool
  ShowConsiderations : Bool
  Base : Sent → Conf
  NoRecover : Bool

section Decoder

variable {Conf Sent Gold : Type} [Configuration Conf]

/-- The method `TransitionClassifier.Init`. -/
def TransitionClassifier.Init (tc : TransitionClassifier Conf Gold) :
    TransitionClassifier Conf Gold :=
  { tc with Score := Float64.zero }

/-- The method `TransitionClassifier.Increment`. -/
def TransitionClassifier.Increment (tc : TransitionClassifier Conf Gold) (c : Conf) :
    TransitionClassifier Conf Gold :=
  let features := tc.FeatExtractor c
  { tc with
    FeaturesList := ⟨features, Configuration.GetLastTransition c⟩ :: tc.FeaturesList
    Score := tc.Score.add (tc.Model (Configuration.GetLastTransition c) features) }

/-- The method `TransitionClassifier.ScoreWithConf`. -/
def TransitionClassifier.ScoreWithConf (tc : TransitionClassifier Conf Gold) (c : Conf) :
    Float64 :=
  let features := tc.FeatExtractor c
  tc.Score.add (tc.Model (Configuration.GetLastTransition c) features)

/-- The loop `for transition := range tChan` of `TransitionWithConf` over what is left of
the channel, on the variables `bestScore`, `bestConf` (`none` for nil) and
`bestTransition`. -/
def TransitionClassifier.considerLoop (tc : TransitionClassifier Conf Gold) (c : Conf) :
    List Transition → Float64 × Option Conf × Transition → Float64 × Option Conf × Transition
  | [], best => best
  | transition :: rest, (bestScore, bestConf, bestTransition) =>
    let currentConf := tc.TransFunc.Transition c transition
    let currentScore := tc.ScoreWithConf currentConf
    if bestConf.isNone = true ∨ currentScore.gt bestScore = true then
      considerLoop tc c rest (currentScore, some currentConf, transition)
    else
      considerLoop tc c rest (bestScore, bestConf, bestTransition)

/-- The method `TransitionClassifier.TransitionWithConf`. -/
def TransitionClassifier.TransitionWithConf (tc : TransitionClassifier Conf Gold) (c : Conf) :
    Except String (Conf × Transition) :=
  match tc.considerLoop c (tc.TransFunc.YieldTransitions c) (Float64.zero, none, 0) with
  | (_, none, _) => .error "Got no best transition - what's going on here?"
  | (_, some bestConf, bestTransition) => .ok (bestConf, bestTransition)

/-- The block `// build result parameters` the three entry points share. -/
def Deterministic.resultParams (d : Deterministic Conf Sent Gold) (c : Conf)
    (featuresList : FeaturesList) : Option (ParseResultParameters Conf) :=
  if d.ReturnModelValue = true ∨ d.ReturnSequence = true then
    some { modelValue := if d.ReturnModelValue then some featuresList else none
           Sequence := if d.ReturnSequence then Configuration.GetSequence c else [] }
  else none

/-- The loop `for !c.Terminal()` of `Parse`. -/
def parseLoop : Nat → Conf → TransitionClassifier Conf Gold →
    Except Fault (Conf × TransitionClassifier Conf Gold)
  | fuel, c, tc =>
    if Configuration.Terminal c = true then .ok (c, tc)
    else
      match fuel with
      | 0 => .error .outOfFuel
      | fuel + 1 =>
        match tc.TransitionWithConf c with
        | .error e => .error (.panic e)
        | .ok (c1, _) => parseLoop fuel c1 (tc.Increment c1)

/-- The method `Deterministic.Parse`; `constraints` is `none` for nil. -/
def Deterministic.Parse {Constraints : Type} (d : Deterministic Conf Sent Gold) (fuel : Nat)
    (sent : Sent) (constraints : Option Constraints)
    (model : Transition → List (Option Feature) → Float64) :
    Except Fault (Conf × Option (ParseResultParameters Conf)) :=
  if constraints.isSome then
    .error (.panic "Got non-nil constraints; deterministic dependency parsing does not consider constraints")
  else
    match d.TransFunc with
    | none => .error (.panic "Can't parse without a transition system")
    | some transFunc =>
      let transitionClassifier : TransitionClassifier Conf Gold :=
        TransitionClassifier.Init
          { Model := model, TransFunc := transFunc, FeatExtractor := d.FeatExtractor,
            Score := Float64.zero, FeaturesList := [], ShowConsiderations := false }
      let transitionClassifier :=
        { transitionClassifier with ShowConsiderations := d.ShowConsiderations }
      match parseLoop fuel (d.Base sent) transitionClassifier with
      | .error e => .error e
      | .ok (c, tc) => .ok (c, d.resultParams c tc.FeaturesList)

/-- The loop `for !c.Terminal()` of `ParseOracle`. -/
def oracleLoop (transFunc : TransitionSystem Conf Gold) (gold : Gold) :
    Nat → Conf → TransitionClassifier Conf Gold →
    Except Fault (Conf × TransitionClassifier Conf Gold)
  | fuel, c, classifier =>
    if Configuration.Terminal c = true then .ok (c, classifier)
    else
      match fuel with
      | 0 => .error .outOfFuel
      | fuel + 1 =>
        match transFunc.Oracle gold c with
        | .error e => .error (.panic e)
        | .ok transition =>
          let c1 := transFunc.Transition c transition
          oracleLoop transFunc gold fuel c1 (classifier.Increment c1)

/-- The body of `ParseOracle` below the deferred function. -/
def Deterministic.parseOracleBody {Constraints : Type} (d : Deterministic Conf Sent Gold)
    (Sentence : Gold → Sent) (fuel : Nat) (gold : Gold) (constraints : Option Constraints)
    (model : Transition → List (Option Feature) → Float64) :
    Except Fault (Conf × Option (ParseResultParameters Conf)) :=
  if constraints.isSome then
    .error (.panic "Got non-nil constraints; deterministic dependency parsing does not consider constraints")
  else
    match d.TransFunc with
    | none => .error (.panic "Can't parse without a transition system")
    | some transFunc =>
      let classifier : TransitionClassifier Conf Gold :=
        TransitionClassifier.Init
          { Model := model, TransFunc := transFunc, FeatExtractor := d.FeatExtractor,
            Score := Float64.zero, FeaturesList := [], ShowConsiderations := false }
      match oracleLoop transFunc gold fuel (d.Base (Sentence gold)) classifier with
      | .error e => .error e
      | .ok (c, tc) => .ok (c, d.resultParams c tc.FeaturesList)

/-- The method `Deterministic.ParseOracle`: unless `NoRecover` is set, the deferred
function recovers any panic of the body and sets both results to nil (`none`).
`Sentence` is the method `gold.Sentence()`. -/
def Deterministic.ParseOracle {Constraints : Type} (d : Deterministic Conf Sent Gold)
    (Sentence : Gold → Sent) (fuel : Nat) (gold : Gold) (constraints : Option Constraints)
    (model : Transition → List (Option Feature) → Float64) :
    Except Fault (Option Conf × Option (ParseResultParameters Conf)) :=
  match d.parseOracleBody Sentence fuel gold constraints model with
  | .ok (c, resultParams) => .ok (some c, resultParams)
  | .error (.panic e) => if d.NoRecover = false then .ok (none, none) else .error (.panic e)
  | .error .outOfFuel => .error .outOfFuel

/-- The loop `for !c.Terminal()` of `ParseOracleEarlyUpdate` on the variables `c`,
`predFeaturesList` and `i`; it returns `c`, `goldFeaturesList`, `predFeaturesList`, `i`. -/
def earlyUpdateLoop (d : Deterministic Conf Sent Gold) (transFunc : TransitionSystem Conf Gold)
    (classifier : TransitionClassifier Conf Gold) (gold : Gold) :
    Nat → Conf → FeaturesList → Nat → Except Fault (Conf × FeaturesList × FeaturesList × Nat)
  | fuel, c, predFeaturesList, i =>
    if Configuration.Terminal c = true then .ok (c, [], predFeaturesList, i)
    else
      match fuel with
      | 0 => .error .outOfFuel
      | fuel + 1 =>
        match transFunc.Oracle gold c with
        | .error e => .error (.panic e)
        | .ok goldTrans =>
          let goldConf := transFunc.Transition c goldTrans
          match classifier.TransitionWithConf c with
          | .error e => .error (.panic e)
          | .ok (c1, predTrans) =>
            let predFeatures := d.FeatExtractor c1
            if predTrans ≠ goldTrans then
              let goldFeatures := d.FeatExtractor goldConf
              .ok (c1, ⟨goldFeatures, goldTrans⟩ :: predFeaturesList,
                ⟨predFeatures, predTrans⟩ :: predFeaturesList, i)
            else
              earlyUpdateLoop d transFunc classifier gold fuel c1
                (⟨predFeatures, predTrans⟩ :: predFeaturesList) (i + 1)

/-- The method `Deterministic.ParseOracleEarlyUpdate`; it returns the configuration, the
result parameters, `goldFeaturesList` (empty for nil) and `i`. -/
def Deterministic.ParseOracleEarlyUpdate {Constraints : Type} (d : Deterministic Conf Sent Gold)
    (Sentence : Gold → Sent) (fuel : Nat) (gold : Gold) (constraints : Option Constraints)
    (model : Transition → List (Option Feature) → Float64) :
    Except Fault (Conf × Option (ParseResultParameters Conf) × FeaturesList × Nat) :=
  if constraints.isSome then
    .error (.panic "Got non-nil constraints; deterministic dependency parsing does not consider constraints")
  else
    match d.TransFunc with
    | none => .error (.panic "Can't parse without a transition system")
    | some transFunc =>
      let classifier : TransitionClassifier Conf Gold :=
        { Model := model, TransFunc := transFunc, FeatExtractor := d.FeatExtractor,
          Score := Float64.zero, FeaturesList := [], ShowConsiderations := d.ShowConsiderations }
      let classifier := classifier.Init
      match earlyUpdateLoop d transFunc classifier gold fuel (d.Base (Sentence gold)) [] 0 with
      | .error e => .error e
      | .ok (c, goldFeaturesList, predFeaturesList, i) =>
        .ok (c, d.resultParams c predFeaturesList, goldFeaturesList, i)

/-- The transitions the oracle chooses from `c` on, each applied to reach the next
configuration, for at most `n` steps. -/
def oracleSequence (transFunc : TransitionSystem Conf Gold) (gold : Gold) :
    Nat → Conf → List Transition
  | 0, _ => []
  | n + 1, c =>
    if Configuration.Terminal c = true then []
    else
      match transFunc.Oracle gold c with
      | .error _ => []
      | .ok t => t :: oracleSequence transFunc gold n (transFunc.Transition c t)

end Decoder

/-! ## Concrete data for the worked runs -/

/-- A shard holding the single weight 1 at feature 5, transition 1. -/
def exampleShard : AvgSparse :=
  { Vals := fun f tr => if f = 5 ∧ tr = 1 then some ⟨1, 0, 0⟩ else none }

/-- A one-template matrix over `exampleShard`. -/
def exampleMatrix : AvgMatrixSparse :=
  { Mat := [exampleShard], Features := 1, Generation := 0, Formatters := ["t0"], Log := true }

/-- A one-template matrix with no weight set. -/
def zeroMatrix : AvgMatrixSparse :=
  { Mat := [NewAvgSparse], Features := 1, Generation := 0, Formatters := ["t0"], Log := true }

/-- Two nodes: transition 1 with features `[7]` on top of transition 0 with features `[5]`. -/
def exampleList : FeaturesList := [⟨[some 7], 1⟩, ⟨[some 5], 0⟩]

/-- A list of the same length as `exampleList` that differs from it in its head. -/
def decodedList : FeaturesList := [⟨[some 8], 2⟩, ⟨[some 5], 0⟩]

/-- The list `exampleList` with the head transition raised to 96. -/
def highList : FeaturesList := [⟨[some 7], 96⟩, ⟨[some 5], 0⟩]

/-- Three nodes, with transitions 1, 2, 0 from the head down. -/
def threeList : FeaturesList := [⟨[some 7], 1⟩, ⟨[some 5], 2⟩, ⟨[some 3], 0⟩]

/-! ### Vocabulary for stating what the decoder does -/

section DecoderVocabulary

variable {Conf Gold : Type} [Configuration Conf]

/-- The classifier and the oracle choose the same transition at `c` and at each
configuration that follows, and the configuration is terminal after exactly `n` of them. -/
def agreesFor (transFunc : TransitionSystem Conf Gold)
    (classifier : TransitionClassifier Conf Gold) (gold : Gold) : Nat → Conf → Bool
  | 0, c => Configuration.Terminal c
  | n + 1, c =>
    !Configuration.Terminal c &&
      match transFunc.Oracle gold c, classifier.TransitionWithConf c with
      | .ok goldTrans, .ok (c1, predTrans) =>
        predTrans == goldTrans && agreesFor transFunc classifier gold n c1
      | _, _ => false

/-- The message with which the oracle fails after `k` successful steps from `c`, every
configuration up to the failure being non-terminal; `none` when that is not what happens. -/
def oracleFailure (transFunc : TransitionSystem Conf Gold) (gold : Gold) :
    Nat → Conf → Option String
  | k, c =>
    if Configuration.Terminal c = true then none
    else
      match transFunc.Oracle gold c, k with
      | .error e, 0 => some e
      | .error _, _ + 1 => none
      | .ok _, 0 => none
      | .ok t, k + 1 => oracleFailure transFunc gold k (transFunc.Transition c t)

end DecoderVocabulary

/-! ### A small transition system for the worked runs -/

/-- A configuration of the small system: the number of steps left and the last transition. -/
structure ToyConf where
  remaining : Nat
  last : Transition
deriving DecidableEq, Repr

instance : Configuration ToyConf where
  Terminal c := c.remaining == 0
  GetLastTransition c := c.last
  GetSequence c := [c]

/-- The small system: every transition uses up one step; transitions 1, 2, 3 are yielded
in this order; the gold standard is the list of transitions to take, and the oracle fails
where that list has the sentinel 0 or has ended. -/
def toySystem : TransitionSystem ToyConf (List Transition) where
  Transition c t := ⟨c.remaining - 1, t⟩
  YieldTransitions _ := [1, 2, 3]
  Oracle gold c :=
    match gold[gold.length - c.remaining]? with
    | some t => if t = 0 then .error "no gold path" else .ok t
    | none => .error "no gold path"

/-- The system `toySystem` with nothing applicable anywhere. -/
def stuckSystem : TransitionSystem ToyConf (List Transition) :=
  { toySystem with YieldTransitions := fun _ => [] }

/-- A parameter model scoring transition 1 with 1 and every other transition with 2. -/
def toyModel : Transition → List (Option Feature) → Float64 :=
  fun t _ => if t = 1 then Float64.ofInt 1 else Float64.ofInt 2

/-- A decoder over `toySystem` that returns the model value. -/
def toyDecoder : Deterministic ToyConf Nat (List Transition) :=
  { TransFunc := some toySystem
    FeatExtractor := fun c => [some c.remaining]
    ReturnModelValue := true
    ReturnSequence := false
    ShowConsiderations := false
    Base := fun n => ⟨n, 0⟩
    NoRecover := false }

/-- The classifier the entry points build over `toySystem` and `toyModel`. -/
def toyClassifier : TransitionClassifier ToyConf (List Transition) :=
  { Model := toyModel, TransFunc := toySystem, FeatExtractor := toyDecoder.FeatExtractor,
    Score := Float64.zero, FeaturesList := [], ShowConsiderations := false }

/-- The classifier `toyClassifier` over a system whose configurations record, for the
transition `t` applied to them, the transition `4 - t`. -/
def relabelClassifier : TransitionClassifier ToyConf (List Transition) :=
  { toyClassifier with
    TransFunc := { toySystem with Transition := fun c t => ⟨c.remaining - 1, 4 - t⟩ } }

/-- The classifier `toyClassifier` over a model whose score for transition 1 is not a
number, every other transition being scored 2. -/
def nanClassifier : TransitionClassifier ToyConf (List Transition) :=
  { toyClassifier with Model := fun t _ => if t = 1 then Float64.NaN else Float64.ofInt 2 }

/-- A parameter model that scores, on the features of a configuration with one step left,
transition 3 with 2^53 and every other transition with 0, and on other features transition 2
with 1 and every other transition with 0. -/
def roundingModel : Transition → List (Option Feature) → Float64 :=
  fun t features =>
    if features = [some 1] then
      (if t = 3 then Float64.ofInt 9007199254740992 else Float64.zero)
    else (if t = 2 then Float64.ofInt 1 else Float64.zero)

/-- The classifier the entry points build over `toySystem` and `roundingModel`. -/
def roundingClassifier : TransitionClassifier ToyConf (List Transition) :=
  { toyClassifier with Model := roundingModel }

/-- The decoder `toyDecoder` over `stuckSystem`. -/
def stuckDecoder : Deterministic ToyConf Nat (List Transition) :=
  { toyDecoder with TransFunc := some stuckSystem }

/-- The classifier `toyClassifier` over `stuckSystem`. -/
def stuckClassifier : TransitionClassifier ToyConf (List Transition) :=
  { toyClassifier with TransFunc := stuckSystem }

/-- The decoder `toyDecoder` with `NoRecover` set. -/
def noRecoverDecoder : Deterministic ToyConf Nat (List Transition) :=
  { toyDecoder with NoRecover := true }

/-- The decoder `toyDecoder` without a transition system. -/
def noSystemDecoder : Deterministic ToyConf Nat (List Transition) :=
  { toyDecoder with TransFunc := none }

/-! ### The states a decoding loop passes through -/

section LoopStates

variable {Conf Gold : Type} [Configuration Conf]

/-- The step of the loop of `Parse`: the configuration the classifier chooses, `none` when
it panics. -/
def parseStep (c : Conf) (tc : TransitionClassifier Conf Gold) : Option Conf :=
  match tc.TransitionWithConf c with
  | .ok (c1, _) => some c1
  | .error _ => none

/-- The step of the loop of `ParseOracle`: the configuration reached by the transition of
the oracle, `none` when the oracle panics. -/
def oracleStep (transFunc : TransitionSystem Conf Gold) (gold : Gold) (c : Conf)
    (_ : TransitionClassifier Conf Gold) : Option Conf :=
  match transFunc.Oracle gold c with
  | .ok transition => some (transFunc.Transition c transition)
  | .error _ => none

/-- The successive values of the configuration and the classifier at the head of a loop
`for !c.Terminal() { c = step; classifier.Increment(c) }`, from the entry of the loop to
where it stops (terminal configuration, panic of the step, or fuel used up). The state at
position `k` is the one after `k` transitions were applied. -/
def loopStates (step : Conf → TransitionClassifier Conf Gold → Option Conf) :
    Nat → Conf → TransitionClassifier Conf Gold → List (Conf × TransitionClassifier Conf Gold)
  | fuel, c, tc =>
    (c, tc) ::
      if Configuration.Terminal c = true then []
      else
        match fuel with
        | 0 => []
        | fuel + 1 =>
          match step c tc with
          | none => []
          | some c1 => loopStates step fuel c1 (tc.Increment c1)

end LoopStates

/-! ## Generations and the averaging strategy -/

/-- Modelled from the spec: integrating an accumulator at the end of training advances
`total` by `current * (generation - lastGeneration)` and replaces `current` with
`total / generation`, the integer quotient rounded toward zero, in `int64` arithmetic. The
spec does not say what generation 0 gives; the quotient is 0 then. -/
def HistoryValue.Integrate (h : HistoryValue) (generation : Int) : HistoryValue :=
  { current :=
      wrap64 ((wrap64 (h.total + h.current * (generation - h.lastGeneration))).tdiv generation)
    total := wrap64 (h.total + h.current * (generation - h.lastGeneration))
    lastGeneration := generation }

/-- Modelled from the spec: `AvgSparse.Integrate(generation)` integrates every allocated
cell of the shard. -/
def AvgSparse.Integrate (v : AvgSparse) (generation : Int) : AvgSparse :=
  { Vals := fun f tr => (v.Vals f tr).map (fun h => h.Integrate generation) }

/-- The method `AvgMatrixSparse.Integrate`. The method `Integrate` of a shard, which is not
part of the sources at hand, is the parameter `integrate`. -/
def AvgMatrixSparse.Integrate (integrate : AvgSparse → Int → AvgSparse)
    (t : AvgMatrixSparse) : AvgMatrixSparse :=
  { t with Mat := t.Mat.map (fun val => integrate val t.Generation) }

/-- The method `AvgMatrixSparse.IncrementGeneration`: `t.Generation += 1` on an `int`. -/
def AvgMatrixSparse.IncrementGeneration (t : AvgMatrixSparse) : AvgMatrixSparse :=
  { t with Generation := wrap64 (t.Generation + 1) }

/-- The matrices that pointers of type `*AvgMatrixSparse` point to, by address; an address
that holds nothing stands for the nil pointer. -/
abbrev Heap := Nat → Option AvgMatrixSparse

/-- The heap after the matrix at address `p` has been replaced by `t`. -/
def Heap.set (heap : Heap) (p : Nat) (t : AvgMatrixSparse) : Heap :=
  fun q => if q = p then some t else heap q

/-- A value of the interface `perceptron.Model`: a pointer to an `AvgMatrixSparse`, or a
value of another type (the nil interface included). -/
inductive ModelInterface where
  | avgMatrixSparse (p : Nat)
  | other
deriving DecidableEq, Repr

/-- The struct `AveragedModelStrategy`; `accumModel` is `none` for the nil pointer. -/
structure AveragedModelStrategy where
  P : Int
  N : Int
  accumModel : Option Nat
deriving DecidableEq, Repr

/-- The method `AveragedModelStrategy.Init`. -/
def AveragedModelStrategy.Init (u : AveragedModelStrategy) (m : ModelInterface)
    (iterations : Int) : Except String AveragedModelStrategy :=
  let u := { u with N := 0 }
  let u := { u with P := iterations }
  match m with
  | .other => .error "AveragedModelStrategy requires AvgMatrixSparse model"
  | .avgMatrixSparse avgModel => .ok { u with accumModel := some avgModel }

/-- The method `AveragedModelStrategy.Update`; the argument `m` is not used by the source.
The statement `u.N += 1` is on an `int`. -/
def AveragedModelStrategy.Update (u : AveragedModelStrategy) (heap : Heap)
    (_m : ModelInterface) : Except String (AveragedModelStrategy × Heap) :=
  match u.accumModel with
  | none => .error nilDereference
  | some p =>
    match heap p with
    | none => .error nilDereference
    | some t => .ok ({ u with N := wrap64 (u.N + 1) }, heap.set p t.IncrementGeneration)

/-- The method `AveragedModelStrategy.Finalize`; the argument `m` is not used by the source.
The product `u.P * u.N` is a product of `int`s. It returns the heap and the value
`u.accumModel` as a `perceptron.Model`. -/
def AveragedModelStrategy.Finalize (integrate : AvgSparse → Int → AvgSparse)
    (u : AveragedModelStrategy) (heap : Heap) (_m : ModelInterface) :
    Except String (Heap × ModelInterface) :=
  match u.accumModel with
  | none => .error nilDereference
  | some p =>
    match heap p with
    | none => .error nilDereference
    | some t =>
      .ok (heap.set p
          (AvgMatrixSparse.Integrate integrate { t with Generation := wrap64 (u.P * u.N) }),
        .avgMatrixSparse p)

/-- Successive calls of `Update`, one for each model of the list handed in. -/
def AveragedModelStrategy.updates (u : AveragedModelStrategy) (heap : Heap) :
    List ModelInterface → Except String (AveragedModelStrategy × Heap)
  | [] => .ok (u, heap)
  | m :: rest =>
    match u.Update heap m with
    | .error e => .error e
    | .ok (u1, heap1) => AveragedModelStrategy.updates u1 heap1 rest

/-- A heap with `zeroMatrix` at generation 5 at address 0 and `exampleMatrix` at address 1. -/
def exampleHeap : Heap :=
  fun q => if q = 0 then some { zeroMatrix with Generation := 5 }
    else if q = 1 then some exampleMatrix else none

/-- A strategy on which `Init` has not been called. -/
def newStrategy : AveragedModelStrategy := { P := 0, N := 0, accumModel := none }

/-! ## The enumeration of transitions -/

/-- Modelled from the spec: the registry `util.EnumSet`, which interns values as dense
integers (the type is not part of the sources at hand). `Index` lists the values by id. -/
structure EnumSet where
  Index : List String
deriving DecidableEq, Repr

/-- Modelled from the spec: `util.NewEnumSet(capacity)`, the registry with no value. -/
def NewEnumSet : EnumSet := { Index := [] }

/-- Modelled from the spec: `EnumSet.Add(value)` returns the id of the value and whether it
is new; a new value gets the next dense id. The registry is returned as well. -/
def EnumSet.Add (e : EnumSet) (value : String) : EnumSet × Nat × Bool :=
  if value ∈ e.Index then (e, e.Index.indexOf value, false)
  else ({ Index := e.Index ++ [value] }, e.Index.length, true)

/-- Modelled from the spec: `EnumSet.Len()`, the number of values interned. -/
def EnumSet.Len (e : EnumSet) : Nat := e.Index.length

/-- The package variables `SetupMorphTransEnum` assigns. -/
structure TransEnumeration where
  ETrans : EnumSet
  SH : Transition
  RE : Transition
  PR : Transition
  LA : Transition
  RA : Transition
  MD : Transition
deriving DecidableEq, Repr

/-- The loop `for _, transition := range relations { ETrans.Add(tag + transition) }`. -/
def addRelations (tag : String) : EnumSet → List String → EnumSet
  | ETrans, [] => ETrans
  | ETrans, transition :: rest => addRelations tag (ETrans.Add (tag ++ transition)).1 rest

/-- The function `SetupMorphTransEnum`; the constant `nlp.ROOT_LABEL`, which is not part of
the sources at hand, is a parameter. -/
def SetupMorphTransEnum (ROOT_LABEL : String) (relations : List String) : TransEnumeration :=
  let ETrans := NewEnumSet
  let ETrans := (ETrans.Add "NO").1
  let (ETrans, iSH, _) := ETrans.Add "SH"
  let (ETrans, iRE, _) := ETrans.Add "RE"
  let ETrans := (ETrans.Add "AL").1
  let ETrans := (ETrans.Add "AR").1
  let (ETrans, iPR, _) := ETrans.Add "PR"
  let SH : Transition := iSH
  let RE : Transition := iRE
  let PR : Transition := iPR
  let LA : Transition := PR + 1
  let ETrans := (ETrans.Add ("LA-" ++ ROOT_LABEL)).1
  let ETrans := addRelations "LA-" ETrans relations
  let RA : Transition := ETrans.Len
  let ETrans := (ETrans.Add ("RA-" ++ ROOT_LABEL)).1
  let ETrans := addRelations "RA-" ETrans relations
  let MD : Transition := ETrans.Len
  { ETrans := ETrans, SH := SH, RE := RE, PR := PR, LA := LA, RA := RA, MD := MD }

/-! ## Building the matrix, and the order of its shard updates -/

/-- The function `NewAvgMatrixSparse`; the package variable `AllOut` is a parameter. A
negative count makes `make` panic. -/
def NewAvgMatrixSparse (AllOut : Bool) (features : Int) (formatters : List String) :
    Except String AvgMatrixSparse :=
  if features < 0 then .error "runtime error: makeslice: len out of range"
  else
    .ok { Mat := List.replicate features.toNat NewAvgSparse
          Features := features
          Generation := 0
          Formatters := formatters
          Log := AllOut }

/-- The call `t.Mat[j].Add(t.Generation, intTrans, feat, amount)` that one goroutine of
`apply` makes. -/
structure ShardUpdate where
  j : Nat
  intTrans : Transition
  feat : Feature
  amount : Int
deriving DecidableEq, Repr

/-- The effect of one goroutine of `apply` on the shards, the shard lock making the call
of `Add` atomic. -/
def ShardUpdate.run (Generation : Int) (Mat : List AvgSparse) (u : ShardUpdate) :
    List AvgSparse :=
  match Mat[u.j]? with
  | some shard => Mat.set u.j (shard.Add Generation u.intTrans u.feat u.amount)
  | none => Mat

/-- The goroutines the loop of `apply` starts over a feature vector, from index `i` on, in
the order of the program. -/
def featureUpdates (intTrans : Transition) (amount : Int) :
    Nat → List (Option Feature) → List ShardUpdate
  | _, [] => []
  | i, none :: rest => featureUpdates intTrans amount (i + 1) rest
  | i, some feat :: rest => ⟨i, intTrans, feat, amount⟩ :: featureUpdates intTrans amount (i + 1) rest

/-- The goroutines `apply` starts on a feature list. -/
def applyUpdates (features : FeaturesList) (amount : Int) : List ShardUpdate :=
  match features with
  | f :: featuresList :: _ =>
    if f.Transition ≥ 96 then [] else featureUpdates f.Transition amount 0 featuresList.Features
  | _ => []

/-- The goroutines of `apply` that `AddSubtract` gives rise to, those of the recursive call
first. -/
def addSubtractUpdates : FeaturesList → FeaturesList → Int → List ShardUpdate
  | g :: gPrevious, _ :: fPrevious :: rest, amount =>
    addSubtractUpdates gPrevious (fPrevious :: rest) amount ++ applyUpdates (g :: gPrevious) amount
  | _, _, _ => []

/-- Two runs of a matrix operation have the same outcome: both panic with the same message,
or both return, with the same shards (hence the same weights in every cell). -/
def sameOutcome (r1 r2 : Except String AvgMatrixSparse) : Prop :=
  (∃ e, r1 = .error e ∧ r2 = .error e) ∨ (∃ s1 s2, r1 = .ok s1 ∧ r2 = .ok s2 ∧ s1.Mat = s2.Mat)

/-- A list whose head has transition 1 and whose second node has a feature at template 1
only. -/
def secondTemplateList : FeaturesList := [⟨[], 1⟩, ⟨[none, some 5], 0⟩]

/-! ## Training sequences -/

/-- The struct `ScoredConfiguration` as `TrainingSequences` fills it: the configuration, its
last transition and the feature list up to it. The remaining fields, which the function sets
to the constants `0.0`, `0`, `0`, `true`, are left out. -/
structure ScoredConfiguration (Conf : Type) where
  C : Conf
  Transition : Yap.Transition
  Features : FeaturesList
deriving DecidableEq, Repr

/-- The struct `perceptron.Decoded`, built as `&perceptron.Decoded{sent, goldSequence}`: an
instance and what it was decoded to. -/
structure Decoded (Sent Conf : Type) where
  InstanceVal : Sent
  DecodedVal : List (ScoredConfiguration Conf)
deriving DecidableEq, Repr

section Training

variable {Conf Sent Gold : Type} [Configuration Conf]

/-- The loop `for i := len(seq) - 1; i >= 0; i--` of `TrainingSequences`, over the
configurations still to visit (the sequence read from its end) and `lastFeatures`; it gives
the entries of `goldSequence` from index `len(seq)-i-1` on. -/
def goldSequenceLoop (extractor : Conf → List (Option Feature)) :
    List Conf → FeaturesList → List (ScoredConfiguration Conf)
  | [], _ => []
  | val :: rest, lastFeatures =>
    let curFeats := extractor val
    let lastFeatures := ⟨curFeats, Configuration.GetLastTransition val⟩ :: lastFeatures
    ⟨val, Configuration.GetLastTransition val, lastFeatures⟩
      :: goldSequenceLoop extractor rest lastFeatures

/-- The loop `for i, graph := range trainingSet` of `TrainingSequences` on the graphs still
to visit, `instances` and `failedTraining`. -/
def trainingLoop (deterministic : Deterministic Conf Sent Gold) (Sentence Lattice : Gold → Sent)
    (fuel : Nat) (tempModel : Transition → List (Option Feature) → Float64)
    (extractor : Conf → List (Option Feature)) :
    List Gold → List (Decoded Sent Conf) → Nat → Except Fault (List (Decoded Sent Conf) × Nat)
  | [], instances, failedTraining => .ok (instances, failedTraining)
  | graph :: rest, instances, failedTraining =>
    let sent := Lattice graph
    match deterministic.ParseOracle Sentence fuel graph (none : Option Unit) tempModel with
    | .error e => .error e
    | .ok (_, some goldParams) =>
      let seq := goldParams.Sequence
      let goldSequence := goldSequenceLoop extractor seq.reverse []
      let decoded : Decoded Sent Conf := ⟨sent, goldSequence⟩
      trainingLoop deterministic Sentence Lattice fuel tempModel extractor rest
        (instances ++ [decoded]) failedTraining
    | .ok (_, none) =>
      trainingLoop deterministic Sentence Lattice fuel tempModel extractor rest
        instances (failedTraining + 1)

/-- The function `TrainingSequences`; it returns `instances`, and with them the counter
`failedTraining` that the source logs. The base configuration `mconf` is taken as the
configuration it yields for a sentence, the methods `graph.Sentence()` and `graph.Lattice`
as functions, and the parameter model wrapping `NewAvgMatrixSparse(NumFeatures, nil)`, used
through its interface only, as `tempModel`. -/
def TrainingSequences (mconf : Sent → Conf) (Sentence Lattice : Gold → Sent) (fuel : Nat)
    (tempModel : Transition → List (Option Feature) → Float64)
    (trainingSet : List Gold) (transitionSystem : Option (TransitionSystem Conf Gold))
    (extractor : Conf → List (Option Feature)) :
    Except Fault (List (Decoded Sent Conf) × Nat) :=
  let deterministic : Deterministic Conf Sent Gold :=
    { TransFunc := transitionSystem
      FeatExtractor := extractor
      ReturnModelValue := false
      ReturnSequence := true
      ShowConsiderations := false
      Base := mconf
      NoRecover := false }
  trainingLoop deterministic Sentence Lattice fuel tempModel extractor trainingSet [] 0

/-- The instance `TrainingSequences` builds for a graph on which `ParseOracle` produced
result parameters; `none` for any other graph. -/
def trainingInstance (mconf : Sent → Conf) (Sentence Lattice : Gold → Sent) (fuel : Nat)
    (tempModel : Transition → List (Option Feature) → Float64)
    (transitionSystem : Option (TransitionSystem Conf Gold))
    (extractor : Conf → List (Option Feature)) (graph : Gold) : Option (Decoded Sent Conf) :=
  match (Deterministic.mk transitionSystem extractor false true false mconf false).ParseOracle
      Sentence fuel graph (none : Option Unit) tempModel with
  | .ok (_, some goldParams) =>
    some ⟨Lattice graph, goldSequenceLoop extractor goldParams.Sequence.reverse []⟩
  | _ => none

end Training

/-- A one-template matrix holding the single weight 3 at feature 5, transition 96. -/
def highMatrix : AvgMatrixSparse :=
  { Mat := [{ Vals := fun f tr => if f = 5 ∧ tr = 96 then some ⟨3, 0, 0⟩ else none }]
    Features := 1, Generation := 0, Formatters := ["t0"], Log := true }

/-! ### Vocabulary for comparing `AddSubtract` with `apply` -/

/-- Running `apply` with one amount on each feature list of a sequence in turn, on the matrix
the previous call left, up to the first panic. -/
def applyEach (amount : Int) : List FeaturesList → AvgMatrixSparse → Except String AvgMatrixSparse
  | [], t => .ok t
  | L :: Ls, t =>
    match t.apply L amount with
    | .error e => .error e
    | .ok t1 => applyEach amount Ls t1

/-- The feature lists headed by the first `n` nodes of `G`, the one headed by the head of
`G` first. -/
def goldSuffixes (G : FeaturesList) (n : Nat) : List FeaturesList :=
  (List.range n).map (fun j => G.drop j)

/-- The pairs (template `i`, feature) of a feature vector at which the feature is present,
templates counted from `start`. -/
def presentFeaturesFrom (start : Nat) (feats : List (Option Feature)) : List (Nat × Feature) :=
  (feats.enumFrom start).filterMap (fun x => x.2.map (fun feat => (x.1, feat)))

/-- The pairs (template `i`, feature) of a feature vector at which the feature is present. -/
def presentFeatures (feats : List (Option Feature)) : List (Nat × Feature) :=
  presentFeaturesFrom 0 feats

/-! ## Decoding a gold instance -/

/-- The struct `Perceptron.Decoded` as `DecodeGold` reads and builds it,
`&Perceptron.Decoded{instance, graph}`: `InstanceVal` is what the method `Instance()`
returns and `DecodedVal` what `Decoded()` returns, a dependency graph here. -/
structure PerceptronDecoded (Inst Gold : Type) where
  InstanceVal : Inst
  DecodedVal : Gold
deriving DecidableEq, Repr

section DecodeGold

variable {Conf Sent Gold Inst : Type} [Configuration Conf]

/-- The method `Deterministic.DecodeGold`. The assignment `d.ReturnModelValue = true` is the
update of the decoder that `ParseOracle` then runs on. `Equal` is the method `graph.Equal`,
whose argument is `none` for the nil graph; the type assertion on the result parameters
panics when they are nil. It returns the decoded instance and `parseParams.modelValue`. -/
def Deterministic.DecodeGold (d : Deterministic Conf Sent Gold) (Sentence : Gold → Sent)
    (Equal : Gold → Option Conf → Bool) (fuel : Nat) (goldInstance : PerceptronDecoded Inst Gold)
    (model : Transition → List (Option Feature) → Float64) :
    Except Fault (PerceptronDecoded Inst Gold × Option FeaturesList) :=
  let graph := goldInstance.DecodedVal
  let d1 : Deterministic Conf Sent Gold := { d with ReturnModelValue := true }
  match d1.ParseOracle Sentence fuel graph (none : Option Unit) model with
  | .error e => .error e
  | .ok (parsedGraph, parseParamsInterface) =>
    if Equal graph parsedGraph = false then
      .error (.panic "Oracle parse result does not equal gold")
    else
      match parseParamsInterface with
      | none => .error (.panic "interface conversion: interface is nil, not *ParseResultParameters")
      | some parseParams => .ok (⟨goldInstance.InstanceVal, graph⟩, parseParams.modelValue)

end DecodeGold

/-- Equality of a gold standard of `toySystem` with a parsed configuration: the
configuration has no step left and its last transition is the last of the gold list; the
nil graph equals no gold standard. -/
def toyEqual (gold : List Transition) : Option ToyConf → Bool
  | none => false
  | some c => c.remaining == 0 && gold.getLast? == some c.last

/-! ## Serialising the matrix -/

/-- The struct `AvgMatrixSparseSerialized`; `S` is the type of what `AvgSparse.Serialize`
returns. -/
structure AvgMatrixSparseSerialized (S : Type) where
  Generation : Int
  Features : List String
  Mat : List S
deriving DecidableEq, Repr

/-- The loop `for i, val := range t.Formatters` of `Serialize`, from index `i` on:
`serialized.Features[i] = fmt.Sprintf("%v", val)`, a formatter being kept as its printed
descriptor. -/
def descriptorsLoop : Nat → List String → List String → Except String (List String)
  | _, [], Features => .ok Features
  | i, val :: rest, Features =>
    if i < Features.length then descriptorsLoop (i + 1) rest (Features.set i val)
    else .error indexOutOfRange

/-- The method `AvgMatrixSparse.Serialize`; `shardSerialize` is the method
`AvgSparse.Serialize`. A negative `t.Features` makes `make` panic. -/
def AvgMatrixSparse.Serialize {S : Type} (shardSerialize : AvgSparse → S) (t : AvgMatrixSparse) :
    Except String (AvgMatrixSparseSerialized S) :=
  if t.Features < 0 then .error "runtime error: makeslice: len out of range"
  else
    match descriptorsLoop 0 t.Formatters (List.replicate t.Features.toNat "") with
    | .error e => .error e
    | .ok Features =>
      .ok { Generation := t.Generation, Features := Features, Mat := t.Mat.map shardSerialize }

/-- The method `AvgMatrixSparse.Deserialize`; `shardDeserialize val generation` is the shard
that `avgSparse.Deserialize(val, t.Generation)` fills. The fields `Formatters` and `Log` of
the receiver are not assigned. -/
def AvgMatrixSparse.Deserialize {S : Type} (shardDeserialize : S → Int → AvgSparse)
    (t : AvgMatrixSparse) (data : AvgMatrixSparseSerialized S) : AvgMatrixSparse :=
  { t with
    Generation := data.Generation
    Features := data.Mat.length
    Mat := data.Mat.map (fun val => shardDeserialize val data.Generation) }

/-- The matrix `&AvgMatrixSparse{}`, every field at its zero value. -/
def freshMatrix : AvgMatrixSparse :=
  { Mat := [], Features := 0, Generation := 0, Formatters := [], Log := false }

/-- A serialisation of shards for examples: the live weight of the cell of feature 5 and
transition 1. -/
def exampleSerialize (shard : AvgSparse) : Int := shard.Value 1 5

/-- The deserialisation for `exampleSerialize`: a shard holding the weight at that cell. -/
def exampleDeserialize (val : Int) (generation : Int) : AvgSparse :=
  { Vals := fun f tr => if f = 5 ∧ tr = 1 then some ⟨val, 0, generation⟩ else none }

/-! ## Matrices without formatters -/

/-- The method `AvgMatrixSparse.New`: `NewAvgMatrixSparse(t.Features, nil)`, the nil slice
of formatters being the empty list. -/
def AvgMatrixSparse.New (AllOut : Bool) (t : AvgMatrixSparse) : Except String AvgMatrixSparse :=
  NewAvgMatrixSparse AllOut t.Features []

/-- The loop of `SetTransitionScores`, from index `i` on: for every feature that is not nil,
read `t.Formatters[i]` when logging and then run `t.Mat[i].SetScores(feat, scores)`.
`SetScores` is the method of the shard, taken as the slice of scores it leaves. -/
def setScoresLoop (Log : Bool) (Formatters : List String)
    (SetScores : AvgSparse → Feature → List Int → List Int) (Mat : List AvgSparse) :
    Nat → List (Option Feature) → List Int → Except String (List Int)
  | _, [], scores => .ok scores
  | i, none :: rest, scores => setScoresLoop Log Formatters SetScores Mat (i + 1) rest scores
  | i, some feat :: rest, scores =>
    if Log = true ∧ Formatters.length ≤ i then .error indexOutOfRange
    else
      match Mat[i]? with
      | none => .error indexOutOfRange
      | some shard =>
        setScoresLoop Log Formatters SetScores Mat (i + 1) rest (SetScores shard feat scores)

/-- The method `AvgMatrixSparse.SetTransitionScores`; it returns the slice of scores. -/
def AvgMatrixSparse.SetTransitionScores (SetScores : AvgSparse → Feature → List Int → List Int)
    (t : AvgMatrixSparse) (features : List (Option Feature)) (scores : List Int) :
    Except String (List Int) :=
  setScoresLoop t.Log t.Formatters SetScores t.Mat 0 features scores

/-! ## The difference of two feature arrays -/

/-- The loop `for i < len(leftStr) || j < len(rightStr)` of `ArrayDiff`, on what is left of
the two sorted slices from `i` and from `j` on, and on `onlyLeft` and `onlyRight`.
`Strcmp` is `Util.Strcmp`. -/
def diffLoop (Strcmp : String → String → Int) :
    Nat → List String → List String → List String → List String →
      Except Fault (List String × List String)
  | _, [], [], onlyLeft, onlyRight => .ok (onlyLeft, onlyRight)
  | 0, _, _, _, _ => .error .outOfFuel
  | fuel + 1, a :: leftStr, b :: rightStr, onlyLeft, onlyRight =>
    let comp := Strcmp a b
    if comp = 0 then diffLoop Strcmp fuel leftStr rightStr onlyLeft onlyRight
    else if comp < 0 then
      diffLoop Strcmp fuel leftStr (b :: rightStr) (onlyLeft ++ [a]) onlyRight
    else diffLoop Strcmp fuel (a :: leftStr) rightStr onlyLeft (onlyRight ++ [b])
  | fuel + 1, a :: leftStr, [], onlyLeft, onlyRight =>
    diffLoop Strcmp fuel leftStr [] (onlyLeft ++ [a]) onlyRight
  | fuel + 1, [], b :: rightStr, onlyLeft, onlyRight =>
    diffLoop Strcmp fuel [] rightStr onlyLeft (onlyRight ++ [b])

/-- The function `ArrayDiff` on features that are strings; `sort.Strings` puts a slice in
ascending order. -/
def ArrayDiff (Strcmp : String → String → Int) (fuel : Nat) (left right : List String) :
    Except Fault (List String × List String) :=
  let leftStr := left.insertionSort (fun a b => a ≤ b)
  let rightStr := right.insertionSort (fun a b => a ≤ b)
  diffLoop Strcmp fuel leftStr rightStr [] []

/-- A three-way comparison of strings: 0 on equal strings, negative when the first is the
smaller, positive when it is the greater. -/
def exampleStrcmp (a b : String) : Int :=
  if a = b then 0 else if a < b then -1 else 1

/-! ## Lemmas on the matrix -/

theorem wrap64_add_left (a b : Int) : wrap64 (wrap64 a + b) = wrap64 (a + b) := by
  unfold wrap64; omega

theorem wrap64_zero : wrap64 0 = 0 := by decide

theorem wrap64_idem (a : Int) : wrap64 (wrap64 a) = wrap64 a := by
  unfold wrap64; omega

theorem wrap64_add_wrap (a b : Int) : wrap64 (a + wrap64 b) = wrap64 (a + b) := by
  unfold wrap64; omega

theorem wrap64_Value (s : AvgSparse) (tr : Transition) (f : Feature) :
    wrap64 (s.Value tr f) = s.Value tr f := by
  unfold AvgSparse.Value
  cases s.Vals f tr with
  | none => exact wrap64_zero
  | some h => exact wrap64_idem _

theorem wrap64_matCell (Mat : List AvgSparse) (i : Nat) (tr : Transition) (f : Feature) :
    wrap64 (matCell Mat i tr f) = matCell Mat i tr f := by
  unfold matCell
  cases Mat[i]? with
  | none => exact wrap64_zero
  | some shard => exact wrap64_Value shard tr f

theorem Value_Add (s : AvgSparse) (gen : Int) (tr : Transition) (feat : Feature) (a : Int)
    (tr1 : Transition) (f1 : Feature) :
    (s.Add gen tr feat a).Value tr1 f1
      = wrap64 (s.Value tr1 f1 + (if f1 = feat ∧ tr1 = tr then a else 0)) := by
  by_cases h : f1 = feat ∧ tr1 = tr
  · rw [if_pos h]
    unfold AvgSparse.Add AvgSparse.Value
    simp only [h, and_self, if_true]
    cases hv : s.Vals feat tr with
    | none => simp [wrap64_idem]
    | some hval => simp only [HistoryValue.Add, wrap64_idem, wrap64_add_left]
  · rw [if_neg h, Int.add_zero, wrap64_Value]
    unfold AvgSparse.Add AvgSparse.Value
    simp only [h, if_false]

theorem matCell_set (Mat : List AvgSparse) (i : Nat) (s : AvgSparse) (hi : i < Mat.length)
    (j : Nat) (tr : Transition) (f : Feature) :
    matCell (Mat.set i s) j tr f = if j = i then s.Value tr f else matCell Mat j tr f := by
  unfold matCell
  by_cases hji : j = i
  · subst hji
    simp [List.getElem?_set, hi]
  · have : i ≠ j := fun h => hji h.symm
    simp [List.getElem?_set, this, hji]

/-- The loop of `apply` succeeds on a feature vector that fits and adds the amount, in
`int64` arithmetic, to the cell of each feature present, at the transition applied, leaving
every other cell. -/
theorem applyLoop_cell (Log : Bool) (Fm : List String) (gen : Int) (tr : Transition) (a : Int) :
    ∀ (feats : List (Option Feature)) (i : Nat) (Mat : List AvgSparse),
      i + feats.length ≤ Mat.length →
      (Log = true → i + feats.length ≤ Fm.length) →
      ∃ Mat1, applyLoop Log Fm gen tr a i feats Mat = .ok Mat1 ∧ Mat1.length = Mat.length ∧
        ∀ (j : Nat) (tr1 : Transition) (f1 : Feature),
          matCell Mat1 j tr1 f1 = wrap64 (matCell Mat j tr1 f1 +
            (if tr1 = tr ∧ i ≤ j ∧ feats[j - i]? = some (some f1) then a else 0)) := by
  intro feats
  induction feats with
  | nil =>
    intro i Mat _ _
    exact ⟨Mat, rfl, rfl, by intro j tr1 f1; simp [wrap64_matCell]⟩
  | cons x rest ih =>
    intro i Mat hM hF
    simp only [List.length_cons] at hM hF
    cases x with
    | none =>
      obtain ⟨Mat1, h1, h2, h3⟩ := ih (i + 1) Mat (by omega) (fun h => by have := hF h; omega)
      refine ⟨Mat1, by simpa [applyLoop] using h1, h2, ?_⟩
      intro j tr1 f1
      rw [h3 j tr1 f1]
      congr 2
      by_cases hj : i + 1 ≤ j
      · obtain ⟨k, rfl⟩ : ∃ k, j = i + 1 + k := ⟨j - (i + 1), by omega⟩
        have e1 : i + 1 + k - (i + 1) = k := by omega
        have e2 : i + 1 + k - i = k + 1 := by omega
        have e3 : i ≤ i + 1 + k := by omega
        simp [e1, e2, e3]
      · by_cases hji : j = i
        · subst hji; simp
        · have : ¬ i ≤ j := by omega
          simp [hj, this]
    | some feat =>
      have hi : i < Mat.length := by omega
      have hlog : ¬ (Log = true ∧ Fm.length ≤ i) := by
        rintro ⟨h, h1⟩
        have := hF h
        omega
      have hget : Mat[i]? = some (Mat[i]) := List.getElem?_eq_getElem hi
      obtain ⟨Mat1, h1, h2, h3⟩ := ih (i + 1) (Mat.set i ((Mat[i]).Add gen tr feat a))
        (by simp; omega) (fun h => by have := hF h; omega)
      refine ⟨Mat1, ?_, by simpa using h2, ?_⟩
      · simp only [applyLoop, hlog, if_false, hget]
        exact h1
      · intro j tr1 f1
        rw [h3 j tr1 f1, matCell_set _ _ _ hi]
        by_cases hj : i + 1 ≤ j
        · obtain ⟨k, rfl⟩ : ∃ k, j = i + 1 + k := ⟨j - (i + 1), by omega⟩
          have e1 : i + 1 + k - (i + 1) = k := by omega
          have e2 : i + 1 + k - i = k + 1 := by omega
          have e3 : i ≤ i + 1 + k := by omega
          have e4 : i + 1 + k ≠ i := by omega
          simp [e1, e2, e3, e4]
        · by_cases hji : j = i
          · subst hji
            have hc : matCell Mat j tr1 f1 = (Mat[j]).Value tr1 f1 := by
              unfold matCell; rw [hget]
            have hno : ¬ (tr1 = tr ∧ j + 1 ≤ j ∧ rest[j - (j + 1)]? = some (some f1)) := by
              rintro ⟨_, h, _⟩; omega
            rw [if_pos rfl, if_neg hno, Int.add_zero, Value_Add, wrap64_idem, hc]
            congr 2
            by_cases hf : f1 = feat
            · subst hf; simp
            · have : ¬ feat = f1 := fun h => hf h.symm
              simp [hf, this]
          · have : ¬ i ≤ j := by omega
            simp [hj, this, hji]

theorem scoreLoop_ok (Mat : List AvgSparse) (tr : Transition) :
    ∀ (feats : List (Option Feature)) (i : Nat) (acc : Int),
      i + feats.length ≤ Mat.length → ∃ r, scoreLoop Mat tr i feats acc = .ok r := by
  intro feats
  induction feats with
  | nil => intro i acc _; exact ⟨acc, rfl⟩
  | cons x rest ih =>
    intro i acc h
    simp only [List.length_cons] at h
    cases x with
    | none =>
      obtain ⟨r, hr⟩ := ih (i + 1) acc (by omega)
      exact ⟨r, by simpa [scoreLoop] using hr⟩
    | some feat =>
      have hi : i < Mat.length := by omega
      have hget : Mat[i]? = some (Mat[i]) := List.getElem?_eq_getElem hi
      obtain ⟨r, hr⟩ := ih (i + 1) (wrap64 (acc + (Mat[i]).Value tr feat)) (by omega)
      exact ⟨r, by simp only [scoreLoop, hget]; exact hr⟩
theorem apply_cell (t : AvgMatrixSparse) (n p : FeaturesNode) (rest : FeaturesList) (a : Int)
    (hfit : t.fits p) :
    ∃ t1, t.apply (n :: p :: rest) a = .ok t1 ∧ t1.Mat.length = t.Mat.length ∧
      t1.Log = t.Log ∧ t1.Formatters = t.Formatters ∧ t1.Generation = t.Generation ∧
      t1.Features = t.Features ∧
      ∀ (i : Nat) (tr : Transition) (f : Feature),
        t1.cell i tr f = wrap64 (t.cell i tr f +
          (if n.Transition < 96 ∧ n.Transition = tr ∧ p.Features[i]? = some (some f)
            then a else 0)) := by
  by_cases h96 : n.Transition ≥ 96
  · refine ⟨t, by simp [AvgMatrixSparse.apply, h96], rfl, rfl, rfl, rfl, rfl, ?_⟩
    intro i tr f
    have : ¬ n.Transition < 96 := not_lt.mpr h96
    simp [this, AvgMatrixSparse.cell, wrap64_matCell]
  · obtain ⟨Mat1, h1, h2, h3⟩ := applyLoop_cell t.Log t.Formatters t.Generation n.Transition a
      p.Features 0 t.Mat (by simpa using hfit.1) (fun h => by simpa using hfit.2 h)
    refine ⟨{ t with Mat := Mat1 }, by simp [AvgMatrixSparse.apply, h96, h1], h2, rfl, rfl,
      rfl, rfl, ?_⟩
    intro i tr f
    have hlt : n.Transition < 96 := lt_of_not_ge h96
    simp only [AvgMatrixSparse.cell, h3 i tr f]
    congr 2
    by_cases htr : tr = n.Transition
    · subst htr; simp [hlt]
    · have : ¬ n.Transition = tr := fun h => htr h.symm
      simp [htr, this]

theorem addSubtract_cell (a : Int) :
    ∀ (D G : FeaturesList) (t : AvgMatrixSparse), D ≠ [] → D.length ≤ G.length + 1 →
      (∀ n ∈ G, t.fits n) →
      ∃ t1, t.AddSubtract G D a = .ok t1 ∧ t1.Mat.length = t.Mat.length ∧
        t1.Log = t.Log ∧ t1.Formatters = t.Formatters ∧ t1.Generation = t.Generation ∧
        t1.Features = t.Features ∧
        ∀ (i : Nat) (tr : Transition) (f : Feature),
          t1.cell i tr f
            = wrap64 (t.cell i tr f + a * (touches (G.take D.length) i tr f : Int)) := by
  intro D
  induction D with
  | nil => intro G t h; exact absurd rfl h
  | cons d rest ih =>
    intro G t _ hlen hfit
    cases rest with
    | nil =>
      refine ⟨t, by cases G <;> simp [AvgMatrixSparse.AddSubtract], rfl, rfl, rfl, rfl, rfl, ?_⟩
      intro i tr f
      cases G with
      | nil => simp [touches, AvgMatrixSparse.cell, wrap64_matCell]
      | cons g gs => simp [touches, AvgMatrixSparse.cell, wrap64_matCell]
    | cons d1 rest =>
      cases G with
      | nil => simp at hlen
      | cons g gPrev =>
        obtain ⟨t1, h1, hM, hL, hF, hG, hFe, hc⟩ := ih gPrev t (by simp)
          (by simp only [List.length_cons] at hlen ⊢; omega)
          (fun n hn => hfit n (List.mem_cons_of_mem _ hn))
        cases gPrev with
        | nil =>
          refine ⟨t1, ?_, hM, hL, hF, hG, hFe, ?_⟩
          · simp only [AvgMatrixSparse.AddSubtract, h1]
            simp [AvgMatrixSparse.apply]
          · intro i tr f
            rw [hc i tr f]
            simp [touches]
        | cons p r =>
          have hfp : t1.fits p := by
            have := hfit p (by simp)
            simpa [AvgMatrixSparse.fits, hM, hL, hF] using this
          obtain ⟨t2, h2, hM2, hL2, hF2, hG2, hFe2, hc2⟩ := apply_cell t1 g p r a hfp
          refine ⟨t2, ?_, hM2.trans hM, hL2.trans hL, hF2.trans hF, hG2.trans hG,
            hFe2.trans hFe, ?_⟩
          · simp only [AvgMatrixSparse.AddSubtract, h1]
            exact h2
          · intro i tr f
            rw [hc2 i tr f, hc i tr f, wrap64_add_left]
            congr 1
            simp only [List.length_cons, List.take_succ_cons, touches]
            split_ifs <;> push_cast <;> ring

/-! ## Score additivity (C1) -/

/-- C1, as stated, fails: on `exampleMatrix` the list `exampleList` scores 1 although
`TransitionScore(n.transition, n.features)` is 0 for both of its nodes, and the score of the
empty (nil) list is a nil dereference, not 0. -/
theorem score_not_sum_of_node_scores :
    exampleMatrix.Score exampleList = .ok 1 ∧
    exampleList.map (fun n => exampleMatrix.TransitionScore n.Transition n.Features)
      = [.ok 0, .ok 0] ∧
    exampleMatrix.Score [] = .error nilDereference := by
  decide

/-- C1, amended: for a list with at least one node whose feature vectors below the head have
no more entries than the matrix has templates, `Score` returns the `int64` sum of
`TransitionScore(n.transition, p.features)` over the nodes `n` that have a predecessor `p`;
in particular a list of one node scores 0. -/
theorem score_eq_sum_of_pair_scores (t : AvgMatrixSparse) (L : FeaturesList) (hne : L ≠ [])
    (hfit : ∀ n ∈ L.tail, n.Features.length ≤ t.Mat.length) :
    ∃ scores : List Int,
      List.Forall₂ (fun p s => t.TransitionScore p.1 p.2 = .ok s) (transitionPairs L) scores ∧
      t.Score L = .ok (wrap64 scores.sum) := by
  induction L with
  | nil => exact absurd rfl hne
  | cons f rest ih =>
    cases rest with
    | nil => exact ⟨[], by simp [transitionPairs], by simp [AvgMatrixSparse.Score, wrap64_zero]⟩
    | cons p rest =>
      obtain ⟨scores, hs, hscore⟩ := ih (by simp) (fun n hn => hfit n (by
        simp only [List.tail_cons] at hn ⊢
        exact List.mem_cons_of_mem _ hn))
      have hp : p.Features.length ≤ t.Mat.length := hfit p (by simp)
      obtain ⟨r, hr⟩ := scoreLoop_ok t.Mat f.Transition p.Features 0 0 (by omega)
      refine ⟨r :: scores, ?_, ?_⟩
      · simp only [transitionPairs]
        refine List.Forall₂.cons ?_ hs
        simp only [AvgMatrixSparse.TransitionScore]
        rw [if_neg (by omega)]
        exact hr
      · simp only [AvgMatrixSparse.Score, hscore, hr, List.sum_cons]
        rw [wrap64_add_left, add_comm]

/-- The amended C1 at `exampleMatrix` and `exampleList`. -/
theorem score_eq_sum_of_pair_scores_witness :
    ∃ scores : List Int,
      List.Forall₂ (fun p s => exampleMatrix.TransitionScore p.1 p.2 = .ok s)
        (transitionPairs exampleList) scores ∧
      exampleMatrix.Score exampleList = .ok (wrap64 scores.sum) :=
  score_eq_sum_of_pair_scores exampleMatrix exampleList (by decide) (by decide)

/-! ## Symmetric update (C2, C3) -/

/-- C2 at a failing input: with the gold and the decoded list both `exampleList` and
amount 1, `AddSubtract` raises the weight of the cell (template 0, transition 1, feature 5)
of the empty matrix from 0 to 1. -/
theorem addSubtract_same_list_changes_cell :
    zeroMatrix.cell 0 1 5 = 0 ∧
    (zeroMatrix.AddSubtract exampleList exampleList 1).map (fun t => t.cell 0 1 5) = .ok 1 := by
  decide

/-- C3, as stated, fails: a gold node with transition 96 gets no update at all, and a gold
node is updated at the features of its predecessor (feature 5), not at its own (feature 7). -/
theorem addSubtract_not_on_node_cells :
    (zeroMatrix.AddSubtract highList decodedList 1).map
      (fun t => (t.cell 0 96 7, t.cell 0 96 5)) = .ok (0, 0) ∧
    (zeroMatrix.AddSubtract exampleList decodedList 1).map
      (fun t => (t.cell 0 1 7, t.cell 0 1 5)) = .ok (0, 1) := by
  decide

/-- C3, amended: for gold and decoded lists of equal length, at least one node each, whose
gold feature vectors fit the matrix, `AddSubtract` returns, and at every cell that no decoded
node addresses the weight has grown by the amount times the number of gold nodes addressing
the cell, in `int64` arithmetic (the sum is reduced by `wrap64`). A node addresses the cells
(template, its transition, feature of its predecessor at that template) when it has a
predecessor and its transition is below 96. -/
theorem addSubtract_gold_effect (t : AvgMatrixSparse) (G D : FeaturesList) (a : Int)
    (hlen : G.length = D.length) (hne : D ≠ []) (hfit : ∀ n ∈ G, t.fits n) :
    ∃ t1, t.AddSubtract G D a = .ok t1 ∧
      ∀ (i : Nat) (tr : Transition) (f : Feature), touches D i tr f = 0 →
        t1.cell i tr f = wrap64 (t.cell i tr f + a * (touches G i tr f : Int)) := by
  obtain ⟨t1, h1, _, _, _, _, _, hc⟩ := addSubtract_cell a D G t hne (by omega) hfit
  refine ⟨t1, h1, ?_⟩
  intro i tr f _
  rw [hc i tr f, ← hlen, List.take_length]

/-- The amended C3 at `zeroMatrix`, gold `exampleList`, decoded `decodedList`, amount 1. -/
theorem addSubtract_gold_effect_witness :
    ∃ t1, zeroMatrix.AddSubtract exampleList decodedList 1 = .ok t1 ∧
      ∀ (i : Nat) (tr : Transition) (f : Feature), touches decodedList i tr f = 0 →
        t1.cell i tr f
          = wrap64 (zeroMatrix.cell i tr f + 1 * (touches exampleList i tr f : Int)) :=
  addSubtract_gold_effect zeroMatrix exampleList decodedList 1 (by decide) (by decide)
    (by decide)

/-! ## Add and Subtract (C4) -/

/-- C4, as stated, fails: `Add` on a list of three nodes updates the cell of the head only
(transition 1 at the feature 5 of its predecessor); no cell of the second node, with
transition 2, is updated, at its own feature 5 or at its predecessor feature 3. -/
theorem add_updates_head_only :
    (zeroMatrix.Add threeList).map
      (fun t => (t.cell 0 1 5, t.cell 0 2 5, t.cell 0 2 3)) = .ok (1, 0, 0) := by
  decide

/-- C4, amended: on a list whose head `n` has a predecessor `p` with a feature vector that
fits, `Add` applies +1 and `Subtract` applies -1, in `int64` arithmetic (the sum is reduced
by `wrap64`), to the cell (template, transition of `n`, feature of `p` at that template) for
each template whose feature at `p` is present, provided the transition of `n` is below 96;
every other cell keeps its weight and no deeper node is visited. On a list of one node both
return the matrix as it is. -/
theorem add_subtract_head_cells (t : AvgMatrixSparse) (n p : FeaturesNode)
    (rest : FeaturesList) (hfit : t.fits p) :
    (∃ t1, t.Add (n :: p :: rest) = .ok t1 ∧
      ∀ (i : Nat) (tr : Transition) (f : Feature),
        t1.cell i tr f = wrap64 (t.cell i tr f +
          (if n.Transition < 96 ∧ n.Transition = tr ∧ p.Features[i]? = some (some f)
            then 1 else 0))) ∧
    (∃ t2, t.Subtract (n :: p :: rest) = .ok t2 ∧
      ∀ (i : Nat) (tr : Transition) (f : Feature),
        t2.cell i tr f = wrap64 (t.cell i tr f +
          (if n.Transition < 96 ∧ n.Transition = tr ∧ p.Features[i]? = some (some f)
            then -1 else 0))) ∧
    t.Add [n] = .ok t ∧ t.Subtract [n] = .ok t := by
  obtain ⟨t1, h1, _, _, _, _, _, hc1⟩ := apply_cell t n p rest 1 hfit
  obtain ⟨t2, h2, _, _, _, _, _, hc2⟩ := apply_cell t n p rest (-1) hfit
  exact ⟨⟨t1, h1, hc1⟩, ⟨t2, h2, hc2⟩, rfl, rfl⟩

/-- The amended C4 at `zeroMatrix` and `threeList`. -/
theorem add_subtract_head_cells_witness :
    (∃ t1, zeroMatrix.Add threeList = .ok t1 ∧
      ∀ (i : Nat) (tr : Transition) (f : Feature),
        t1.cell i tr f = wrap64 (zeroMatrix.cell i tr f +
          (if (1 : Int) < 96 ∧ (1 : Int) = tr ∧ [some 5][i]? = some (some f) then 1 else 0))) ∧
    (∃ t2, zeroMatrix.Subtract threeList = .ok t2 ∧
      ∀ (i : Nat) (tr : Transition) (f : Feature),
        t2.cell i tr f = wrap64 (zeroMatrix.cell i tr f +
          (if (1 : Int) < 96 ∧ (1 : Int) = tr ∧ [some 5][i]? = some (some f) then -1 else 0))) ∧
    zeroMatrix.Add [⟨[some 7], 1⟩] = .ok zeroMatrix ∧
    zeroMatrix.Subtract [⟨[some 7], 1⟩] = .ok zeroMatrix :=
  add_subtract_head_cells zeroMatrix ⟨[some 7], 1⟩ ⟨[some 5], 2⟩ [⟨[some 3], 0⟩] (by decide)

/-! ## Lemmas on the comparison of floating-point values -/

theorem Float64.gt_irrefl (a : Float64) : a.gt a = false := by
  cases a with
  | NaN => rfl
  | Inf s => cases s <;> rfl
  | Fin s m => simp [Float64.gt]

theorem Float64.gt_not_NaN_left (a b : Float64) (h : a.gt b = true) : a.isNaN = false := by
  cases a <;> cases b <;> simp_all [Float64.gt, Float64.isNaN]

theorem Float64.gt_not_NaN_right (a b : Float64) (h : a.gt b = true) : b.isNaN = false := by
  cases a <;> cases b <;> simp_all [Float64.gt, Float64.isNaN]

theorem Float64.gt_trans (a b c : Float64) (h1 : a.gt b = true) (h2 : b.gt c = true) :
    a.gt c = true := by
  cases a <;> cases b <;> cases c <;> simp_all [Float64.gt]
  omega

/-- A value greater than `t` is greater than every number that is not greater than `t`. -/
theorem Float64.gt_of_gt_of_not_gt (x t u : Float64) (h1 : x.gt t = true)
    (h2 : u.gt t = false) (h3 : u.isNaN = false) : x.gt u = true := by
  cases x <;> cases t <;> cases u <;> simp_all [Float64.gt, Float64.isNaN]
  omega

/-! ## Lemmas on the classifier -/

section ClassifierLemmas

variable {Conf Gold : Type} [Configuration Conf]

/-- The loop of `TransitionWithConf`, started on a best candidate taken from the transitions
already seen, ends on a candidate than which no transition has a greater score, every
transition before it having a smaller score or a score that is not a number. -/
theorem considerLoop_best (tc : TransitionClassifier Conf Gold) (c : Conf) :
    ∀ (rest pre : List Transition) (k : Nat) (t : Transition),
      pre[k]? = some t →
      (∀ (j : Nat) (u : Transition), pre[j]? = some u →
        (tc.ScoreWithConf (tc.TransFunc.Transition c u)).gt
          (tc.ScoreWithConf (tc.TransFunc.Transition c t)) = false) →
      (∀ (j : Nat) (u : Transition), j < k → pre[j]? = some u →
        (tc.ScoreWithConf (tc.TransFunc.Transition c t)).gt
            (tc.ScoreWithConf (tc.TransFunc.Transition c u)) = true ∨
          (tc.ScoreWithConf (tc.TransFunc.Transition c u)).isNaN = true) →
      ∃ (k1 : Nat) (t1 : Transition),
        tc.considerLoop c rest
            (tc.ScoreWithConf (tc.TransFunc.Transition c t),
              some (tc.TransFunc.Transition c t), t)
          = (tc.ScoreWithConf (tc.TransFunc.Transition c t1),
              some (tc.TransFunc.Transition c t1), t1) ∧
        (pre ++ rest)[k1]? = some t1 ∧
        (∀ (j : Nat) (u : Transition), (pre ++ rest)[j]? = some u →
          (tc.ScoreWithConf (tc.TransFunc.Transition c u)).gt
            (tc.ScoreWithConf (tc.TransFunc.Transition c t1)) = false) ∧
        (∀ (j : Nat) (u : Transition), j < k1 → (pre ++ rest)[j]? = some u →
          (tc.ScoreWithConf (tc.TransFunc.Transition c t1)).gt
              (tc.ScoreWithConf (tc.TransFunc.Transition c u)) = true ∨
            (tc.ScoreWithConf (tc.TransFunc.Transition c u)).isNaN = true) := by
  intro rest
  induction rest with
  | nil =>
    intro pre k t hk hmax hfirst
    exact ⟨k, t, rfl, by simpa using hk, by simpa using hmax, by simpa using hfirst⟩
  | cons x rest ih =>
    intro pre k t hk hmax hfirst
    have hklt : k < pre.length := by
      by_contra h
      rw [List.getElem?_eq_none (by omega)] at hk
      exact Option.noConfusion hk
    have happ : pre ++ x :: rest = (pre ++ [x]) ++ rest := by simp
    by_cases hgt : (tc.ScoreWithConf (tc.TransFunc.Transition c x)).gt
        (tc.ScoreWithConf (tc.TransFunc.Transition c t)) = true
    · obtain ⟨k1, t1, h1, h2, h3, h4⟩ := ih (pre ++ [x]) pre.length x (by simp)
        (by
          intro j u hj
          by_cases hjl : j < pre.length
          · rw [List.getElem?_append_left hjl] at hj
            cases hu : (tc.ScoreWithConf (tc.TransFunc.Transition c u)).gt
                (tc.ScoreWithConf (tc.TransFunc.Transition c x)) with
            | false => rfl
            | true =>
              have := Float64.gt_trans _ _ _ hu hgt
              rw [hmax j u hj] at this
              exact Bool.noConfusion this
          · by_cases hje : j = pre.length
            · subst hje
              simp at hj
              subst hj
              exact Float64.gt_irrefl _
            · rw [List.getElem?_eq_none (by simp; omega)] at hj
              exact Option.noConfusion hj)
        (by
          intro j u hjl hj
          rw [List.getElem?_append_left hjl] at hj
          cases hn : (tc.ScoreWithConf (tc.TransFunc.Transition c u)).isNaN with
          | true => exact Or.inr rfl
          | false => exact Or.inl (Float64.gt_of_gt_of_not_gt _ _ _ hgt (hmax j u hj) hn))
      refine ⟨k1, t1, ?_, by rw [happ]; exact h2, by rw [happ]; exact h3,
        by rw [happ]; exact h4⟩
      simp only [TransitionClassifier.considerLoop, Option.isNone_some, hgt, or_true, if_true]
      exact h1
    · obtain ⟨k1, t1, h1, h2, h3, h4⟩ := ih (pre ++ [x]) k t
        (by rw [List.getElem?_append_left hklt]; exact hk)
        (by
          intro j u hj
          by_cases hjl : j < pre.length
          · rw [List.getElem?_append_left hjl] at hj
            exact hmax j u hj
          · by_cases hje : j = pre.length
            · subst hje
              simp at hj
              subst hj
              simpa using hgt
            · rw [List.getElem?_eq_none (by simp; omega)] at hj
              exact Option.noConfusion hj)
        (by
          intro j u hjk hj
          rw [List.getElem?_append_left (by omega)] at hj
          exact hfirst j u hjk hj)
      refine ⟨k1, t1, ?_, by rw [happ]; exact h2, by rw [happ]; exact h3,
        by rw [happ]; exact h4⟩
      simp only [TransitionClassifier.considerLoop, Option.isNone_some, hgt, or_false]
      exact h1

/-- What `TransitionWithConf` returns on a non-empty sequence of transitions. -/
theorem transitionWithConf_spec (tc : TransitionClassifier Conf Gold) (c : Conf)
    (hne : tc.TransFunc.YieldTransitions c ≠ []) :
    ∃ (k : Nat) (t : Transition),
      tc.TransitionWithConf c = .ok (tc.TransFunc.Transition c t, t) ∧
      (tc.TransFunc.YieldTransitions c)[k]? = some t ∧
      (∀ (j : Nat) (u : Transition), (tc.TransFunc.YieldTransitions c)[j]? = some u →
        (tc.ScoreWithConf (tc.TransFunc.Transition c u)).gt
          (tc.ScoreWithConf (tc.TransFunc.Transition c t)) = false) ∧
      (∀ (j : Nat) (u : Transition), j < k → (tc.TransFunc.YieldTransitions c)[j]? = some u →
        (tc.ScoreWithConf (tc.TransFunc.Transition c t)).gt
            (tc.ScoreWithConf (tc.TransFunc.Transition c u)) = true ∨
          (tc.ScoreWithConf (tc.TransFunc.Transition c u)).isNaN = true) := by
  cases hy : tc.TransFunc.YieldTransitions c with
  | nil => exact absurd hy hne
  | cons x rest =>
    obtain ⟨k1, t1, h1, h2, h3, h4⟩ := considerLoop_best tc c rest [x] 0 x (by simp)
      (by
        intro j u hj
        cases j with
        | zero => simp at hj; subst hj; exact Float64.gt_irrefl _
        | succ j => simp at hj)
      (by intro j u hj; omega)
    refine ⟨k1, t1, ?_, by simpa using h2, by simpa using h3, by simpa using h4⟩
    simp only [TransitionClassifier.TransitionWithConf, hy, TransitionClassifier.considerLoop,
      Option.isNone_none, true_or, if_true, h1]

/-- The method `TransitionWithConf` returns the configuration reached by the transition it
returns. -/
theorem transitionWithConf_conf (tc : TransitionClassifier Conf Gold) (c c1 : Conf)
    (t : Transition) (h : tc.TransitionWithConf c = .ok (c1, t)) :
    c1 = tc.TransFunc.Transition c t := by
  by_cases hne : tc.TransFunc.YieldTransitions c = []
  · simp [TransitionClassifier.TransitionWithConf, hne, TransitionClassifier.considerLoop] at h
  · obtain ⟨k, t1, h1, _⟩ := transitionWithConf_spec tc c hne
    rw [h1] at h
    injection h with h
    injection h with ha hb
    subst hb
    exact ha.symm

theorem transitionWithConf_empty (tc : TransitionClassifier Conf Gold) (c : Conf)
    (h : tc.TransFunc.YieldTransitions c = []) :
    tc.TransitionWithConf c = .error "Got no best transition - what's going on here?" := by
  simp [TransitionClassifier.TransitionWithConf, h, TransitionClassifier.considerLoop]

end ClassifierLemmas

/-! ## Lemmas on the decoding loops -/

section LoopLemmas

variable {Conf Sent Gold : Type} [Configuration Conf]

theorem parseLoop_terminal :
    ∀ (fuel : Nat) (c : Conf) (tc : TransitionClassifier Conf Gold)
      (c1 : Conf) (tc1 : TransitionClassifier Conf Gold),
      parseLoop fuel c tc = .ok (c1, tc1) → Configuration.Terminal c1 = true := by
  intro fuel
  induction fuel with
  | zero =>
    intro c tc c1 tc1 h
    unfold parseLoop at h
    split_ifs at h with ht
    · injection h with h; injection h with h1 h2; subst h1; exact ht
  | succ n ih =>
    intro c tc c1 tc1 h
    unfold parseLoop at h
    split_ifs at h with ht
    · injection h with h; injection h with h1 h2; subst h1; exact ht
    · simp only at h
      split at h
      · exact Except.noConfusion h
      · exact ih _ _ _ _ h

theorem oracleLoop_terminal (transFunc : TransitionSystem Conf Gold) (gold : Gold) :
    ∀ (fuel : Nat) (c : Conf) (tc : TransitionClassifier Conf Gold)
      (c1 : Conf) (tc1 : TransitionClassifier Conf Gold),
      oracleLoop transFunc gold fuel c tc = .ok (c1, tc1) →
        Configuration.Terminal c1 = true := by
  intro fuel
  induction fuel with
  | zero =>
    intro c tc c1 tc1 h
    unfold oracleLoop at h
    split_ifs at h with ht
    · injection h with h; injection h with h1 h2; subst h1; exact ht
  | succ n ih =>
    intro c tc c1 tc1 h
    unfold oracleLoop at h
    split_ifs at h with ht
    · injection h with h; injection h with h1 h2; subst h1; exact ht
    · simp only at h
      split at h
      · exact Except.noConfusion h
      · exact ih _ _ _ _ h

/-- When the early-update loop returns no gold feature list, the configuration it returns
is terminal. -/
theorem earlyUpdateLoop_terminal (d : Deterministic Conf Sent Gold)
    (transFunc : TransitionSystem Conf Gold) (classifier : TransitionClassifier Conf Gold)
    (gold : Gold) :
    ∀ (fuel : Nat) (c : Conf) (pred : FeaturesList) (i : Nat)
      (c1 : Conf) (pred1 : FeaturesList) (i1 : Nat),
      earlyUpdateLoop d transFunc classifier gold fuel c pred i = .ok (c1, [], pred1, i1) →
        Configuration.Terminal c1 = true := by
  intro fuel
  induction fuel with
  | zero =>
    intro c pred i c1 pred1 i1 h
    unfold earlyUpdateLoop at h
    split_ifs at h with ht
    · injection h with h; injection h with h1 h2; subst h1; exact ht
  | succ n ih =>
    intro c pred i c1 pred1 i1 h
    unfold earlyUpdateLoop at h
    split_ifs at h with ht
    · injection h with h; injection h with h1 h2; subst h1; exact ht
    · simp only at h
      split at h
      · exact Except.noConfusion h
      · split at h
        · exact Except.noConfusion h
        · split_ifs at h with hne
          · injection h with h
            injection h with h1 h2
            injection h2 with h2 h3
            exact List.noConfusion h2
          · exact ih _ _ _ _ _ _ h

/-- An oracle failure after `k` steps makes the loop of `ParseOracle` panic with the
message of the oracle, whenever the fuel exceeds `k`. -/
theorem oracleLoop_failure (transFunc : TransitionSystem Conf Gold) (gold : Gold) :
    ∀ (k : Nat) (c : Conf) (e : String), oracleFailure transFunc gold k c = some e →
      ∀ (fuel : Nat) (tc : TransitionClassifier Conf Gold), k < fuel →
        oracleLoop transFunc gold fuel c tc = .error (.panic e) := by
  intro k
  induction k with
  | zero =>
    intro c e h fuel tc hk
    obtain ⟨n, rfl⟩ : ∃ n, fuel = n + 1 := ⟨fuel - 1, by omega⟩
    unfold oracleFailure at h
    unfold oracleLoop
    split_ifs at h with ht
    rw [if_neg ht]
    simp only
    cases ho : transFunc.Oracle gold c with
    | error e1 =>
      rw [ho] at h
      simp only [Option.some.injEq] at h
      subst h
      rfl
    | ok t =>
      rw [ho] at h
      exact Option.noConfusion h
  | succ k ih =>
    intro c e h fuel tc hk
    obtain ⟨n, rfl⟩ : ∃ n, fuel = n + 1 := ⟨fuel - 1, by omega⟩
    unfold oracleFailure at h
    unfold oracleLoop
    split_ifs at h with ht
    rw [if_neg ht]
    simp only
    cases ho : transFunc.Oracle gold c with
    | error e1 =>
      rw [ho] at h
      exact Option.noConfusion h
    | ok t =>
      rw [ho] at h
      simp only at h
      exact ih _ _ h n _ (by omega)

end LoopLemmas

section EarlyUpdateLemmas

variable {Conf Sent Gold : Type} [Configuration Conf]

/-- When classifier and oracle agree for `n` steps up to a terminal configuration, the
early-update loop returns with enough fuel: no gold feature list, `n` more nodes on the
predicted list, carrying the transitions of the oracle, and the counter advanced by `n`. -/
theorem earlyUpdateLoop_agrees (d : Deterministic Conf Sent Gold)
    (classifier : TransitionClassifier Conf Gold) (gold : Gold) :
    ∀ (n : Nat) (c : Conf), agreesFor classifier.TransFunc classifier gold n c = true →
      ∀ (fuel : Nat) (pred : FeaturesList) (i : Nat), n ≤ fuel →
        ∃ (c1 : Conf) (nodes : FeaturesList),
          earlyUpdateLoop d classifier.TransFunc classifier gold fuel c pred i
            = .ok (c1, [], nodes ++ pred, i + n) ∧
          nodes.length = n ∧ Configuration.Terminal c1 = true ∧
          (nodes.map (fun x => x.Transition)).reverse
            = oracleSequence classifier.TransFunc gold n c := by
  intro n
  induction n with
  | zero =>
    intro c h fuel pred i _
    simp only [agreesFor] at h
    refine ⟨c, [], ?_, rfl, h, by simp [oracleSequence]⟩
    unfold earlyUpdateLoop
    simp [h]
  | succ n ih =>
    intro c h fuel pred i hfuel
    obtain ⟨m, rfl⟩ : ∃ m, fuel = m + 1 := ⟨fuel - 1, by omega⟩
    simp only [agreesFor, Bool.and_eq_true, Bool.not_eq_true'] at h
    obtain ⟨ht, h⟩ := h
    cases ho : classifier.TransFunc.Oracle gold c with
    | error e => rw [ho] at h; simp at h
    | ok goldTrans =>
      cases hc : classifier.TransitionWithConf c with
      | error e => rw [ho, hc] at h; simp at h
      | ok r =>
        obtain ⟨c1, predTrans⟩ := r
        rw [ho, hc] at h
        simp only [Bool.and_eq_true, beq_iff_eq] at h
        obtain ⟨heq, hrec⟩ := h
        subst heq
        have hconf : c1 = classifier.TransFunc.Transition c predTrans :=
          transitionWithConf_conf classifier c c1 predTrans hc
        obtain ⟨c2, nodes, h1, h2, h3, h4⟩ := ih c1 hrec m
          (⟨d.FeatExtractor c1, predTrans⟩ :: pred) (i + 1) (by omega)
        refine ⟨c2, nodes ++ [⟨d.FeatExtractor c1, predTrans⟩], ?_, by simp [h2], h3, ?_⟩
        · unfold earlyUpdateLoop
          simp only [ht, Bool.false_eq_true, if_false, ho, hc, ne_eq, not_true_eq_false]
          rw [h1]
          simp [Nat.add_assoc, Nat.add_comm 1 n]
        · simp only [List.map_append, List.map_cons, List.map_nil, List.reverse_append,
            List.reverse_cons, List.reverse_nil, List.nil_append, List.singleton_append]
          rw [h4, hconf]
          simp [oracleSequence, ht, ho]

/-- When the early-update loop returns a gold feature list, that list and the predicted list
share their tail, made of the nodes added on the way, whose transitions are those the oracle
chose, and their heads carry the transitions of the oracle and of the classifier, which
differ. -/
theorem earlyUpdateLoop_diverges (d : Deterministic Conf Sent Gold)
    (classifier : TransitionClassifier Conf Gold) (gold : Gold) :
    ∀ (fuel : Nat) (c : Conf) (pred : FeaturesList) (i : Nat)
      (c1 : Conf) (goldList pred1 : FeaturesList) (i1 : Nat),
      earlyUpdateLoop d classifier.TransFunc classifier gold fuel c pred i
        = .ok (c1, goldList, pred1, i1) →
      goldList ≠ [] →
      ∃ (nodes : FeaturesList) (goldHead predHead : FeaturesNode),
        pred1 = predHead :: (nodes ++ pred) ∧ goldList = goldHead :: (nodes ++ pred) ∧
        i1 = i + nodes.length ∧ predHead.Transition ≠ goldHead.Transition ∧
        oracleSequence classifier.TransFunc gold (nodes.length + 1) c
          = (nodes.map (fun x => x.Transition)).reverse ++ [goldHead.Transition] := by
  intro fuel
  induction fuel with
  | zero =>
    intro c pred i c1 goldList pred1 i1 h hne
    unfold earlyUpdateLoop at h
    split_ifs at h with ht
    · injection h with h
      injection h with h1 h2
      injection h2 with h2 h3
      exact absurd h2.symm hne
  | succ m ih =>
    intro c pred i c1 goldList pred1 i1 h hne
    unfold earlyUpdateLoop at h
    split_ifs at h with ht
    · injection h with h
      injection h with h1 h2
      injection h2 with h2 h3
      exact absurd h2.symm hne
    · simp only at h
      cases ho : classifier.TransFunc.Oracle gold c with
      | error e => rw [ho] at h; exact Except.noConfusion h
      | ok goldTrans =>
        rw [ho] at h
        simp only at h
        cases hc : classifier.TransitionWithConf c with
        | error e => rw [hc] at h; exact Except.noConfusion h
        | ok r =>
          obtain ⟨c2, predTrans⟩ := r
          rw [hc] at h
          simp only at h
          have hconf : c2 = classifier.TransFunc.Transition c predTrans :=
            transitionWithConf_conf classifier c c2 predTrans hc
          split_ifs at h with hdiff
          · injection h with h
            injection h with h1 h2
            injection h2 with h2 h3
            injection h3 with h3 h4
            refine ⟨[], ⟨d.FeatExtractor (classifier.TransFunc.Transition c goldTrans),
              goldTrans⟩, ⟨d.FeatExtractor c2, predTrans⟩, by simp [h3], by simp [h2],
              by simp [h4], hdiff, ?_⟩
            simp [oracleSequence, ht, ho]
          · have heq : predTrans = goldTrans := not_not.mp hdiff
            subst heq
            obtain ⟨nodes, gh, ph, e1, e2, e3, e4, e5⟩ := ih _ _ _ _ _ _ _ h hne
            refine ⟨nodes ++ [⟨d.FeatExtractor c2, predTrans⟩], gh, ph, by simp [e1],
              by simp [e2], by simp [e3]; omega, e4, ?_⟩
            rw [hconf] at e5
            simp only [List.length_append, List.length_singleton, List.map_append,
              List.map_cons, List.map_nil, List.reverse_append, List.reverse_cons,
              List.reverse_nil, List.nil_append, List.singleton_append, List.cons_append]
            rw [← e5]
            simp [oracleSequence, ht, ho]

end EarlyUpdateLemmas

/-! ## Early update (C5, C6) -/

section EarlyUpdate

variable {Conf Sent Gold Constraints : Type} [Configuration Conf]

/-- C5: when `ParseOracleEarlyUpdate` returns index `i` together with a gold feature list
(a divergence), the predicted feature list it hands to the result parameters has `i + 1`
nodes; read from its deepest node up, its first `i` transitions are the first `i`
transitions the oracle chooses from the initial configuration, and its transition at
position `i` differs from the one the oracle chooses there. -/
theorem earlyUpdate_divergence_index (d : Deterministic Conf Sent Gold) (Sentence : Gold → Sent)
    (fuel : Nat) (gold : Gold) (constraints : Option Constraints)
    (model : Transition → List (Option Feature) → Float64) (c : Conf)
    (params : Option (ParseResultParameters Conf)) (goldList : FeaturesList) (i : Nat)
    (h : d.ParseOracleEarlyUpdate Sentence fuel gold constraints model
      = .ok (c, params, goldList, i))
    (hdiv : goldList ≠ []) :
    ∃ (transFunc : TransitionSystem Conf Gold) (predList : FeaturesList),
      d.TransFunc = some transFunc ∧ params = d.resultParams c predList ∧
      predList.length = i + 1 ∧
      ((predList.map (fun x => x.Transition)).reverse).take i
        = (oracleSequence transFunc gold (i + 1) (d.Base (Sentence gold))).take i ∧
      ∃ (predTrans goldTrans : Transition),
        ((predList.map (fun x => x.Transition)).reverse)[i]? = some predTrans ∧
        (oracleSequence transFunc gold (i + 1) (d.Base (Sentence gold)))[i]? = some goldTrans ∧
        predTrans ≠ goldTrans := by
  unfold Deterministic.ParseOracleEarlyUpdate at h
  split_ifs at h with hcons
  cases hd : d.TransFunc with
  | none => rw [hd] at h; exact Except.noConfusion h
  | some transFunc =>
    rw [hd] at h
    simp only at h
    split at h
    · exact Except.noConfusion h
    · rename_i c1 g1 p1 i1 hloop
      injection h with h
      injection h with h1 h2
      injection h2 with h2 h3
      injection h3 with h3 h4
      subst h1 h3 h4
      obtain ⟨nodes, gh, ph, e1, e2, e3, e4, e5⟩ :=
        earlyUpdateLoop_diverges d
          (TransitionClassifier.Init
            { Model := model, TransFunc := transFunc, FeatExtractor := d.FeatExtractor,
              Score := Float64.zero, FeaturesList := [], ShowConsiderations := d.ShowConsiderations })
          gold fuel _ _ _ _ _ _ _ hloop hdiv
      simp only [List.append_nil, Nat.zero_add] at e1 e2 e3
      subst e3
      refine ⟨transFunc, p1, rfl, h2.symm, by simp [e1], ?_, ph.Transition, gh.Transition,
        ?_, ?_, e4⟩
      · rw [e1]
        have e5 : oracleSequence transFunc gold (nodes.length + 1) (d.Base (Sentence gold))
            = (nodes.map (fun x => x.Transition)).reverse ++ [gh.Transition] := e5
        rw [e5]
        simp only [List.map_cons, List.reverse_cons]
        rw [List.take_append_of_le_length (by simp), List.take_append_of_le_length (by simp)]
      · rw [e1]
        simp only [List.map_cons, List.reverse_cons]
        rw [List.getElem?_append_right (by simp)]
        simp
      · have e5 : oracleSequence transFunc gold (nodes.length + 1) (d.Base (Sentence gold))
            = (nodes.map (fun x => x.Transition)).reverse ++ [gh.Transition] := e5
        rw [e5, List.getElem?_append_right (by simp)]
        simp

/-- C5 on the small system with gold transitions 2 then 1: the classifier takes 2 twice, so
the divergence is at index 1. -/
theorem earlyUpdate_divergence_index_witness :
    ∃ (transFunc : TransitionSystem ToyConf (List Transition)) (predList : FeaturesList),
      toyDecoder.TransFunc = some transFunc ∧
      (some ⟨some [⟨[some 0], 2⟩, ⟨[some 1], 2⟩], []⟩ : Option (ParseResultParameters ToyConf))
        = toyDecoder.resultParams ⟨0, 2⟩ predList ∧
      predList.length = 1 + 1 ∧
      ((predList.map (fun x => x.Transition)).reverse).take 1
        = (oracleSequence transFunc [2, 1] (1 + 1) (toyDecoder.Base (List.length [2, 1]))).take 1 ∧
      ∃ (predTrans goldTrans : Transition),
        ((predList.map (fun x => x.Transition)).reverse)[1]? = some predTrans ∧
        (oracleSequence transFunc [2, 1] (1 + 1) (toyDecoder.Base (List.length [2, 1])))[1]?
          = some goldTrans ∧
        predTrans ≠ goldTrans :=
  earlyUpdate_divergence_index toyDecoder List.length 5 [2, 1] (none : Option Unit) toyModel
    ⟨0, 2⟩ (some ⟨some [⟨[some 0], 2⟩, ⟨[some 1], 2⟩], []⟩)
    [⟨[some 0], 1⟩, ⟨[some 1], 2⟩] 1 (by decide) (by decide)

/-- C6, as stated, fails: on the small system with gold transitions 2, 2 the classifier and
the oracle agree at both steps, and `ParseOracleEarlyUpdate` returns index 2 with a
predicted list of two nodes and the empty (nil) gold feature list. -/
theorem earlyUpdate_agreement_gold_nil :
    agreesFor toySystem toyClassifier [2, 2] 2 (toyDecoder.Base 2) = true ∧
    toyDecoder.ParseOracleEarlyUpdate List.length 5 [2, 2] (none : Option Unit) toyModel
      = .ok (⟨0, 2⟩, some ⟨some [⟨[some 0], 2⟩, ⟨[some 1], 2⟩], []⟩, [], 2) := by
  decide

/-- C6, amended: when the classifier and the oracle choose the same transition at each of
`n` steps from the initial configuration and the configuration is terminal after them,
`ParseOracleEarlyUpdate` returns, for any fuel of at least `n`: index `n`, the nil gold feature
list, a terminal configuration, and a predicted feature list of `n` nodes whose transitions,
deepest first, are those the oracle chose. -/
theorem earlyUpdate_agreement (d : Deterministic Conf Sent Gold)
    (transFunc : TransitionSystem Conf Gold) (hd : d.TransFunc = some transFunc)
    (Sentence : Gold → Sent) (gold : Gold) (model : Transition → List (Option Feature) → Float64)
    (n fuel : Nat) (hfuel : n ≤ fuel)
    (hagree : agreesFor transFunc
      { Model := model, TransFunc := transFunc, FeatExtractor := d.FeatExtractor, Score := Float64.zero,
        FeaturesList := [], ShowConsiderations := d.ShowConsiderations }
      gold n (d.Base (Sentence gold)) = true) :
    ∃ (c : Conf) (predList : FeaturesList),
      d.ParseOracleEarlyUpdate Sentence fuel gold (none : Option Constraints) model
        = .ok (c, d.resultParams c predList, [], n) ∧
      predList.length = n ∧ Configuration.Terminal c = true ∧
      (predList.map (fun x => x.Transition)).reverse
        = oracleSequence transFunc gold n (d.Base (Sentence gold)) := by
  obtain ⟨c1, nodes, h1, h2, h3, h4⟩ := earlyUpdateLoop_agrees d
    { Model := model, TransFunc := transFunc, FeatExtractor := d.FeatExtractor, Score := Float64.zero,
      FeaturesList := [], ShowConsiderations := d.ShowConsiderations }
    gold n (d.Base (Sentence gold)) hagree fuel [] 0 hfuel
  refine ⟨c1, nodes, ?_, h2, h3, h4⟩
  simp only [List.append_nil, Nat.zero_add] at h1
  simp only [Deterministic.ParseOracleEarlyUpdate, Option.isSome_none, Bool.false_eq_true,
    if_false, hd, TransitionClassifier.Init]
  rw [h1]

/-- The amended C6 on the small system with gold transitions 2, 2. -/
theorem earlyUpdate_agreement_witness :
    ∃ (c : ToyConf) (predList : FeaturesList),
      toyDecoder.ParseOracleEarlyUpdate List.length 5 [2, 2] (none : Option Unit) toyModel
        = .ok (c, toyDecoder.resultParams c predList, [], 2) ∧
      predList.length = 2 ∧ Configuration.Terminal c = true ∧
      (predList.map (fun x => x.Transition)).reverse
        = oracleSequence toySystem [2, 2] 2 (toyDecoder.Base (List.length [2, 2])) :=
  earlyUpdate_agreement toyDecoder toySystem rfl List.length [2, 2] toyModel 2 5 (by decide)
    (by decide)

end EarlyUpdate

/-! ## The classifier (C7, C8) -/

section Classifier

variable {Conf Sent Gold Constraints : Type} [Configuration Conf]

/-- C7, as stated, fails. Over a system whose configurations record another transition than
the one applied (`4 - t` for `t`), the classifier scores the recorded transition: of the
transitions 1, 2, 3 it returns 1, although the score of 2 on the features of the
configuration it reaches, 2, is greater than that of 1, which is 1. And over a model whose
score for transition 1 is not a number, the classifier returns 1, whose score is not a
number, although transition 2 has the score 2. -/
theorem transitionWithConf_not_argmax_of_own_score :
    relabelClassifier.TransitionWithConf ⟨2, 0⟩ = .ok (⟨1, 3⟩, 1) ∧
    (relabelClassifier.Score.add (relabelClassifier.Model 2
        (relabelClassifier.FeatExtractor (relabelClassifier.TransFunc.Transition ⟨2, 0⟩ 2)))).gt
      (relabelClassifier.Score.add (relabelClassifier.Model 1
        (relabelClassifier.FeatExtractor (relabelClassifier.TransFunc.Transition ⟨2, 0⟩ 1))))
      = true ∧
    nanClassifier.TransitionWithConf ⟨2, 0⟩ = .ok (⟨1, 1⟩, 1) ∧
    nanClassifier.ScoreWithConf (nanClassifier.TransFunc.Transition ⟨2, 0⟩ 1) = Float64.NaN ∧
    nanClassifier.ScoreWithConf (nanClassifier.TransFunc.Transition ⟨2, 0⟩ 2)
      = Float64.ofInt 2 := by
  decide

/-- C7, amended: when the transition system yields a non-empty sequence for `c`,
`TransitionWithConf` returns a transition `t` of that sequence with the configuration
reached from `c` by `t`. The score of a yielded transition `u` is the `float64` sum of the
cumulative score and the score the model gives, on the features of the configuration reached
by `u`, to the last transition that configuration records, which is `u` itself when
configurations record the transition applied. No yielded transition has a score greater
than that of `t`, and every transition yielded before `t` has a smaller score or a score
that is not a number. -/
theorem transitionWithConf_argmax (tc : TransitionClassifier Conf Gold) (c : Conf)
    (hne : tc.TransFunc.YieldTransitions c ≠ []) :
    ∃ (k : Nat) (t : Transition),
      tc.TransitionWithConf c = .ok (tc.TransFunc.Transition c t, t) ∧
      (tc.TransFunc.YieldTransitions c)[k]? = some t ∧
      (∀ (j : Nat) (u : Transition), (tc.TransFunc.YieldTransitions c)[j]? = some u →
        (tc.Score.add (tc.Model (Configuration.GetLastTransition (tc.TransFunc.Transition c u))
            (tc.FeatExtractor (tc.TransFunc.Transition c u)))).gt
          (tc.Score.add (tc.Model (Configuration.GetLastTransition (tc.TransFunc.Transition c t))
            (tc.FeatExtractor (tc.TransFunc.Transition c t)))) = false) ∧
      (∀ (j : Nat) (u : Transition), j < k → (tc.TransFunc.YieldTransitions c)[j]? = some u →
        (tc.Score.add (tc.Model (Configuration.GetLastTransition (tc.TransFunc.Transition c t))
            (tc.FeatExtractor (tc.TransFunc.Transition c t)))).gt
          (tc.Score.add (tc.Model (Configuration.GetLastTransition (tc.TransFunc.Transition c u))
            (tc.FeatExtractor (tc.TransFunc.Transition c u)))) = true ∨
        (tc.Score.add (tc.Model (Configuration.GetLastTransition (tc.TransFunc.Transition c u))
            (tc.FeatExtractor (tc.TransFunc.Transition c u)))).isNaN = true) ∧
      ((∀ u ∈ tc.TransFunc.YieldTransitions c,
          Configuration.GetLastTransition (tc.TransFunc.Transition c u) = u) →
        ∀ u ∈ tc.TransFunc.YieldTransitions c,
          tc.ScoreWithConf (tc.TransFunc.Transition c u)
            = tc.Score.add (tc.Model u (tc.FeatExtractor (tc.TransFunc.Transition c u)))) := by
  obtain ⟨k, t, h1, h2, h3, h4⟩ := transitionWithConf_spec tc c hne
  refine ⟨k, t, h1, h2, h3, h4, ?_⟩
  intro hlast u hu
  simp only [TransitionClassifier.ScoreWithConf]
  rw [hlast u hu]

/-- The amended C7 on the small system: of the transitions 1, 2, 3, whose scores are 1, 2,
2, the classifier returns 2, at position 1, with the configuration it leads to. -/
theorem transitionWithConf_argmax_witness :
    toyClassifier.TransFunc.YieldTransitions ⟨2, 0⟩ ≠ [] ∧
    toyClassifier.TransitionWithConf ⟨2, 0⟩ = .ok (⟨1, 2⟩, 2) ∧
    (toyClassifier.TransFunc.YieldTransitions ⟨2, 0⟩).map
        (fun u => toyClassifier.ScoreWithConf (toyClassifier.TransFunc.Transition ⟨2, 0⟩ u))
      = [Float64.ofInt 1, Float64.ofInt 2, Float64.ofInt 2] ∧
    ∃ (k : Nat) (t : Transition),
      toyClassifier.TransitionWithConf ⟨2, 0⟩
        = .ok (toyClassifier.TransFunc.Transition ⟨2, 0⟩ t, t) ∧
      (toyClassifier.TransFunc.YieldTransitions ⟨2, 0⟩)[k]? = some t :=
  ⟨by decide, by decide, by decide,
    (transitionWithConf_argmax toyClassifier ⟨2, 0⟩ (by decide)).imp
      (fun _ h => h.imp (fun _ h2 => ⟨h2.1, h2.2.1⟩))⟩

/-- C8: `TransitionWithConf` panics exactly when the transition system yields nothing for
the configuration. Hence, at a non-terminal configuration `c` for which nothing is yielded,
the loop of `Parse` panics with the message of `TransitionWithConf` and the loop of
`ParseOracleEarlyUpdate` panics, whatever the state they have reached; and `Parse` and
`ParseOracleEarlyUpdate` panic when `c` is the initial configuration. -/
theorem transitionWithConf_fails_iff_empty (tc : TransitionClassifier Conf Gold) (c c1 : Conf)
    (d : Deterministic Conf Sent Gold) (Sentence : Gold → Sent) (sent : Sent) (gold : Gold)
    (constraints : Option Constraints) (model : Transition → List (Option Feature) → Float64)
    (fuel : Nat) (pred : FeaturesList) (i : Nat)
    (hterm : Configuration.Terminal c = false)
    (hempty : tc.TransFunc.YieldTransitions c = [])
    (hd : d.TransFunc = some tc.TransFunc) (hsent : d.Base sent = c)
    (hgold : d.Base (Sentence gold) = c) :
    ((∃ e, tc.TransitionWithConf c1 = .error e) ↔ tc.TransFunc.YieldTransitions c1 = []) ∧
    parseLoop (fuel + 1) c tc
      = .error (.panic "Got no best transition - what's going on here?") ∧
    (∃ msg, earlyUpdateLoop d tc.TransFunc tc gold (fuel + 1) c pred i
      = .error (.panic msg)) ∧
    (∃ msg, d.Parse (fuel + 1) sent constraints model = .error (.panic msg)) ∧
    (∃ msg, d.ParseOracleEarlyUpdate Sentence (fuel + 1) gold constraints model
      = .error (.panic msg)) := by
  have hearly : ∀ (tc1 : TransitionClassifier Conf Gold) (pred : FeaturesList) (i : Nat),
      tc1.TransFunc.YieldTransitions c = [] → ∃ msg,
      earlyUpdateLoop d tc1.TransFunc tc1 gold (fuel + 1) c pred i = .error (.panic msg) := by
    intro tc1 pred i he
    unfold earlyUpdateLoop
    rw [if_neg (by simp [hterm])]
    simp only
    cases ho : tc1.TransFunc.Oracle gold c with
    | error e => exact ⟨e, rfl⟩
    | ok goldTrans =>
      simp only [transitionWithConf_empty tc1 c he]
      exact ⟨_, rfl⟩
  refine ⟨?_, ?_, ?_, ?_, ?_⟩
  · constructor
    · rintro ⟨e, he⟩
      by_contra hne
      obtain ⟨k, t, h1, _⟩ := transitionWithConf_spec tc c1 hne
      rw [h1] at he
      exact Except.noConfusion he
    · intro h
      exact ⟨_, transitionWithConf_empty tc c1 h⟩
  · unfold parseLoop
    rw [if_neg (by simp [hterm])]
    simp only [transitionWithConf_empty tc c hempty]
  · exact hearly tc pred i hempty
  · unfold Deterministic.Parse
    split_ifs
    · exact ⟨_, rfl⟩
    · simp only [hd, hsent]
      unfold parseLoop
      rw [if_neg (by simp [hterm])]
      simp only
      rw [transitionWithConf_empty _ c (by simpa [TransitionClassifier.Init] using hempty)]
      exact ⟨_, rfl⟩
  · unfold Deterministic.ParseOracleEarlyUpdate
    split_ifs
    · exact ⟨_, rfl⟩
    · simp only [hd, hgold]
      obtain ⟨msg, hmsg⟩ := hearly
        (TransitionClassifier.Init
          { Model := model, TransFunc := tc.TransFunc, FeatExtractor := d.FeatExtractor,
            Score := Float64.zero, FeaturesList := [], ShowConsiderations := d.ShowConsiderations })
        [] 0 (by simpa [TransitionClassifier.Init] using hempty)
      refine ⟨msg, ?_⟩
      have hmsg1 : earlyUpdateLoop d tc.TransFunc
          (TransitionClassifier.Init
            { Model := model, TransFunc := tc.TransFunc, FeatExtractor := d.FeatExtractor,
              Score := Float64.zero, FeaturesList := [], ShowConsiderations := d.ShowConsiderations })
          gold (fuel + 1) c [] 0 = .error (.panic msg) := hmsg
      rw [hmsg1]

/-- C8 on the small system with nothing applicable, at the configuration with two steps
left. -/
theorem transitionWithConf_fails_iff_empty_witness :
    ((∃ e, stuckClassifier.TransitionWithConf ⟨1, 2⟩ = .error e)
      ↔ stuckClassifier.TransFunc.YieldTransitions ⟨1, 2⟩ = []) ∧
    parseLoop (0 + 1) ⟨2, 0⟩ stuckClassifier
      = .error (.panic "Got no best transition - what's going on here?") ∧
    (∃ msg, earlyUpdateLoop stuckDecoder stuckClassifier.TransFunc stuckClassifier [2, 2]
      (0 + 1) ⟨2, 0⟩ [] 0 = .error (.panic msg)) ∧
    (∃ msg, stuckDecoder.Parse (0 + 1) 2 (none : Option Unit) toyModel
      = .error (.panic msg)) ∧
    (∃ msg, stuckDecoder.ParseOracleEarlyUpdate List.length (0 + 1) [2, 2]
      (none : Option Unit) toyModel = .error (.panic msg)) :=
  transitionWithConf_fails_iff_empty stuckClassifier ⟨2, 0⟩ ⟨1, 2⟩ stuckDecoder List.length 2
    [2, 2] (none : Option Unit) toyModel 0 [] 0 (by decide) (by decide) rfl rfl rfl

end Classifier

/-! ## The entry points (C9, C10) -/

section EntryPoints

variable {Conf Sent Gold Constraints : Type} [Configuration Conf]

/-- C9, as stated, fails for `ParseOracleEarlyUpdate`: on the small system with gold
transitions 1, 2 the classifier takes 2 at the first step, and the call returns, at index 0,
the configuration with one step left, which is not terminal. -/
theorem earlyUpdate_returns_nonterminal :
    toyDecoder.ParseOracleEarlyUpdate List.length 5 [1, 2] (none : Option Unit) toyModel
      = .ok (⟨1, 2⟩, some ⟨some [⟨[some 1], 2⟩], []⟩, [⟨[some 1], 1⟩], 0) ∧
    Configuration.Terminal (⟨1, 2⟩ : ToyConf) = false := by
  decide

/-- C9, amended: a configuration returned by `Parse` or by `ParseOracle` is terminal, and a
configuration returned by `ParseOracleEarlyUpdate` together with no gold feature list (no
divergence) is terminal. -/
theorem returned_configuration_terminal (d : Deterministic Conf Sent Gold)
    (Sentence : Gold → Sent) (fuel : Nat) (sent : Sent) (gold : Gold)
    (constraints : Option Constraints) (model : Transition → List (Option Feature) → Float64)
    (c : Conf) (params : Option (ParseResultParameters Conf)) (i : Nat) :
    (d.Parse fuel sent constraints model = .ok (c, params) →
      Configuration.Terminal c = true) ∧
    (d.ParseOracle Sentence fuel gold constraints model = .ok (some c, params) →
      Configuration.Terminal c = true) ∧
    (d.ParseOracleEarlyUpdate Sentence fuel gold constraints model = .ok (c, params, [], i) →
      Configuration.Terminal c = true) := by
  refine ⟨?_, ?_, ?_⟩
  · intro h
    unfold Deterministic.Parse at h
    split_ifs at h
    split at h
    · exact Except.noConfusion h
    · simp only at h
      split at h
      · exact Except.noConfusion h
      · rename_i c1 tc1 hloop
        injection h with h
        injection h with h1 h2
        subst h1
        exact parseLoop_terminal _ _ _ _ _ hloop
  · intro h
    unfold Deterministic.ParseOracle at h
    split at h
    · rename_i c1 rp hbody
      injection h with h
      injection h with h1 h2
      injection h1 with h1
      subst h1
      unfold Deterministic.parseOracleBody at hbody
      split_ifs at hbody
      split at hbody
      · exact Except.noConfusion hbody
      · simp only at hbody
        split at hbody
        · exact Except.noConfusion hbody
        · rename_i c2 tc2 hloop
          injection hbody with hbody
          injection hbody with h3 h4
          subst h3
          exact oracleLoop_terminal _ _ _ _ _ _ _ hloop
    · split_ifs at h
      injection h with h
      injection h with h1 h2
      exact Option.noConfusion h1
    · exact Except.noConfusion h
  · intro h
    unfold Deterministic.ParseOracleEarlyUpdate at h
    split_ifs at h
    split at h
    · exact Except.noConfusion h
    · simp only at h
      split at h
      · exact Except.noConfusion h
      · rename_i c1 g1 p1 i1 hloop
        injection h with h
        injection h with h1 h2
        injection h2 with h2 h3
        injection h3 with h3 h4
        subst h1 h3
        exact earlyUpdateLoop_terminal _ _ _ _ _ _ _ _ _ _ _ hloop

/-- The amended C9 on the small system: a sentence of two tokens, and the gold
transitions 2, 2, on which classifier and oracle agree; all three entry points return the
configuration with no step left. -/
theorem returned_configuration_terminal_witness :
    (toyDecoder.Parse 5 2 (none : Option Unit) toyModel
        = .ok (⟨0, 2⟩, some ⟨some [⟨[some 0], 2⟩, ⟨[some 1], 2⟩], []⟩) ∧
      toyDecoder.ParseOracle List.length 5 [2, 2] (none : Option Unit) toyModel
        = .ok (some ⟨0, 2⟩, some ⟨some [⟨[some 0], 2⟩, ⟨[some 1], 2⟩], []⟩) ∧
      toyDecoder.ParseOracleEarlyUpdate List.length 5 [2, 2] (none : Option Unit) toyModel
        = .ok (⟨0, 2⟩, some ⟨some [⟨[some 0], 2⟩, ⟨[some 1], 2⟩], []⟩, [], 2)) ∧
    Configuration.Terminal (⟨0, 2⟩ : ToyConf) = true :=
  ⟨by decide,
    (returned_configuration_terminal toyDecoder List.length 5 2 [2, 2] (none : Option Unit)
      toyModel ⟨0, 2⟩ (some ⟨some [⟨[some 0], 2⟩, ⟨[some 1], 2⟩], []⟩) 2).2.2 (by decide)⟩

/-- C10: when the oracle fails with message `e` after `k` steps from the initial
configuration (constraints nil, a transition system present), `ParseOracle` with fuel beyond
`k` returns no graph and no result parameters if `NoRecover` is false, and panics with `e`
if `NoRecover` is true. -/
theorem parseOracle_recovers_oracle_failure (d : Deterministic Conf Sent Gold)
    (transFunc : TransitionSystem Conf Gold) (hd : d.TransFunc = some transFunc)
    (Sentence : Gold → Sent) (gold : Gold) (model : Transition → List (Option Feature) → Float64)
    (k fuel : Nat) (e : String)
    (hfail : oracleFailure transFunc gold k (d.Base (Sentence gold)) = some e)
    (hfuel : k < fuel) :
    (d.NoRecover = false →
      d.ParseOracle Sentence fuel gold (none : Option Constraints) model = .ok (none, none)) ∧
    (d.NoRecover = true →
      d.ParseOracle Sentence fuel gold (none : Option Constraints) model
        = .error (.panic e)) := by
  have hbody : d.parseOracleBody Sentence fuel gold (none : Option Constraints) model
      = .error (.panic e) := by
    simp only [Deterministic.parseOracleBody, Option.isSome_none, Bool.false_eq_true, if_false,
      hd]
    rw [oracleLoop_failure transFunc gold k _ e hfail fuel _ hfuel]
  constructor
  · intro hn
    simp only [Deterministic.ParseOracle, hbody, hn, if_true]
  · intro hn
    simp [Deterministic.ParseOracle, hbody, hn]

/-- C10 on the small system, where the oracle fails at the second step of the gold
transitions 2, 0: the decoder that recovers and the one with `NoRecover` set. -/
theorem parseOracle_recovers_oracle_failure_witness :
    toyDecoder.ParseOracle List.length 5 [2, 0] (none : Option Unit) toyModel
      = .ok (none, none) ∧
    noRecoverDecoder.ParseOracle List.length 5 [2, 0] (none : Option Unit) toyModel
      = .error (.panic "no gold path") :=
  ⟨(parseOracle_recovers_oracle_failure toyDecoder toySystem rfl List.length [2, 0] toyModel
      1 5 "no gold path" (by decide) (by decide)).1 rfl,
    (parseOracle_recovers_oracle_failure noRecoverDecoder toySystem rfl List.length [2, 0]
      toyModel 1 5 "no gold path" (by decide) (by decide)).2 rfl⟩

end EntryPoints

/-! ## Configuration misuse and the empty sentence (C11, C13) -/

section Misuse

variable {Conf Sent Gold Constraints : Type} [Configuration Conf]

/-- C11, as stated, fails for `ParseOracle`: with `NoRecover` unset, non-nil constraints
and a missing transition system are both recovered, and the call returns the empty result
instead of reporting the misuse. -/
theorem parseOracle_recovers_misuse :
    toyDecoder.ParseOracle List.length 5 [2, 2] (some ()) toyModel = .ok (none, none) ∧
    noSystemDecoder.ParseOracle List.length 5 [2, 2] (none : Option Unit) toyModel
      = .ok (none, none) := by
  decide

/-- C11, amended: on non-nil constraints or a missing transition system, `Parse` and
`ParseOracleEarlyUpdate` panic, and so does `ParseOracle` when `NoRecover` is set; when
`NoRecover` is not set, `ParseOracle` recovers the panic and returns the empty result. The
message is that of the constraints check when constraints are given, else that of the
missing transition system. -/
theorem misuse_reported (d : Deterministic Conf Sent Gold) (Sentence : Gold → Sent)
    (fuel : Nat) (sent : Sent) (gold : Gold) (constraints : Option Constraints)
    (model : Transition → List (Option Feature) → Float64)
    (hmisuse : constraints.isSome = true ∨ d.TransFunc = none) :
    ∃ msg,
      msg = (if constraints.isSome = true then
        "Got non-nil constraints; deterministic dependency parsing does not consider constraints"
        else "Can't parse without a transition system") ∧
      d.Parse fuel sent constraints model = .error (.panic msg) ∧
      d.ParseOracleEarlyUpdate Sentence fuel gold constraints model = .error (.panic msg) ∧
      (d.NoRecover = true →
        d.ParseOracle Sentence fuel gold constraints model = .error (.panic msg)) ∧
      (d.NoRecover = false →
        d.ParseOracle Sentence fuel gold constraints model = .ok (none, none)) := by
  refine ⟨_, rfl, ?_⟩
  by_cases hc : constraints.isSome = true
  · simp [Deterministic.Parse, Deterministic.ParseOracleEarlyUpdate, Deterministic.ParseOracle,
      Deterministic.parseOracleBody, hc]
  · have hd : d.TransFunc = none := hmisuse.resolve_left hc
    simp [Deterministic.Parse, Deterministic.ParseOracleEarlyUpdate, Deterministic.ParseOracle,
      Deterministic.parseOracleBody, hc, hd]

/-- The amended C11 on the small decoder with `NoRecover` set, given constraints. -/
theorem misuse_reported_witness :
    ∃ msg,
      msg = (if (some () : Option Unit).isSome = true then
        "Got non-nil constraints; deterministic dependency parsing does not consider constraints"
        else "Can't parse without a transition system") ∧
      noRecoverDecoder.Parse 5 2 (some ()) toyModel = .error (.panic msg) ∧
      noRecoverDecoder.ParseOracleEarlyUpdate List.length 5 [2, 2] (some ()) toyModel
        = .error (.panic msg) ∧
      (noRecoverDecoder.NoRecover = true →
        noRecoverDecoder.ParseOracle List.length 5 [2, 2] (some ()) toyModel
          = .error (.panic msg)) ∧
      (noRecoverDecoder.NoRecover = false →
        noRecoverDecoder.ParseOracle List.length 5 [2, 2] (some ()) toyModel
          = .ok (none, none)) :=
  misuse_reported noRecoverDecoder List.length 5 2 [2, 2] (some ()) toyModel
    (Or.inl rfl)

/-- C13: when the initialised configuration is terminal (constraints nil, a transition
system present), `Parse` returns that configuration, whatever the fuel, its loop leaves the
classifier with cumulative score 0 and the empty feature list, so that the feature list put
in the result parameters is empty; and `ParseOracleEarlyUpdate` returns that configuration
with index 0 and no gold feature list. -/
theorem parse_terminal_at_once (d : Deterministic Conf Sent Gold)
    (transFunc : TransitionSystem Conf Gold) (hd : d.TransFunc = some transFunc)
    (Sentence : Gold → Sent) (fuel : Nat) (sent : Sent) (gold : Gold)
    (model : Transition → List (Option Feature) → Float64)
    (hsent : Configuration.Terminal (d.Base sent) = true)
    (hgold : Configuration.Terminal (d.Base (Sentence gold)) = true) :
    d.Parse fuel sent (none : Option Constraints) model
      = .ok (d.Base sent, d.resultParams (d.Base sent) []) ∧
    (∃ tc : TransitionClassifier Conf Gold,
      parseLoop fuel (d.Base sent)
          { Model := model, TransFunc := transFunc, FeatExtractor := d.FeatExtractor,
            Score := Float64.zero, FeaturesList := [], ShowConsiderations := d.ShowConsiderations }
        = .ok (d.Base sent, tc) ∧ tc.Score = Float64.zero ∧ tc.FeaturesList = []) ∧
    d.ParseOracleEarlyUpdate Sentence fuel gold (none : Option Constraints) model
      = .ok (d.Base (Sentence gold), d.resultParams (d.Base (Sentence gold)) [], [], 0) := by
  refine ⟨?_, ⟨TransitionClassifier.mk model transFunc d.FeatExtractor Float64.zero []
    d.ShowConsiderations, ?_, rfl, rfl⟩, ?_⟩
  · simp only [Deterministic.Parse, Option.isSome_none, Bool.false_eq_true, if_false, hd,
      TransitionClassifier.Init]
    unfold parseLoop
    simp [hsent]
  · unfold parseLoop
    simp [hsent]
  · simp only [Deterministic.ParseOracleEarlyUpdate, Option.isSome_none, Bool.false_eq_true,
      if_false, hd, TransitionClassifier.Init]
    unfold earlyUpdateLoop
    simp [hgold]

/-- C13 on the small system with the sentence of no token. -/
theorem parse_terminal_at_once_witness :
    toyDecoder.Parse 0 0 (none : Option Unit) toyModel
      = .ok (toyDecoder.Base 0, toyDecoder.resultParams (toyDecoder.Base 0) []) ∧
    (∃ tc : TransitionClassifier ToyConf (List Transition),
      parseLoop 0 (toyDecoder.Base 0)
          { Model := toyModel, TransFunc := toySystem,
            FeatExtractor := toyDecoder.FeatExtractor,
            Score := Float64.zero, FeaturesList := [],
            ShowConsiderations := toyDecoder.ShowConsiderations }
        = .ok (toyDecoder.Base 0, tc) ∧ tc.Score = Float64.zero ∧ tc.FeaturesList = []) ∧
    toyDecoder.ParseOracleEarlyUpdate List.length 0 [] (none : Option Unit) toyModel
      = .ok (toyDecoder.Base (List.length ([] : List Transition)),
          toyDecoder.resultParams (toyDecoder.Base (List.length ([] : List Transition))) [],
          [], 0) :=
  parse_terminal_at_once toyDecoder toySystem rfl List.length 0 0 [] toyModel (by decide)
    (by decide)

end Misuse

/-! ## The one-shot score (C18) -/

theorem wrap64_wrap64 (a : Int) : wrap64 (wrap64 a) = wrap64 a := by
  unfold wrap64; omega

/-- On a feature vector within the shards from index `i` on, the scoring loop returns the
`int64` sum of what it started from and the values of the shards at the features present. -/
theorem scoreLoop_sum (Mat : List AvgSparse) (tr : Transition) :
    ∀ (feats : List (Option Feature)) (i : Nat) (a : Int),
      i + feats.length ≤ Mat.length →
      scoreLoop Mat tr i feats (wrap64 a)
        = .ok (wrap64 (a + (List.zipWith
            (fun (shard : AvgSparse) (x : Option Feature) =>
              match x with
              | some feature => shard.Value tr feature
              | none => 0)
            (Mat.drop i) feats).sum)) := by
  intro feats
  induction feats with
  | nil => intro i a _; simp [scoreLoop]
  | cons x rest ih =>
    intro i a h
    simp only [List.length_cons] at h
    have hi : i < Mat.length := by omega
    have hdrop : Mat.drop i = Mat[i] :: Mat.drop (i + 1) := List.drop_eq_getElem_cons hi
    have hget : Mat[i]? = some (Mat[i]) := List.getElem?_eq_getElem hi
    cases x with
    | none =>
      simp only [scoreLoop, hdrop, List.zipWith_cons_cons, List.sum_cons, zero_add]
      exact ih (i + 1) a (by omega)
    | some feat =>
      simp only [scoreLoop, hget, hdrop, List.zipWith_cons_cons, List.sum_cons]
      rw [wrap64_add_left, ih (i + 1) (a + (Mat[i]).Value tr feat) (by omega), add_assoc]

/-- C18: `TransitionScore` panics exactly when the feature vector has more entries than the
matrix has template shards; otherwise it returns the `int64` sum, over the positions whose
feature is present, of the value of the shard of that position at the transition and the
feature, a missing feature contributing 0. -/
theorem transitionScore_fails_iff_or_sum (t : AvgMatrixSparse) (transition : Transition)
    (features : List (Option Feature)) :
    ((∃ e, t.TransitionScore transition features = .error e)
      ↔ features.length > t.Mat.length) ∧
    (¬ features.length > t.Mat.length →
      t.TransitionScore transition features
        = .ok (wrap64 (List.zipWith
            (fun (shard : AvgSparse) (x : Option Feature) =>
              match x with
              | some feature => shard.Value transition feature
              | none => 0)
            t.Mat features).sum)) := by
  have hok : ¬ features.length > t.Mat.length →
      t.TransitionScore transition features
        = .ok (wrap64 (List.zipWith
            (fun (shard : AvgSparse) (x : Option Feature) =>
              match x with
              | some feature => shard.Value transition feature
              | none => 0)
            t.Mat features).sum) := by
    intro h
    have h1 := scoreLoop_sum t.Mat transition features 0 0 (by omega)
    rw [wrap64_zero] at h1
    simp only [AvgMatrixSparse.TransitionScore, if_neg h, h1, List.drop_zero, zero_add]
  refine ⟨⟨?_, ?_⟩, hok⟩
  · rintro ⟨e, he⟩
    by_contra h
    rw [hok h] at he
    exact Except.noConfusion he
  · intro h
    exact ⟨"Got more features than known matrix features",
      by simp [AvgMatrixSparse.TransitionScore, h]⟩

/-- C18 on `exampleMatrix`: a vector of one feature is scored, a vector of two is refused. -/
theorem transitionScore_fails_iff_or_sum_witness :
    exampleMatrix.TransitionScore 1 [some 5]
      = .ok (wrap64 (List.zipWith
          (fun (shard : AvgSparse) (x : Option Feature) =>
            match x with
            | some feature => shard.Value 1 feature
            | none => 0)
          exampleMatrix.Mat [some 5]).sum) ∧
    ∃ e, exampleMatrix.TransitionScore 1 [some 5, none] = .error e :=
  ⟨(transitionScore_fails_iff_or_sum exampleMatrix 1 [some 5]).2 (by decide),
    (transitionScore_fails_iff_or_sum exampleMatrix 1 [some 5, none]).1.2 (by decide)⟩

/-! ## The cumulative score of the classifier (C12) -/

section CumulativeScore

variable {Conf Gold : Type} [Configuration Conf]

/-- The loop of `Parse` ends in one of the states listed by `loopStates`. -/
theorem parseLoop_mem_loopStates :
    ∀ (fuel : Nat) (c : Conf) (tc : TransitionClassifier Conf Gold)
      (r : Conf × TransitionClassifier Conf Gold),
      parseLoop fuel c tc = .ok r → r ∈ loopStates parseStep fuel c tc := by
  intro fuel
  induction fuel with
  | zero =>
    intro c tc r h
    unfold parseLoop at h
    unfold loopStates
    split_ifs at h with ht
    · injection h with h; subst h; simp
  | succ n ih =>
    intro c tc r h
    unfold parseLoop at h
    unfold loopStates
    split_ifs at h with ht
    · injection h with h; subst h; simp
    · simp only at h
      rw [if_neg ht]
      cases hs : tc.TransitionWithConf c with
      | error e => rw [hs] at h; exact Except.noConfusion h
      | ok p =>
        obtain ⟨c1, t1⟩ := p
        rw [hs] at h
        simp only [parseStep, hs]
        exact List.mem_cons_of_mem _ (ih _ _ _ h)

/-- The loop of `ParseOracle` ends in one of the states listed by `loopStates`. -/
theorem oracleLoop_mem_loopStates (transFunc : TransitionSystem Conf Gold) (gold : Gold) :
    ∀ (fuel : Nat) (c : Conf) (tc : TransitionClassifier Conf Gold)
      (r : Conf × TransitionClassifier Conf Gold),
      oracleLoop transFunc gold fuel c tc = .ok r →
        r ∈ loopStates (oracleStep transFunc gold) fuel c tc := by
  intro fuel
  induction fuel with
  | zero =>
    intro c tc r h
    unfold oracleLoop at h
    unfold loopStates
    split_ifs at h with ht
    · injection h with h; subst h; simp
  | succ n ih =>
    intro c tc r h
    unfold oracleLoop at h
    unfold loopStates
    split_ifs at h with ht
    · injection h with h; subst h; simp
    · simp only at h
      rw [if_neg ht]
      cases hs : transFunc.Oracle gold c with
      | error e => rw [hs] at h; exact Except.noConfusion h
      | ok t =>
        rw [hs] at h
        simp only [oracleStep, hs]
        exact List.mem_cons_of_mem _ (ih _ _ _ h)

/-- At position `k` of the states of a loop, the classifier has the model and the extractor
it started with, its feature list is the one it started with under the nodes of the `k`
configurations reached since, most recent first, and its score is the score it started with
to which the transition scores of these nodes were added in `float64` arithmetic, in the
order in which the configurations were reached. -/
theorem loopStates_invariant (step : Conf → TransitionClassifier Conf Gold → Option Conf) :
    ∀ (fuel : Nat) (c : Conf) (tc : TransitionClassifier Conf Gold) (k : Nat)
      (c1 : Conf) (tc1 : TransitionClassifier Conf Gold),
      (loopStates step fuel c tc)[k]? = some (c1, tc1) →
      tc1.Model = tc.Model ∧ tc1.FeatExtractor = tc.FeatExtractor ∧
      tc1.FeaturesList
        = ((((loopStates step fuel c tc).take (k + 1)).tail.map
            (fun s => FeaturesNode.mk (tc.FeatExtractor s.1)
              (Configuration.GetLastTransition s.1))).reverse) ++ tc.FeaturesList ∧
      tc1.Score
        = ((((loopStates step fuel c tc).take (k + 1)).tail.map
            (fun s => FeaturesNode.mk (tc.FeatExtractor s.1)
              (Configuration.GetLastTransition s.1))).map
            (fun n => tc.Model n.Transition n.Features)).foldl Float64.add tc.Score ∧
      (0 < k → tc1.FeaturesList.head?
        = some ⟨tc.FeatExtractor c1, Configuration.GetLastTransition c1⟩) := by
  intro fuel
  induction fuel with
  | zero =>
    intro c tc k c1 tc1 h
    unfold loopStates at h ⊢
    cases k with
    | zero =>
      simp only [List.getElem?_cons_zero, Option.some.injEq, Prod.mk.injEq] at h
      obtain ⟨h1, h2⟩ := h
      subst h1 h2
      simp
    | succ k =>
      simp only [List.getElem?_cons_succ] at h
      split_ifs at h <;> simp at h
  | succ n ih =>
    intro c tc k c1 tc1 h
    unfold loopStates at h ⊢
    cases k with
    | zero =>
      simp only [List.getElem?_cons_zero, Option.some.injEq, Prod.mk.injEq] at h
      obtain ⟨h1, h2⟩ := h
      subst h1 h2
      simp
    | succ k =>
      simp only [List.getElem?_cons_succ] at h
      by_cases ht : Configuration.Terminal c = true
      · rw [if_pos ht] at h; simp at h
      · rw [if_neg ht] at h ⊢
        simp only at h ⊢
        cases hs : step c tc with
        | none => rw [hs] at h; simp at h
        | some c2 =>
          rw [hs] at h
          simp only at h ⊢
          obtain ⟨e1, e2, e3, e4, e5⟩ := ih c2 (tc.Increment c2) k c1 tc1 h
          have hIncM : (tc.Increment c2).Model = tc.Model := rfl
          have hIncF : (tc.Increment c2).FeatExtractor = tc.FeatExtractor := rfl
          have hIncL : (tc.Increment c2).FeaturesList
              = ⟨tc.FeatExtractor c2, Configuration.GetLastTransition c2⟩
                :: tc.FeaturesList := rfl
          have hIncS : (tc.Increment c2).Score
              = tc.Score.add (tc.Model (Configuration.GetLastTransition c2)
                (tc.FeatExtractor c2)) := rfl
          obtain ⟨rest, hrest⟩ : ∃ rest, loopStates step n c2 (tc.Increment c2)
              = (c2, tc.Increment c2) :: rest := by
            unfold loopStates
            exact ⟨_, rfl⟩
          rw [hrest] at e3 e4
          simp only [hIncF, hIncM, List.take_succ_cons, List.tail_cons] at e3 e4 e5
          rw [hIncL] at e3
          rw [hIncS] at e4
          refine ⟨e1.trans hIncM, e2.trans hIncF, ?_, ?_, ?_⟩
          · rw [e3, hrest]
            simp
          · rw [e4, hrest]
            simp only [List.take_succ_cons, List.tail_cons, List.map_cons, List.foldl_cons]
          · intro _
            cases k with
            | zero =>
              rw [hrest] at h
              simp only [List.getElem?_cons_zero, Option.some.injEq, Prod.mk.injEq] at h
              obtain ⟨h1, h2⟩ := h
              subst h1 h2
              rw [hIncL]
              simp
            | succ k => exact e5 (by omega)

end CumulativeScore

section CumulativeScoreClaim

variable {Conf Gold : Type} [Configuration Conf]

/-- C12: in the loop of `Parse` and in the loop of `ParseOracle`, started on a newly created
classifier after `Init`, the state after `k` applied transitions has a classifier whose
cumulative `Score` is the sum over the nodes of its `FeaturesList` of the transition score of
the node, a `float64` sum taken in the order in which the transitions were applied, whose
`FeaturesList` has exactly `k` nodes, the head being the node of the configuration reached
last, and whose model is the one it was created with. The loops end in one of these
states. -/
theorem classifier_score_is_sum_of_node_scores
    (model : Transition → List (Option Feature) → Float64)
    (transFunc : TransitionSystem Conf Gold) (featExtractor : Conf → List (Option Feature))
    (score : Float64) (showConsiderations : Bool) (gold : Gold) (fuel : Nat) (c0 : Conf)
    (k : Nat) (c : Conf) (tc : TransitionClassifier Conf Gold)
    (h : (loopStates parseStep fuel c0
          (TransitionClassifier.Init
            (TransitionClassifier.mk model transFunc featExtractor score []
              showConsiderations)))[k]? = some (c, tc) ∨
        (loopStates (oracleStep transFunc gold) fuel c0
          (TransitionClassifier.Init
            (TransitionClassifier.mk model transFunc featExtractor score []
              showConsiderations)))[k]? = some (c, tc)) :
    (tc.Score
        = floatSum (tc.FeaturesList.reverse.map (fun n => tc.Model n.Transition n.Features)) ∧
      tc.FeaturesList.length = k ∧
      (0 < k → tc.FeaturesList.head?
        = some ⟨featExtractor c, Configuration.GetLastTransition c⟩) ∧
      tc.Model = model) ∧
    (∀ r, parseLoop fuel c0
          (TransitionClassifier.Init
            (TransitionClassifier.mk model transFunc featExtractor score []
              showConsiderations)) = .ok r →
        r ∈ loopStates parseStep fuel c0
          (TransitionClassifier.Init
            (TransitionClassifier.mk model transFunc featExtractor score []
              showConsiderations))) ∧
    (∀ r, oracleLoop transFunc gold fuel c0
          (TransitionClassifier.Init
            (TransitionClassifier.mk model transFunc featExtractor score []
              showConsiderations)) = .ok r →
        r ∈ loopStates (oracleStep transFunc gold) fuel c0
          (TransitionClassifier.Init
            (TransitionClassifier.mk model transFunc featExtractor score []
              showConsiderations))) := by
  have key : ∀ (step : Conf → TransitionClassifier Conf Gold → Option Conf),
      (loopStates step fuel c0
          (TransitionClassifier.Init
            (TransitionClassifier.mk model transFunc featExtractor score []
              showConsiderations)))[k]? = some (c, tc) →
      tc.Score
        = floatSum (tc.FeaturesList.reverse.map (fun n => tc.Model n.Transition n.Features)) ∧
      tc.FeaturesList.length = k ∧
      (0 < k → tc.FeaturesList.head?
        = some ⟨featExtractor c, Configuration.GetLastTransition c⟩) ∧
      tc.Model = model := by
    intro step hk
    obtain ⟨e1, _, e3, e4, e5⟩ := loopStates_invariant step fuel c0 _ k c tc hk
    have hlen : k < (loopStates step fuel c0
        (TransitionClassifier.Init
          (TransitionClassifier.mk model transFunc featExtractor score []
            showConsiderations))).length := by
      by_contra hge
      rw [List.getElem?_eq_none (by omega)] at hk
      exact Option.noConfusion hk
    simp only [TransitionClassifier.Init, List.append_nil] at e1 e3 e4 e5
    refine ⟨?_, ?_, e5, e1⟩
    · rw [e4, e3, e1, List.reverse_reverse]
      rfl
    · rw [e3]
      simp only [List.length_reverse, List.length_map, List.length_tail, List.length_take]
      simp only [TransitionClassifier.Init] at hlen
      omega
  refine ⟨?_, parseLoop_mem_loopStates fuel c0 _, oracleLoop_mem_loopStates transFunc gold fuel
    c0 _⟩
  rcases h with h | h
  · exact key _ h
  · exact key _ h

/-- C12 on the small system, after the two transitions of `Parse` on a sentence of two
tokens: the score 4 is the sum of the scores 2 and 2 of the two nodes. -/
theorem classifier_score_is_sum_of_node_scores_witness :
    (((toyClassifier.Increment ⟨1, 2⟩).Increment ⟨0, 2⟩).Score
        = floatSum (((((toyClassifier.Increment ⟨1, 2⟩).Increment ⟨0, 2⟩).FeaturesList).reverse).map
            (fun n => ((toyClassifier.Increment ⟨1, 2⟩).Increment ⟨0, 2⟩).Model
              n.Transition n.Features)) ∧
      (((toyClassifier.Increment ⟨1, 2⟩).Increment ⟨0, 2⟩).FeaturesList).length = 2 ∧
      (0 < 2 → (((toyClassifier.Increment ⟨1, 2⟩).Increment ⟨0, 2⟩).FeaturesList).head?
        = some ⟨toyDecoder.FeatExtractor ⟨0, 2⟩,
            Configuration.GetLastTransition (⟨0, 2⟩ : ToyConf)⟩) ∧
      ((toyClassifier.Increment ⟨1, 2⟩).Increment ⟨0, 2⟩).Model = toyModel) ∧
    ((toyClassifier.Increment ⟨1, 2⟩).Increment ⟨0, 2⟩).Score = Float64.ofInt 4 :=
  ⟨(classifier_score_is_sum_of_node_scores toyModel toySystem toyDecoder.FeatExtractor
      Float64.zero false
      [2, 2] 5 ⟨2, 0⟩ 2 ⟨0, 2⟩ ((toyClassifier.Increment ⟨1, 2⟩).Increment ⟨0, 2⟩)
      (Or.inl (by rfl))).1, by decide⟩

end CumulativeScoreClaim

/-! ## The averaging strategy (C14, C15, C16) -/

theorem wrap64_eq_iff (a b : Int) :
    wrap64 a = wrap64 b ↔ a % 18446744073709551616 = b % 18446744073709551616 := by
  unfold wrap64; omega

theorem wrap64_mul_congr (c a b : Int) (h : wrap64 a = wrap64 b) :
    wrap64 (c * a) = wrap64 (c * b) := by
  rw [wrap64_eq_iff] at h ⊢
  exact Int.ModEq.mul_left c h

theorem wrap64_succ_congr (a b : Int) (h : wrap64 a = wrap64 b) :
    wrap64 (wrap64 (a + 1)) = wrap64 (b + 1) := by
  rw [wrap64_idem]
  rw [wrap64_eq_iff] at h ⊢
  exact Int.ModEq.add_right 1 h

/-- Successive calls of `Update` on a strategy whose `accumModel` points to a live matrix
return, raise `N` and the generation of that matrix by the number of calls, in the
arithmetic of `int`, and leave its other fields and every other matrix as they are. -/
theorem updates_spec :
    ∀ (ms : List ModelInterface) (u : AveragedModelStrategy) (heap : Heap) (p : Nat)
      (t : AvgMatrixSparse), u.accumModel = some p → heap p = some t →
      ∃ u1 heap1 g1, u.updates heap ms = .ok (u1, heap1) ∧ u1.P = u.P ∧
        wrap64 u1.N = wrap64 (u.N + ms.length) ∧ u1.accumModel = some p ∧
        heap1 p = some { t with Generation := g1 } ∧
        wrap64 g1 = wrap64 (t.Generation + ms.length) ∧
        ∀ q, q ≠ p → heap1 q = heap q := by
  intro ms
  induction ms with
  | nil =>
    intro u heap p t _ hp
    exact ⟨u, heap, t.Generation, rfl, rfl, by simp, by assumption, by simpa using hp,
      by simp, fun _ _ => rfl⟩
  | cons m rest ih =>
    intro u heap p t hu hp
    obtain ⟨u1, heap1, g1, h1, h2, h3, h4, h5, h5g, h6⟩ := ih { u with N := wrap64 (u.N + 1) }
      (heap.set p t.IncrementGeneration) p t.IncrementGeneration hu (by simp [Heap.set])
    refine ⟨u1, heap1, g1, ?_, h2, ?_, h4, ?_, ?_, ?_⟩
    · simp only [AveragedModelStrategy.updates, AveragedModelStrategy.Update, hu, hp]
      rw [hu] at h1
      exact h1
    · rw [h3]
      simp only [List.length_cons, wrap64_add_left]
      push_cast
      congr 1
      ring
    · rw [h5]
      simp only [AvgMatrixSparse.IncrementGeneration]
    · rw [h5g]
      simp only [AvgMatrixSparse.IncrementGeneration, List.length_cons, wrap64_add_left]
      push_cast
      congr 1
      ring
    · intro q hq
      rw [h6 q hq]
      simp [Heap.set, hq]

/-- C14: after `Init(m, P)` on a pointer `m` to a live matrix and then `n` calls of `Update`
(whatever models they are given), `Finalize` returns that pointer, and the matrix it points
to is the matrix before `Init` with `Generation` set to `P * n`, the product of `int`s that
Go computes (reduced by `wrap64`, hence the product itself when that is in the range of an
`int`), and every template shard integrated with that generation; no other matrix is
changed. -/
theorem finalize_after_updates (integrate : AvgSparse → Int → AvgSparse)
    (u0 : AveragedModelStrategy) (heap : Heap) (p : Nat) (t : AvgMatrixSparse) (P : Int)
    (ms : List ModelInterface) (m : ModelInterface) (hp : heap p = some t) :
    ∃ u1 u2 heap2 heap3,
      u0.Init (.avgMatrixSparse p) P = .ok u1 ∧
      u1.updates heap ms = .ok (u2, heap2) ∧
      AveragedModelStrategy.Finalize integrate u2 heap2 m = .ok (heap3, .avgMatrixSparse p) ∧
      heap3 p = some { t with
        Generation := wrap64 (P * ms.length)
        Mat := t.Mat.map (fun val => integrate val (wrap64 (P * ms.length))) } ∧
      (∀ q, q ≠ p → heap3 q = heap q) ∧
      (-9223372036854775808 ≤ P * ms.length → P * ms.length ≤ 9223372036854775807 →
        wrap64 (P * ms.length) = P * ms.length) := by
  obtain ⟨u2, heap2, g2, h1, h2, h3, h4, h5, _, h6⟩ :=
    updates_spec ms { P := P, N := 0, accumModel := some p } heap p t rfl hp
  have hN : wrap64 (u2.P * u2.N) = wrap64 (P * ms.length) := by
    rw [h2]
    apply wrap64_mul_congr
    rw [← wrap64_idem u2.N, h3]
    simp [wrap64_idem]
  refine ⟨{ P := P, N := 0, accumModel := some p }, u2, heap2,
    heap2.set p
      (AvgMatrixSparse.Integrate integrate { t with Generation := wrap64 (u2.P * u2.N) }),
    rfl, h1, ?_, ?_, ?_, ?_⟩
  · simp only [AveragedModelStrategy.Finalize, h4, h5]
  · simp only [Heap.set, if_true, AvgMatrixSparse.Integrate, hN]
  · intro q hq
    simp only [Heap.set, if_neg hq]
    exact h6 q hq
  · intro hlo hhi
    unfold wrap64
    omega

/-- C14 on `exampleHeap`: `Init` with 3 iterations on the matrix at address 0, two calls of
`Update`, then `Finalize`. -/
theorem finalize_after_updates_witness :
    ∃ u1 u2 heap2 heap3,
      newStrategy.Init (.avgMatrixSparse 0) 3 = .ok u1 ∧
      u1.updates exampleHeap [.avgMatrixSparse 0, .other] = .ok (u2, heap2) ∧
      AveragedModelStrategy.Finalize AvgSparse.Integrate u2 heap2 .other
        = .ok (heap3, .avgMatrixSparse 0) ∧
      heap3 0 = some { ({ zeroMatrix with Generation := 5 } : AvgMatrixSparse) with
        Generation := wrap64 (3 * ([.avgMatrixSparse 0, .other] : List ModelInterface).length)
        Mat := ({ zeroMatrix with Generation := 5 } : AvgMatrixSparse).Mat.map
          (fun val => AvgSparse.Integrate val
            (wrap64 (3 * ([.avgMatrixSparse 0, .other] : List ModelInterface).length))) } ∧
      (∀ q, q ≠ 0 → heap3 q = exampleHeap q) ∧
      (-9223372036854775808 ≤ 3 * (([.avgMatrixSparse 0, .other] :
            List ModelInterface).length : Int) →
        3 * (([.avgMatrixSparse 0, .other] : List ModelInterface).length : Int)
          ≤ 9223372036854775807 →
        wrap64 (3 * ([.avgMatrixSparse 0, .other] : List ModelInterface).length)
          = 3 * ([.avgMatrixSparse 0, .other] : List ModelInterface).length) :=
  finalize_after_updates AvgSparse.Integrate newStrategy exampleHeap 0
    { zeroMatrix with Generation := 5 } 3 [.avgMatrixSparse 0, .other] .other rfl

/-- C15, as stated, fails: on a strategy initialised with the matrix at address 0, `Update`
called with the matrix at address 1 leaves the generation of that matrix at 0 and advances
the generation of the matrix at address 0 from 5 to 6. -/
theorem update_ignores_its_argument :
    (newStrategy.Init (.avgMatrixSparse 0) 1).bind
        (fun u => (u.Update exampleHeap (.avgMatrixSparse 1)).map
          (fun r => ((exampleHeap 1).map (fun t => t.Generation),
            (r.2 1).map (fun t => t.Generation), (r.2 0).map (fun t => t.Generation))))
      = .ok (some 0, some 0, some 6) := by
  decide

/-- C15, amended: `Update`, whatever model it is given, advances by one, in the arithmetic
of `int` (from the greatest `int` to the least), the `Generation` of the matrix that `Init`
stored in `accumModel` and the counter `N` of the strategy: below the greatest `int` both
grow by exactly one. It leaves the shards and every other field of that matrix, and every
other matrix, as they are. It panics on a strategy whose `accumModel` is nil. -/
theorem update_advances_accumModel (u : AveragedModelStrategy) (heap : Heap)
    (m : ModelInterface) (p : Nat) (t : AvgMatrixSparse)
    (hu : u.accumModel = some p) (hp : heap p = some t) :
    (∃ heap1, u.Update heap m = .ok ({ u with N := wrap64 (u.N + 1) }, heap1) ∧
      heap1 p = some { t with Generation := wrap64 (t.Generation + 1) } ∧
      ∀ q, q ≠ p → heap1 q = heap q) ∧
    (-9223372036854775808 ≤ u.N → u.N < 9223372036854775807 → wrap64 (u.N + 1) = u.N + 1) ∧
    (-9223372036854775808 ≤ t.Generation → t.Generation < 9223372036854775807 →
      wrap64 (t.Generation + 1) = t.Generation + 1) ∧
    wrap64 (9223372036854775807 + 1) = -9223372036854775808 ∧
    ({ u with accumModel := none } : AveragedModelStrategy).Update heap m
      = .error nilDereference := by
  refine ⟨⟨heap.set p t.IncrementGeneration, ?_, ?_, ?_⟩, ?_, ?_, by decide, rfl⟩
  · simp only [AveragedModelStrategy.Update, hu, hp]
  · simp [Heap.set, AvgMatrixSparse.IncrementGeneration]
  · intro q hq
    simp [Heap.set, hq]
  · intro h1 h2; unfold wrap64; omega
  · intro h1 h2; unfold wrap64; omega

/-- The amended C15 on `exampleHeap`, the strategy pointing to address 0 and `Update` being
given the matrix at address 1: the generation of the matrix at address 0 goes from 5 to 6
and `N` from 0 to 1. -/
theorem update_advances_accumModel_witness :
    (∃ heap1, ({ P := 1, N := 0, accumModel := some 0 } : AveragedModelStrategy).Update
          exampleHeap (.avgMatrixSparse 1)
        = .ok ({ P := 1, N := 1, accumModel := some 0 }, heap1) ∧
      heap1 0 = some { zeroMatrix with Generation := 6 } ∧
      ∀ q, q ≠ 0 → heap1 q = exampleHeap q) ∧
    ({ P := 1, N := 0, accumModel := none } : AveragedModelStrategy).Update exampleHeap
        (.avgMatrixSparse 1)
      = .error nilDereference :=
  ⟨(update_advances_accumModel { P := 1, N := 0, accumModel := some 0 } exampleHeap
      (.avgMatrixSparse 1) 0 { zeroMatrix with Generation := 5 } rfl rfl).1,
    (update_advances_accumModel { P := 1, N := 0, accumModel := some 0 } exampleHeap
      (.avgMatrixSparse 1) 0 { zeroMatrix with Generation := 5 } rfl rfl).2.2.2.2⟩

/-- C16, as stated, fails: on a matrix at generation 5, `Init` with one iteration and one
`Update` bring the generation to 6, and `Finalize` then sets it to 1; and
`IncrementGeneration` on a matrix at the greatest `int` leaves it at the least. -/
theorem finalize_lowers_generation :
    (newStrategy.Init (.avgMatrixSparse 0) 1).bind
        (fun u1 => (u1.Update exampleHeap (.avgMatrixSparse 0)).bind
          (fun r => (AveragedModelStrategy.Finalize AvgSparse.Integrate r.1 r.2
              (.avgMatrixSparse 0)).map
            (fun s => ((r.2 0).map (fun t => t.Generation),
              (s.1 0).map (fun t => t.Generation)))))
      = .ok (some 6, some 1) ∧
    ({ zeroMatrix with Generation := 9223372036854775807 } :
        AvgMatrixSparse).IncrementGeneration.Generation = -9223372036854775808 := by
  decide

/-- C16, amended: `IncrementGeneration` sets `Generation` to `Generation + 1` in the
arithmetic of `int`: it raises it by one, except at the greatest `int`, which it turns into
the least. `Update` does this to the matrix in `accumModel` and leaves every other matrix
(`Init` is handed no matrix to change). `Finalize` sets the `Generation` of the matrix in
`accumModel` to the `int` product `P * N` and leaves the generation of every other matrix;
it does not lower a `Generation` exactly when the previous value is at most that product. -/
theorem generation_changes (integrate : AvgSparse → Int → AvgSparse)
    (u : AveragedModelStrategy) (heap : Heap) (m : ModelInterface) (p : Nat)
    (t : AvgMatrixSparse) (hu : u.accumModel = some p) (hp : heap p = some t) :
    t.IncrementGeneration.Generation = wrap64 (t.Generation + 1) ∧
    (-9223372036854775808 ≤ t.Generation → t.Generation < 9223372036854775807 →
      t.IncrementGeneration.Generation = t.Generation + 1) ∧
    (t.Generation = 9223372036854775807 →
      t.IncrementGeneration.Generation = -9223372036854775808) ∧
    (∃ u1 heap1, u.Update heap m = .ok (u1, heap1) ∧
      heap1 p = some t.IncrementGeneration ∧ ∀ q, q ≠ p → heap1 q = heap q) ∧
    (∃ heap1 r, AveragedModelStrategy.Finalize integrate u heap m = .ok (heap1, r) ∧
      (∃ s1, heap1 p = some s1 ∧ s1.Generation = wrap64 (u.P * u.N)) ∧
      (∀ q, q ≠ p → heap1 q = heap q) ∧
      ((∀ q s, heap q = some s → ∃ s1, heap1 q = some s1 ∧ s.Generation ≤ s1.Generation)
        ↔ t.Generation ≤ wrap64 (u.P * u.N))) := by
  refine ⟨rfl, ?_, ?_,
    ⟨{ u with N := wrap64 (u.N + 1) }, heap.set p t.IncrementGeneration, ?_, ?_, ?_⟩,
    ⟨heap.set p
        (AvgMatrixSparse.Integrate integrate { t with Generation := wrap64 (u.P * u.N) }),
      .avgMatrixSparse p, ?_,
      ⟨AvgMatrixSparse.Integrate integrate { t with Generation := wrap64 (u.P * u.N) },
        by simp [Heap.set], rfl⟩, ?_, ?_⟩⟩
  · intro h1 h2
    simp only [AvgMatrixSparse.IncrementGeneration]
    unfold wrap64; omega
  · intro h
    simp only [AvgMatrixSparse.IncrementGeneration, h]
    decide
  · simp only [AveragedModelStrategy.Update, hu, hp]
  · simp [Heap.set]
  · intro q hq
    simp [Heap.set, hq]
  · simp only [AveragedModelStrategy.Finalize, hu, hp]
  · intro q hq
    simp [Heap.set, hq]
  · constructor
    · intro h
      obtain ⟨s1, hs1, hle⟩ := h p t hp
      simp only [Heap.set, if_true, Option.some.injEq] at hs1
      subst hs1
      exact hle
    · intro hle q s hq
      by_cases hqp : q = p
      · subst hqp
        rw [hp] at hq
        injection hq with hq
        subst hq
        exact ⟨AvgMatrixSparse.Integrate integrate
            { t with Generation := wrap64 (u.P * u.N) },
          by simp [Heap.set], hle⟩
      · exact ⟨s, by simp [Heap.set, hqp, hq], le_refl _⟩

/-- The amended C16 on `exampleHeap` and a strategy with `P = 1`, `N = 1` pointing to the
matrix at address 0, whose generation is 5: `IncrementGeneration` gives 6, and `Finalize`
sets the generation to 1, which lowers it. -/
theorem generation_changes_witness :
    ({ zeroMatrix with Generation := 5 } : AvgMatrixSparse).IncrementGeneration.Generation
      = wrap64 (({ zeroMatrix with Generation := 5 } : AvgMatrixSparse).Generation + 1) ∧
    ({ zeroMatrix with Generation := 5 } : AvgMatrixSparse).IncrementGeneration.Generation
      = 6 ∧
    (∃ heap1 r, AveragedModelStrategy.Finalize AvgSparse.Integrate
        ({ P := 1, N := 1, accumModel := some 0 } : AveragedModelStrategy) exampleHeap .other
        = .ok (heap1, r) ∧
      (∃ s1, heap1 0 = some s1 ∧ s1.Generation
        = wrap64 (({ P := 1, N := 1, accumModel := some 0 } : AveragedModelStrategy).P
          * ({ P := 1, N := 1, accumModel := some 0 } : AveragedModelStrategy).N)) ∧
      (∀ q, q ≠ 0 → heap1 q = exampleHeap q) ∧
      ((∀ q s, exampleHeap q = some s →
          ∃ s1, heap1 q = some s1 ∧ s.Generation ≤ s1.Generation)
        ↔ ({ zeroMatrix with Generation := 5 } : AvgMatrixSparse).Generation
          ≤ wrap64 (({ P := 1, N := 1, accumModel := some 0 } : AveragedModelStrategy).P
            * ({ P := 1, N := 1, accumModel := some 0 } : AveragedModelStrategy).N))) :=
  ⟨(generation_changes AvgSparse.Integrate { P := 1, N := 1, accumModel := some 0 }
      exampleHeap .other 0 { zeroMatrix with Generation := 5 } rfl rfl).1,
    by decide,
    (generation_changes AvgSparse.Integrate { P := 1, N := 1, accumModel := some 0 }
      exampleHeap .other 0 { zeroMatrix with Generation := 5 } rfl rfl).2.2.2.2⟩

/-! ## The layout of the transition enumeration (C17) -/

theorem enumSet_add_new (e : EnumSet) (value : String) (h : value ∉ e.Index) :
    e.Add value = ({ Index := e.Index ++ [value] }, e.Index.length, true) := by
  simp [EnumSet.Add, h]

theorem tag_append_injective (tag : String) :
    Function.Injective (fun (s : String) => tag ++ s) := by
  intro a b h
  have h1 := congrArg String.data h
  simp only [String.data_append] at h1
  exact String.ext (List.append_cancel_left h1)

theorem addRelations_index (tag : String) :
    ∀ (relations : List String) (e : EnumSet),
      (∀ r ∈ relations, tag ++ r ∉ e.Index) → relations.Nodup →
      (addRelations tag e relations).Index = e.Index ++ relations.map (fun s => tag ++ s) := by
  intro relations
  induction relations with
  | nil => intro e _ _; simp [addRelations]
  | cons r rest ih =>
    intro e hnew hnodup
    have hr : tag ++ r ∉ e.Index := hnew r (by simp)
    rw [List.nodup_cons] at hnodup
    simp only [addRelations, enumSet_add_new e _ hr]
    rw [ih _ ?_ hnodup.2]
    · simp
    · intro r1 hr1
      simp only [List.mem_append, List.mem_singleton, not_or]
      refine ⟨hnew r1 (List.mem_cons_of_mem _ hr1), ?_⟩
      intro heq
      have := tag_append_injective tag heq
      subst this
      exact hnodup.1 hr1

theorem setupMorphTransEnum_eq (ROOT_LABEL : String) (relations : List String)
    (hnodup : relations.Nodup) (hroot : ROOT_LABEL ∉ relations) :
    SetupMorphTransEnum ROOT_LABEL relations
      = { ETrans := { Index := ["NO", "SH", "RE", "AL", "AR", "PR"]
            ++ (ROOT_LABEL :: relations).map (fun s => "LA-" ++ s)
            ++ (ROOT_LABEL :: relations).map (fun s => "RA-" ++ s) }
          SH := 1, RE := 2, PR := 5, LA := 6
          RA := 6 + relations.length + 1
          MD := 6 + relations.length + 1 + relations.length + 1 } := by
  have hLA : ∀ (s : String), "LA-" ++ s ∉ ["NO", "SH", "RE", "AL", "AR", "PR"] := by
    intro s h
    simp only [List.mem_cons, List.mem_singleton, List.mem_nil_iff, or_false] at h
    rcases h with h | h | h | h | h | h <;>
    · have := congrArg String.data h
      simp [String.data_append] at this
  have hRA : ∀ (s : String), "RA-" ++ s ∉ ["NO", "SH", "RE", "AL", "AR", "PR"] := by
    intro s h
    simp only [List.mem_cons, List.mem_singleton, List.mem_nil_iff, or_false] at h
    rcases h with h | h | h | h | h | h <;>
    · have := congrArg String.data h
      simp [String.data_append] at this
  have hne : ∀ (a b : String), "RA-" ++ a ≠ "LA-" ++ b := by
    intro a b h
    have := congrArg String.data h
    simp [String.data_append] at this
  have h1 : (NewEnumSet.Add "NO").1 = { Index := ["NO"] } := by decide
  have h2 : EnumSet.Add { Index := ["NO"] } "SH" = ({ Index := ["NO", "SH"] }, 1, true) := by
    decide
  have h3 : EnumSet.Add { Index := ["NO", "SH"] } "RE"
      = ({ Index := ["NO", "SH", "RE"] }, 2, true) := by decide
  have h4 : (EnumSet.Add { Index := ["NO", "SH", "RE"] } "AL").1
      = { Index := ["NO", "SH", "RE", "AL"] } := by decide
  have h5 : (EnumSet.Add { Index := ["NO", "SH", "RE", "AL"] } "AR").1
      = { Index := ["NO", "SH", "RE", "AL", "AR"] } := by decide
  have h6 : EnumSet.Add { Index := ["NO", "SH", "RE", "AL", "AR"] } "PR"
      = ({ Index := ["NO", "SH", "RE", "AL", "AR", "PR"] }, 5, true) := by decide
  have h7 : (EnumSet.Add { Index := ["NO", "SH", "RE", "AL", "AR", "PR"] }
      ("LA-" ++ ROOT_LABEL)).1
      = { Index := ["NO", "SH", "RE", "AL", "AR", "PR"] ++ ["LA-" ++ ROOT_LABEL] } := by
    rw [enumSet_add_new _ _ (hLA ROOT_LABEL)]
  have h8 : addRelations "LA-"
      { Index := ["NO", "SH", "RE", "AL", "AR", "PR"] ++ ["LA-" ++ ROOT_LABEL] } relations
      = { Index := ["NO", "SH", "RE", "AL", "AR", "PR"]
          ++ (ROOT_LABEL :: relations).map (fun s => "LA-" ++ s) } := by
    have := addRelations_index "LA-" relations
      { Index := ["NO", "SH", "RE", "AL", "AR", "PR"] ++ ["LA-" ++ ROOT_LABEL] }
      (by
        intro r hr hmem
        simp only [List.mem_append, List.mem_singleton] at hmem
        rcases hmem with hmem | hmem
        · exact hLA r hmem
        · have := tag_append_injective "LA-" hmem
          subst this
          exact hroot hr)
      hnodup
    cases hx : addRelations "LA-"
      { Index := ["NO", "SH", "RE", "AL", "AR", "PR"] ++ ["LA-" ++ ROOT_LABEL] } relations
    rw [hx] at this
    simp only at this
    rw [this]
    simp
  have h9 : (EnumSet.Add { Index := ["NO", "SH", "RE", "AL", "AR", "PR"]
      ++ (ROOT_LABEL :: relations).map (fun s => "LA-" ++ s) } ("RA-" ++ ROOT_LABEL)).1
      = { Index := ["NO", "SH", "RE", "AL", "AR", "PR"]
          ++ (ROOT_LABEL :: relations).map (fun s => "LA-" ++ s) ++ ["RA-" ++ ROOT_LABEL] } := by
    rw [enumSet_add_new]
    intro hmem
    simp only [List.mem_append, List.mem_map] at hmem
    rcases hmem with hmem | ⟨b, _, hb⟩
    · exact hRA ROOT_LABEL hmem
    · exact hne ROOT_LABEL b hb.symm
  have h10 : addRelations "RA-"
      { Index := ["NO", "SH", "RE", "AL", "AR", "PR"]
          ++ (ROOT_LABEL :: relations).map (fun s => "LA-" ++ s) ++ ["RA-" ++ ROOT_LABEL] }
      relations
      = { Index := ["NO", "SH", "RE", "AL", "AR", "PR"]
          ++ (ROOT_LABEL :: relations).map (fun s => "LA-" ++ s)
          ++ (ROOT_LABEL :: relations).map (fun s => "RA-" ++ s) } := by
    have := addRelations_index "RA-" relations
      { Index := ["NO", "SH", "RE", "AL", "AR", "PR"]
          ++ (ROOT_LABEL :: relations).map (fun s => "LA-" ++ s) ++ ["RA-" ++ ROOT_LABEL] }
      (by
        intro r hr hmem
        simp only [List.mem_append, List.mem_singleton, List.mem_map] at hmem
        rcases hmem with (hmem | ⟨b, _, hb⟩) | hmem
        · exact hRA r hmem
        · exact hne r b hb.symm
        · have := tag_append_injective "RA-" hmem
          subst this
          exact hroot hr)
      hnodup
    cases hx : addRelations "RA-"
      { Index := ["NO", "SH", "RE", "AL", "AR", "PR"]
          ++ (ROOT_LABEL :: relations).map (fun s => "LA-" ++ s) ++ ["RA-" ++ ROOT_LABEL] }
      relations
    rw [hx] at this
    simp only at this
    rw [this]
    simp
  simp only [SetupMorphTransEnum, h1, h2, h3, h4, h5, h6, h7, h8, h9, h10, EnumSet.Len]
  simp
  constructor <;> ring

/-- C17: for distinct relation labels none of which is the root label, `SetupMorphTransEnum`
gives `NO` the id 0 and `SH`, `RE`, `PR` the ids 1, 2, 5, all below `LA = 6`; the ids from
`LA` up to `RA` are those of `LA-` with the root label and then with each relation in
order, the ids from `RA` up to `MD` those of `RA-` with the root label and then with each
relation in order, with `RA = LA + n + 1` and `MD = RA + n + 1` for `n` relations, `MD` being
the number of names interned; so an id is an `LA-` name exactly when it lies in `[LA, RA)`
and an `RA-` name exactly when it lies in `[RA, MD)`. -/
theorem setupMorphTransEnum_layout (ROOT_LABEL : String) (relations : List String)
    (hnodup : relations.Nodup) (hroot : ROOT_LABEL ∉ relations) :
    (SetupMorphTransEnum ROOT_LABEL relations).ETrans.Index
      = ["NO", "SH", "RE", "AL", "AR", "PR"]
        ++ (ROOT_LABEL :: relations).map (fun s => "LA-" ++ s)
        ++ (ROOT_LABEL :: relations).map (fun s => "RA-" ++ s) ∧
    (SetupMorphTransEnum ROOT_LABEL relations).ETrans.Index[0]? = some "NO" ∧
    (SetupMorphTransEnum ROOT_LABEL relations).SH = 1 ∧
    (SetupMorphTransEnum ROOT_LABEL relations).RE = 2 ∧
    (SetupMorphTransEnum ROOT_LABEL relations).PR = 5 ∧
    (SetupMorphTransEnum ROOT_LABEL relations).LA = 6 ∧
    (SetupMorphTransEnum ROOT_LABEL relations).RA
      = (SetupMorphTransEnum ROOT_LABEL relations).LA + relations.length + 1 ∧
    (SetupMorphTransEnum ROOT_LABEL relations).MD
      = (SetupMorphTransEnum ROOT_LABEL relations).RA + relations.length + 1 ∧
    (SetupMorphTransEnum ROOT_LABEL relations).MD
      = (SetupMorphTransEnum ROOT_LABEL relations).ETrans.Len ∧
    (∀ (j : Nat), j < relations.length + 1 →
      (SetupMorphTransEnum ROOT_LABEL relations).ETrans.Index[
          ((SetupMorphTransEnum ROOT_LABEL relations).LA).toNat + j]?
        = ((ROOT_LABEL :: relations)[j]?).map (fun s => "LA-" ++ s)) ∧
    (∀ (j : Nat), j < relations.length + 1 →
      (SetupMorphTransEnum ROOT_LABEL relations).ETrans.Index[
          ((SetupMorphTransEnum ROOT_LABEL relations).RA).toNat + j]?
        = ((ROOT_LABEL :: relations)[j]?).map (fun s => "RA-" ++ s)) := by
  rw [setupMorphTransEnum_eq ROOT_LABEL relations hnodup hroot]
  refine ⟨rfl, rfl, rfl, rfl, rfl, rfl, rfl, rfl, ?_, ?_, ?_⟩
  · simp only [EnumSet.Len, List.length_append, List.length_cons, List.length_map,
      List.length_nil]
    push_cast
    ring
  · intro j hj
    have h6 : ((6 : Int).toNat) = 6 := rfl
    simp only [h6]
    rw [List.append_assoc, List.getElem?_append_right (by simp)]
    simp only [List.length_cons, List.length_nil, Nat.add_sub_cancel_left]
    rw [List.getElem?_append_left (by simpa using hj)]
    exact List.getElem?_map _ _ _
  · intro j hj
    have h7 : ((6 + (relations.length : Int) + 1 : Int).toNat) = 6 + relations.length + 1 := by
      omega
    simp only [h7]
    rw [List.getElem?_append_right (by simp; omega)]
    simp only [List.length_append, List.length_cons, List.length_nil, List.length_map]
    have : 6 + relations.length + 1 + j - (0 + 1 + 1 + 1 + 1 + 1 + 1 + (relations.length + 1))
        = j := by omega
    rw [this]
    exact List.getElem?_map _ _ _

/-- C17 for the relations `subj` and `obj` under the root label `ROOT`. -/
theorem setupMorphTransEnum_layout_witness :
    (SetupMorphTransEnum "ROOT" ["subj", "obj"]).ETrans.Index
      = ["NO", "SH", "RE", "AL", "AR", "PR"]
        ++ ("ROOT" :: ["subj", "obj"]).map (fun s => "LA-" ++ s)
        ++ ("ROOT" :: ["subj", "obj"]).map (fun s => "RA-" ++ s) ∧
    (SetupMorphTransEnum "ROOT" ["subj", "obj"]).ETrans.Index[0]? = some "NO" ∧
    (SetupMorphTransEnum "ROOT" ["subj", "obj"]).SH = 1 ∧
    (SetupMorphTransEnum "ROOT" ["subj", "obj"]).RE = 2 ∧
    (SetupMorphTransEnum "ROOT" ["subj", "obj"]).PR = 5 ∧
    (SetupMorphTransEnum "ROOT" ["subj", "obj"]).LA = 6 ∧
    (SetupMorphTransEnum "ROOT" ["subj", "obj"]).RA
      = (SetupMorphTransEnum "ROOT" ["subj", "obj"]).LA + ["subj", "obj"].length + 1 ∧
    (SetupMorphTransEnum "ROOT" ["subj", "obj"]).MD
      = (SetupMorphTransEnum "ROOT" ["subj", "obj"]).RA + ["subj", "obj"].length + 1 ∧
    (SetupMorphTransEnum "ROOT" ["subj", "obj"]).MD
      = (SetupMorphTransEnum "ROOT" ["subj", "obj"]).ETrans.Len ∧
    (∀ (j : Nat), j < ["subj", "obj"].length + 1 →
      (SetupMorphTransEnum "ROOT" ["subj", "obj"]).ETrans.Index[
          ((SetupMorphTransEnum "ROOT" ["subj", "obj"]).LA).toNat + j]?
        = (("ROOT" :: ["subj", "obj"])[j]?).map (fun s => "LA-" ++ s)) ∧
    (∀ (j : Nat), j < ["subj", "obj"].length + 1 →
      (SetupMorphTransEnum "ROOT" ["subj", "obj"]).ETrans.Index[
          ((SetupMorphTransEnum "ROOT" ["subj", "obj"]).RA).toNat + j]?
        = (("ROOT" :: ["subj", "obj"])[j]?).map (fun s => "RA-" ++ s)) :=
  setupMorphTransEnum_layout "ROOT" ["subj", "obj"] (by decide) (by decide)

/-! ## Sequential and concurrent updates (C19) -/

/-- Two updates of a shard at the same generation give the same shard in either order. -/
theorem AvgSparse.Add_comm (s : AvgSparse) (g : Int) (tr1 : Transition) (f1 : Feature)
    (a1 : Int) (tr2 : Transition) (f2 : Feature) (a2 : Int) :
    (s.Add g tr1 f1 a1).Add g tr2 f2 a2 = (s.Add g tr2 f2 a2).Add g tr1 f1 a1 := by
  unfold AvgSparse.Add
  simp only
  congr 1
  funext f tr
  by_cases h1 : f = f1 ∧ tr = tr1
  · by_cases h2 : f = f2 ∧ tr = tr2
    · obtain ⟨hf1, ht1⟩ := h1
      obtain ⟨hf2, ht2⟩ := h2
      subst hf1 ht1 hf2 ht2
      cases hv : s.Vals f tr with
      | none =>
        simp only [and_self, if_true, HistoryValue.Add, Option.some.injEq,
          HistoryValue.mk.injEq, sub_self, mul_zero, add_zero]
        simp only [wrap64_add_left, wrap64_idem, and_true, wrap64_zero, zero_add]
        rw [add_comm]
      | some h =>
        simp only [and_self, if_true, HistoryValue.Add, Option.some.injEq,
          HistoryValue.mk.injEq, sub_self, mul_zero, add_zero]
        simp only [wrap64_add_left, wrap64_idem, and_true]
        rw [add_right_comm]
    · obtain ⟨hf1, ht1⟩ := h1
      subst hf1 ht1
      simp [h2]
  · by_cases h2 : f = f2 ∧ tr = tr2
    · obtain ⟨hf2, ht2⟩ := h2
      subst hf2 ht2
      simp [h1]
    · simp [h1, h2]

theorem ShardUpdate.run_length (g : Int) (Mat : List AvgSparse) (u : ShardUpdate) :
    (u.run g Mat).length = Mat.length := by
  unfold ShardUpdate.run
  split <;> simp

theorem foldl_run_length (g : Int) :
    ∀ (us : List ShardUpdate) (Mat : List AvgSparse),
      (us.foldl (ShardUpdate.run g) Mat).length = Mat.length := by
  intro us
  induction us with
  | nil => intro Mat; rfl
  | cons u rest ih =>
    intro Mat
    simp only [List.foldl_cons]
    rw [ih, ShardUpdate.run_length]

theorem ShardUpdate.run_getElem? (g : Int) (Mat : List AvgSparse) (u : ShardUpdate)
    (k : Nat) :
    (u.run g Mat)[k]?
      = if k = u.j then (Mat[k]?).map (fun shard => shard.Add g u.intTrans u.feat u.amount)
        else Mat[k]? := by
  unfold ShardUpdate.run
  by_cases hk : k = u.j
  · rw [if_pos hk, hk]
    cases hm : Mat[u.j]? with
    | none => simp only [hm, Option.map_none']
    | some shard =>
      have hlt : u.j < Mat.length := by
        by_contra h
        rw [List.getElem?_eq_none (not_lt.mp h)] at hm
        exact Option.noConfusion hm
      simp only [List.getElem?_set_self hlt, Option.map_some']
  · rw [if_neg hk]
    have hne : u.j ≠ k := fun h => hk h.symm
    cases hm : Mat[u.j]? with
    | none => rfl
    | some shard => simp only [List.getElem?_set_ne hne]

/-- Two goroutines of `apply` leave the same shards in whichever order they take effect. -/
theorem ShardUpdate.run_comm (g : Int) (Mat : List AvgSparse) (a b : ShardUpdate) :
    b.run g (a.run g Mat) = a.run g (b.run g Mat) := by
  apply List.ext_getElem?
  intro k
  rw [ShardUpdate.run_getElem?, ShardUpdate.run_getElem?, ShardUpdate.run_getElem?,
    ShardUpdate.run_getElem?]
  by_cases ha : k = a.j
  · by_cases hb : k = b.j
    · simp only [if_pos ha, if_pos hb]
      cases Mat[k]? with
      | none => rfl
      | some shard =>
        simp only [Option.map_some']
        rw [AvgSparse.Add_comm]
    · simp only [if_pos ha, if_neg hb]
  · by_cases hb : k = b.j
    · simp only [if_neg ha, if_pos hb]
    · simp only [if_neg ha, if_neg hb]

/-- The goroutines of `apply` leave the same shards in every order they can take effect. -/
theorem foldl_run_perm (g : Int) (us sched : List ShardUpdate) (h : sched.Perm us)
    (Mat : List AvgSparse) :
    sched.foldl (ShardUpdate.run g) Mat = us.foldl (ShardUpdate.run g) Mat := by
  haveI : RightCommutative (ShardUpdate.run g) := ⟨fun M a b => ShardUpdate.run_comm g M a b⟩
  exact List.Perm.foldl_eq h Mat

/-- On a feature vector that fits, the loop of `apply` returns the shards after its
goroutines have taken effect in the order of the program. -/
theorem applyLoop_updates (Log : Bool) (Fm : List String) (g : Int) (tr : Transition)
    (a : Int) :
    ∀ (feats : List (Option Feature)) (i : Nat) (Mat : List AvgSparse),
      i + feats.length ≤ Mat.length →
      (Log = true → i + feats.length ≤ Fm.length) →
      applyLoop Log Fm g tr a i feats Mat
        = .ok ((featureUpdates tr a i feats).foldl (ShardUpdate.run g) Mat) := by
  intro feats
  induction feats with
  | nil => intro i Mat _ _; rfl
  | cons x rest ih =>
    intro i Mat hM hF
    simp only [List.length_cons] at hM hF
    cases x with
    | none =>
      simp only [applyLoop, featureUpdates]
      exact ih (i + 1) Mat (by omega) (fun h => by have := hF h; omega)
    | some feat =>
      have hi : i < Mat.length := by omega
      have hlog : ¬ (Log = true ∧ Fm.length ≤ i) := by
        rintro ⟨h, h1⟩
        have := hF h
        omega
      have hget : Mat[i]? = some (Mat[i]) := List.getElem?_eq_getElem hi
      simp only [applyLoop, hlog, if_false, hget, featureUpdates, List.foldl_cons,
        ShardUpdate.run]
      exact ih (i + 1) _ (by simp; omega) (fun h => by have := hF h; omega)

/-- On a list whose nodes below the head fit, `apply` returns the matrix with the shards
after its goroutines have taken effect in the order of the program. -/
theorem apply_updates (t : AvgMatrixSparse) (L : FeaturesList) (a : Int) (hne : L ≠ [])
    (hfit : ∀ n ∈ L.tail, t.fits n) :
    t.apply L a
      = .ok { t with Mat := (applyUpdates L a).foldl (ShardUpdate.run t.Generation) t.Mat } := by
  cases L with
  | nil => exact absurd rfl hne
  | cons n rest =>
    cases rest with
    | nil => rfl
    | cons p rest =>
      have hp : t.fits p := hfit p (by simp)
      by_cases h96 : n.Transition ≥ 96
      · simp [AvgMatrixSparse.apply, applyUpdates, h96]
      · simp only [AvgMatrixSparse.apply, applyUpdates, h96, if_false]
        rw [applyLoop_updates t.Log t.Formatters t.Generation n.Transition a p.Features 0 t.Mat
          (by simpa using hp.1) (fun h => by simpa using hp.2 h)]

/-- On a decoded list with a node and gold nodes that fit, `AddSubtract` returns the matrix
with the shards after all goroutines have taken effect in the order of the program. -/
theorem addSubtract_updates (a : Int) :
    ∀ (D G : FeaturesList) (t : AvgMatrixSparse), D ≠ [] → D.length ≤ G.length + 1 →
      (∀ n ∈ G, t.fits n) →
      t.AddSubtract G D a
        = .ok { t with
            Mat := (addSubtractUpdates G D a).foldl (ShardUpdate.run t.Generation) t.Mat } := by
  intro D
  induction D with
  | nil => intro G t h; exact absurd rfl h
  | cons d rest ih =>
    intro G t _ hlen hfit
    cases rest with
    | nil => cases G <;> simp [AvgMatrixSparse.AddSubtract, addSubtractUpdates]
    | cons d1 rest =>
      cases G with
      | nil => simp at hlen
      | cons g gPrev =>
        have h1 := ih gPrev t (by simp)
          (by simp only [List.length_cons] at hlen ⊢; omega)
          (fun n hn => hfit n (List.mem_cons_of_mem _ hn))
        simp only [AvgMatrixSparse.AddSubtract, h1, addSubtractUpdates, List.foldl_append]
        rw [apply_updates _ (g :: gPrev) a (by simp)]
        intro n hn
        have := hfit n (List.mem_cons_of_mem _ (by simpa using hn))
        simpa [AvgMatrixSparse.fits, foldl_run_length] using this

theorem applyLoop_log (Fm : List String) (g : Int) (tr : Transition) (a : Int) :
    ∀ (feats : List (Option Feature)) (i : Nat) (Mat : List AvgSparse),
      Mat.length ≤ Fm.length →
      applyLoop true Fm g tr a i feats Mat = applyLoop false Fm g tr a i feats Mat := by
  intro feats
  induction feats with
  | nil => intro i Mat _; rfl
  | cons x rest ih =>
    intro i Mat h
    cases x with
    | none =>
      simp only [applyLoop]
      exact ih (i + 1) Mat h
    | some feat =>
      by_cases hi : Fm.length ≤ i
      · have hnone : Mat[i]? = none := List.getElem?_eq_none (by omega)
        simp [applyLoop, hi, hnone]
      · cases hget : Mat[i]? with
        | none => simp [applyLoop, hi, hget]
        | some shard =>
          simp only [applyLoop, hi, and_false, if_false, hget, Bool.false_eq_true, false_and]
          exact ih (i + 1) _ (by simpa using h)

theorem applyLoop_length (Log : Bool) (Fm : List String) (g : Int) (tr : Transition)
    (a : Int) :
    ∀ (feats : List (Option Feature)) (i : Nat) (Mat Mat1 : List AvgSparse),
      applyLoop Log Fm g tr a i feats Mat = .ok Mat1 → Mat1.length = Mat.length := by
  intro feats
  induction feats with
  | nil =>
    intro i Mat Mat1 h
    simp only [applyLoop, Except.ok.injEq] at h
    rw [← h]
  | cons x rest ih =>
    intro i Mat Mat1 h
    cases x with
    | none =>
      simp only [applyLoop] at h
      exact ih _ _ _ h
    | some feat =>
      simp only [applyLoop] at h
      split_ifs at h
      split at h
      · exact Except.noConfusion h
      · have := ih _ _ _ h
        simpa using this

/-- With no more shards than formatters, `apply` has the same outcome whatever `Log` is. -/
theorem apply_log (t : AvgMatrixSparse) (L : FeaturesList) (a : Int) (b1 b2 : Bool)
    (h : t.Mat.length ≤ t.Formatters.length) :
    (∃ e, ({ t with Log := b1 } : AvgMatrixSparse).apply L a = .error e ∧
      ({ t with Log := b2 } : AvgMatrixSparse).apply L a = .error e) ∨
    (∃ s : AvgMatrixSparse,
      ({ t with Log := b1 } : AvgMatrixSparse).apply L a = .ok { s with Log := b1 } ∧
      ({ t with Log := b2 } : AvgMatrixSparse).apply L a = .ok { s with Log := b2 } ∧
      s.Mat.length = t.Mat.length ∧ s.Formatters = t.Formatters) := by
  have hloop : ∀ (b : Bool) (tr : Transition) (feats : List (Option Feature)),
      applyLoop b t.Formatters t.Generation tr a 0 feats t.Mat
        = applyLoop false t.Formatters t.Generation tr a 0 feats t.Mat := by
    intro b tr feats
    cases b with
    | false => rfl
    | true => exact applyLoop_log t.Formatters t.Generation tr a feats 0 t.Mat h
  cases L with
  | nil => exact Or.inl ⟨nilDereference, rfl, rfl⟩
  | cons n rest =>
    cases rest with
    | nil => exact Or.inr ⟨t, rfl, rfl, rfl, rfl⟩
    | cons p rest =>
      by_cases h96 : n.Transition ≥ 96
      · exact Or.inr ⟨t, by simp [AvgMatrixSparse.apply, h96],
          by simp [AvgMatrixSparse.apply, h96], rfl, rfl⟩
      · cases hl : applyLoop false t.Formatters t.Generation n.Transition a 0 p.Features
            t.Mat with
        | error e =>
          refine Or.inl ⟨e, ?_, ?_⟩
          · simp only [AvgMatrixSparse.apply, h96, if_false, hloop b1, hl]
          · simp only [AvgMatrixSparse.apply, h96, if_false, hloop b2, hl]
        | ok Mat1 =>
          refine Or.inr ⟨{ t with Mat := Mat1 }, ?_, ?_,
            applyLoop_length _ _ _ _ _ _ _ _ _ hl, rfl⟩
          · simp only [AvgMatrixSparse.apply, h96, if_false, hloop b1, hl]
          · simp only [AvgMatrixSparse.apply, h96, if_false, hloop b2, hl]

/-- With no more shards than formatters, `AddSubtract` has the same outcome whatever `Log`
is. -/
theorem addSubtract_log (a : Int) (b1 b2 : Bool) :
    ∀ (D G : FeaturesList) (t : AvgMatrixSparse), t.Mat.length ≤ t.Formatters.length →
      (∃ e, ({ t with Log := b1 } : AvgMatrixSparse).AddSubtract G D a = .error e ∧
        ({ t with Log := b2 } : AvgMatrixSparse).AddSubtract G D a = .error e) ∨
      (∃ s : AvgMatrixSparse,
        ({ t with Log := b1 } : AvgMatrixSparse).AddSubtract G D a = .ok { s with Log := b1 } ∧
        ({ t with Log := b2 } : AvgMatrixSparse).AddSubtract G D a = .ok { s with Log := b2 } ∧
        s.Mat.length = t.Mat.length ∧ s.Formatters = t.Formatters) := by
  intro D
  induction D with
  | nil => intro G t _; exact Or.inl ⟨nilDereference, by cases G <;> rfl, by cases G <;> rfl⟩
  | cons d rest ih =>
    intro G t h
    cases rest with
    | nil =>
      exact Or.inr ⟨t, by cases G <;> rfl, by cases G <;> rfl, rfl, rfl⟩
    | cons d1 rest =>
      cases G with
      | nil => exact Or.inl ⟨nilDereference, rfl, rfl⟩
      | cons g gPrev =>
        rcases ih gPrev t h with ⟨e, h1, h2⟩ | ⟨s, h1, h2, h3, h4⟩
        · exact Or.inl ⟨e, by simp only [AvgMatrixSparse.AddSubtract, h1],
            by simp only [AvgMatrixSparse.AddSubtract, h2]⟩
        · rcases apply_log s (g :: gPrev) a b1 b2 (by rw [h3, h4]; exact h) with
            ⟨e, k1, k2⟩ | ⟨s1, k1, k2, k3, k4⟩
          · exact Or.inl ⟨e, by simp only [AvgMatrixSparse.AddSubtract, h1, k1],
              by simp only [AvgMatrixSparse.AddSubtract, h2, k2]⟩
          · exact Or.inr ⟨s1, by simp only [AvgMatrixSparse.AddSubtract, h1, k1],
              by simp only [AvgMatrixSparse.AddSubtract, h2, k2], k3.trans h3, k4.trans h4⟩

/-- C19, as stated, fails: with two templates and a single formatter, `Add` on a list with a
feature at template 1 panics on `t.Formatters[1]` when the matrix was built with `AllOut`
set (so that it logs), and adds 1 to the cell when it was built with `AllOut` unset. -/
theorem allOut_changes_outcome :
    ((NewAvgMatrixSparse true 2 ["t0"]).bind (fun t => t.Add secondTemplateList)).map
        (fun t => t.cell 1 1 5) = .error indexOutOfRange ∧
    ((NewAvgMatrixSparse false 2 ["t0"]).bind (fun t => t.Add secondTemplateList)).map
        (fun t => t.cell 1 1 5) = .ok 1 := by
  decide

/-- C19, amended: for a template count and a formatter list with at least one formatter per
template, the matrix built by `NewAvgMatrixSparse` with `AllOut` set and the one built with
`AllOut` unset give the same outcome for `Add`, `Subtract` and `AddSubtract`: the same panic,
or the same shards. When the feature vectors below the head have no more entries than
templates, the operations return in both cases, and the shards they leave are those obtained
by letting the goroutines of `apply` take effect in any order whatever. -/
theorem allOut_same_outcome (features : Int) (formatters : List String)
    (L G D : FeaturesList) (amount : Int)
    (hcount : 0 ≤ features) (hformatters : features.toNat ≤ formatters.length) :
    ∃ tSet tUnset,
      NewAvgMatrixSparse true features formatters = .ok tSet ∧
      NewAvgMatrixSparse false features formatters = .ok tUnset ∧
      sameOutcome (tSet.Add L) (tUnset.Add L) ∧
      sameOutcome (tSet.Subtract L) (tUnset.Subtract L) ∧
      sameOutcome (tSet.AddSubtract G D amount) (tUnset.AddSubtract G D amount) ∧
      (L ≠ [] → (∀ n ∈ L.tail, n.Features.length ≤ features.toNat) →
        (∀ sched : List ShardUpdate, sched.Perm (applyUpdates L 1) →
          ∃ s1 s2, tSet.Add L = .ok s1 ∧ tUnset.Add L = .ok s2 ∧
            s1.Mat = sched.foldl (ShardUpdate.run 0) (List.replicate features.toNat NewAvgSparse) ∧
            s2.Mat = s1.Mat) ∧
        (∀ sched : List ShardUpdate, sched.Perm (applyUpdates L (-1)) →
          ∃ s1 s2, tSet.Subtract L = .ok s1 ∧ tUnset.Subtract L = .ok s2 ∧
            s1.Mat = sched.foldl (ShardUpdate.run 0) (List.replicate features.toNat NewAvgSparse) ∧
            s2.Mat = s1.Mat)) ∧
      (D ≠ [] → D.length ≤ G.length + 1 → (∀ n ∈ G, n.Features.length ≤ features.toNat) →
        ∀ sched : List ShardUpdate, sched.Perm (addSubtractUpdates G D amount) →
          ∃ s1 s2, tSet.AddSubtract G D amount = .ok s1 ∧
            tUnset.AddSubtract G D amount = .ok s2 ∧
            s1.Mat = sched.foldl (ShardUpdate.run 0) (List.replicate features.toNat NewAvgSparse) ∧
            s2.Mat = s1.Mat) := by
  have hnew : ∀ b : Bool, NewAvgMatrixSparse b features formatters
      = .ok (AvgMatrixSparse.mk (List.replicate features.toNat NewAvgSparse) features 0
          formatters b) := by
    intro b
    simp [NewAvgMatrixSparse, not_lt.mpr hcount]
  have hlen : (List.replicate features.toNat NewAvgSparse).length ≤ formatters.length := by
    simpa using hformatters
  have same : ∀ (r1 r2 : Except String AvgMatrixSparse) (b1 b2 : Bool),
      ((∃ e, r1 = .error e ∧ r2 = .error e) ∨
        (∃ s : AvgMatrixSparse, r1 = .ok { s with Log := b1 } ∧ r2 = .ok { s with Log := b2 } ∧
          s.Mat.length = (List.replicate features.toNat NewAvgSparse).length ∧
          s.Formatters = formatters)) →
      sameOutcome r1 r2 := by
    intro r1 r2 b1 b2 h
    rcases h with ⟨e, h1, h2⟩ | ⟨s, h1, h2, _, _⟩
    · exact Or.inl ⟨e, h1, h2⟩
    · exact Or.inr ⟨_, _, h1, h2, rfl⟩
  have fitsOf : ∀ (b : Bool) (n : FeaturesNode), n.Features.length ≤ features.toNat →
      AvgMatrixSparse.fits (AvgMatrixSparse.mk (List.replicate features.toNat NewAvgSparse)
        features 0 formatters b) n := by
    intro b n hn
    exact ⟨by simpa using hn, fun _ => le_trans hn hformatters⟩
  refine ⟨_, _, hnew true, hnew false, ?_, ?_, ?_, ?_, ?_⟩
  · exact same _ _ true false (apply_log
      (AvgMatrixSparse.mk (List.replicate features.toNat NewAvgSparse) features 0
        formatters true) L 1 true false hlen)
  · exact same _ _ true false (apply_log
      (AvgMatrixSparse.mk (List.replicate features.toNat NewAvgSparse) features 0
        formatters true) L (-1) true false hlen)
  · exact same _ _ true false (addSubtract_log amount true false D G
      (AvgMatrixSparse.mk (List.replicate features.toNat NewAvgSparse) features 0
        formatters true) hlen)
  · intro hne hfit
    constructor
    · intro sched hperm
      refine ⟨_, _, apply_updates _ L 1 hne (fun n hn => fitsOf true n (hfit n hn)),
        apply_updates _ L 1 hne (fun n hn => fitsOf false n (hfit n hn)), ?_, rfl⟩
      exact (foldl_run_perm 0 _ sched hperm _).symm
    · intro sched hperm
      refine ⟨_, _, apply_updates _ L (-1) hne (fun n hn => fitsOf true n (hfit n hn)),
        apply_updates _ L (-1) hne (fun n hn => fitsOf false n (hfit n hn)), ?_, rfl⟩
      exact (foldl_run_perm 0 _ sched hperm _).symm
  · intro hne hlenD hfit sched hperm
    refine ⟨_, _, addSubtract_updates amount D G _ hne hlenD
        (fun n hn => fitsOf true n (hfit n hn)),
      addSubtract_updates amount D G _ hne hlenD (fun n hn => fitsOf false n (hfit n hn)),
      ?_, rfl⟩
    exact (foldl_run_perm 0 _ sched hperm _).symm

/-- The amended C19 for one template with one formatter, on `threeList` for `Add` and
`Subtract` and on the gold list `threeList` with the decoded list `exampleList`. -/
theorem allOut_same_outcome_witness :
    ∃ tSet tUnset,
      NewAvgMatrixSparse true 1 ["t0"] = .ok tSet ∧
      NewAvgMatrixSparse false 1 ["t0"] = .ok tUnset ∧
      sameOutcome (tSet.Add threeList) (tUnset.Add threeList) ∧
      sameOutcome (tSet.Subtract threeList) (tUnset.Subtract threeList) ∧
      sameOutcome (tSet.AddSubtract threeList exampleList 2)
        (tUnset.AddSubtract threeList exampleList 2) ∧
      (threeList ≠ [] → (∀ n ∈ threeList.tail, n.Features.length ≤ (1 : Int).toNat) →
        (∀ sched : List ShardUpdate, sched.Perm (applyUpdates threeList 1) →
          ∃ s1 s2, tSet.Add threeList = .ok s1 ∧ tUnset.Add threeList = .ok s2 ∧
            s1.Mat = sched.foldl (ShardUpdate.run 0)
              (List.replicate (1 : Int).toNat NewAvgSparse) ∧
            s2.Mat = s1.Mat) ∧
        (∀ sched : List ShardUpdate, sched.Perm (applyUpdates threeList (-1)) →
          ∃ s1 s2, tSet.Subtract threeList = .ok s1 ∧ tUnset.Subtract threeList = .ok s2 ∧
            s1.Mat = sched.foldl (ShardUpdate.run 0)
              (List.replicate (1 : Int).toNat NewAvgSparse) ∧
            s2.Mat = s1.Mat)) ∧
      (exampleList ≠ [] → exampleList.length ≤ threeList.length + 1 →
        (∀ n ∈ threeList, n.Features.length ≤ (1 : Int).toNat) →
        ∀ sched : List ShardUpdate, sched.Perm (addSubtractUpdates threeList exampleList 2) →
          ∃ s1 s2, tSet.AddSubtract threeList exampleList 2 = .ok s1 ∧
            tUnset.AddSubtract threeList exampleList 2 = .ok s2 ∧
            s1.Mat = sched.foldl (ShardUpdate.run 0)
              (List.replicate (1 : Int).toNat NewAvgSparse) ∧
            s2.Mat = s1.Mat) :=
  allOut_same_outcome 1 ["t0"] threeList threeList exampleList 2 (by decide) (by decide)

/-! ## Training sequences (C20) -/

section TrainingSequencesClaim

variable {Conf Sent Gold : Type} [Configuration Conf]

/-- With `NoRecover` unset, `ParseOracle` never panics. -/
theorem parseOracle_no_panic {Constraints : Type} (d : Deterministic Conf Sent Gold)
    (hd : d.NoRecover = false) (Sentence : Gold → Sent) (fuel : Nat) (gold : Gold)
    (constraints : Option Constraints) (model : Transition → List (Option Feature) → Float64)
    (e : String) :
    d.ParseOracle Sentence fuel gold constraints model ≠ .error (.panic e) := by
  unfold Deterministic.ParseOracle
  split
  · intro h; exact Except.noConfusion h
  · rw [if_pos hd]
    intro h; exact Except.noConfusion h
  · intro h
    injection h with h
    exact Fault.noConfusion h

/-- What the loop of `TrainingSequences` returns, and that it returns unless a call of
`ParseOracle` runs out of fuel. -/
theorem trainingLoop_spec (mconf : Sent → Conf) (Sentence Lattice : Gold → Sent) (fuel : Nat)
    (tempModel : Transition → List (Option Feature) → Float64)
    (transitionSystem : Option (TransitionSystem Conf Gold))
    (extractor : Conf → List (Option Feature)) :
    ∀ (rest : List Gold) (instances : List (Decoded Sent Conf)) (failedTraining : Nat),
      (∀ e, trainingLoop (Deterministic.mk transitionSystem extractor false true false mconf
          false) Sentence Lattice fuel tempModel extractor rest instances failedTraining
        ≠ .error (.panic e)) ∧
      (∀ r, trainingLoop (Deterministic.mk transitionSystem extractor false true false mconf
          false) Sentence Lattice fuel tempModel extractor rest instances failedTraining
          = .ok r →
        r.1 = instances ++ rest.filterMap (trainingInstance mconf Sentence Lattice fuel
          tempModel transitionSystem extractor) ∧
        r.1.length + r.2 = instances.length + failedTraining + rest.length) ∧
      ((∀ graph ∈ rest,
          (Deterministic.mk transitionSystem extractor false true false mconf
            false).ParseOracle Sentence fuel graph (none : Option Unit) tempModel
            ≠ .error .outOfFuel) →
        ∃ r, trainingLoop (Deterministic.mk transitionSystem extractor false true false mconf
          false) Sentence Lattice fuel tempModel extractor rest instances failedTraining
          = .ok r) := by
  intro rest
  induction rest with
  | nil =>
    intro instances failedTraining
    refine ⟨fun e h => Except.noConfusion h, ?_, fun _ => ⟨_, rfl⟩⟩
    intro r h
    simp only [trainingLoop, Except.ok.injEq] at h
    subst h
    simp
  | cons graph rest ih =>
    intro instances failedTraining
    cases hp : (Deterministic.mk transitionSystem extractor false true false mconf
        false).ParseOracle Sentence fuel graph (none : Option Unit) tempModel with
    | error f =>
      refine ⟨?_, ?_, ?_⟩
      · intro e h
        simp only [trainingLoop, hp] at h
        injection h with h
        subst h
        exact parseOracle_no_panic _ rfl Sentence fuel graph (none : Option Unit) tempModel e hp
      · intro r h
        simp only [trainingLoop, hp] at h
        exact Except.noConfusion h
      · intro hfuel
        exfalso
        cases f with
        | panic e =>
          exact parseOracle_no_panic _ rfl Sentence fuel graph (none : Option Unit) tempModel e
            hp
        | outOfFuel => exact hfuel graph (by simp) hp
    | ok res =>
      obtain ⟨c, goldParams⟩ := res
      cases goldParams with
      | none =>
        obtain ⟨i1, i2, i3⟩ := ih instances (failedTraining + 1)
        refine ⟨?_, ?_, ?_⟩
        · intro e
          simp only [trainingLoop, hp]
          exact i1 e
        · intro r h
          simp only [trainingLoop, hp] at h
          obtain ⟨j1, j2⟩ := i2 r h
          refine ⟨?_, ?_⟩
          · rw [j1]
            simp [List.filterMap_cons, trainingInstance, hp]
          · rw [j2]
            simp only [List.length_cons]
            omega
        · intro hfuel
          simp only [trainingLoop, hp]
          exact i3 (fun g hg => hfuel g (List.mem_cons_of_mem _ hg))
      | some params =>
        obtain ⟨i1, i2, i3⟩ := ih
          (instances ++ [⟨Lattice graph, goldSequenceLoop extractor params.Sequence.reverse []⟩])
          failedTraining
        refine ⟨?_, ?_, ?_⟩
        · intro e
          simp only [trainingLoop, hp]
          exact i1 e
        · intro r h
          simp only [trainingLoop, hp] at h
          obtain ⟨j1, j2⟩ := i2 r h
          refine ⟨?_, ?_⟩
          · rw [j1]
            simp [List.filterMap_cons, trainingInstance, hp]
          · rw [j2]
            simp only [List.length_cons, List.length_append, List.length_nil]
            omega
        · intro hfuel
          simp only [trainingLoop, hp]
          exact i3 (fun g hg => hfuel g (List.mem_cons_of_mem _ hg))

end TrainingSequencesClaim

section TrainingSequencesTheorem

variable {Conf Sent Gold : Type} [Configuration Conf]

/-- C20: `TrainingSequences` never panics, whatever the oracle does; when it returns, the
instances are, in the order of the training set, those of exactly the graphs on which
`ParseOracle` produced result parameters, and their number plus `failedTraining` is the size
of the training set; and it returns whenever no call of `ParseOracle` runs out of fuel. -/
theorem trainingSequences_skips_failures (mconf : Sent → Conf) (Sentence Lattice : Gold → Sent)
    (fuel : Nat) (tempModel : Transition → List (Option Feature) → Float64)
    (trainingSet : List Gold) (transitionSystem : Option (TransitionSystem Conf Gold))
    (extractor : Conf → List (Option Feature)) :
    (∀ e, TrainingSequences mconf Sentence Lattice fuel tempModel trainingSet transitionSystem
        extractor ≠ .error (.panic e)) ∧
    (∀ instances failedTraining,
      TrainingSequences mconf Sentence Lattice fuel tempModel trainingSet transitionSystem
          extractor = .ok (instances, failedTraining) →
        instances = trainingSet.filterMap (trainingInstance mconf Sentence Lattice fuel
          tempModel transitionSystem extractor) ∧
        instances.length + failedTraining = trainingSet.length) ∧
    ((∀ graph ∈ trainingSet,
        (Deterministic.mk transitionSystem extractor false true false mconf false).ParseOracle
          Sentence fuel graph (none : Option Unit) tempModel ≠ .error .outOfFuel) →
      ∃ instances failedTraining,
        TrainingSequences mconf Sentence Lattice fuel tempModel trainingSet transitionSystem
          extractor = .ok (instances, failedTraining)) := by
  obtain ⟨h1, h2, h3⟩ := trainingLoop_spec mconf Sentence Lattice fuel tempModel
    transitionSystem extractor trainingSet [] 0
  refine ⟨h1, ?_, ?_⟩
  · intro instances failedTraining h
    obtain ⟨j1, j2⟩ := h2 (instances, failedTraining) h
    exact ⟨by simpa using j1, by simpa using j2⟩
  · intro hfuel
    obtain ⟨r, hr⟩ := h3 hfuel
    exact ⟨r.1, r.2, hr⟩

/-- C20 on the small system with three gold standards, the second of which makes the
oracle fail: two instances are returned and one failure is counted. -/
theorem trainingSequences_skips_failures_witness :
    TrainingSequences toyDecoder.Base List.length List.length 5 toyModel
        [[2, 2], [2, 0], [1]] (some toySystem) toyDecoder.FeatExtractor
      = .ok ([⟨2, [⟨⟨0, 2⟩, 2, [⟨[some 0], 2⟩]⟩]⟩, ⟨1, [⟨⟨0, 1⟩, 1, [⟨[some 0], 1⟩]⟩]⟩], 1) ∧
    ([⟨2, [⟨⟨0, 2⟩, 2, [⟨[some 0], 2⟩]⟩]⟩, ⟨1, [⟨⟨0, 1⟩, 1, [⟨[some 0], 1⟩]⟩]⟩] :
        List (Decoded Nat ToyConf))
      = [[2, 2], [2, 0], [1]].filterMap (trainingInstance toyDecoder.Base List.length
          List.length 5 toyModel (some toySystem) toyDecoder.FeatExtractor) ∧
    ([⟨2, [⟨⟨0, 2⟩, 2, [⟨[some 0], 2⟩]⟩]⟩, ⟨1, [⟨⟨0, 1⟩, 1, [⟨[some 0], 1⟩]⟩]⟩] :
        List (Decoded Nat ToyConf)).length + 1
      = ([[2, 2], [2, 0], [1]] : List (List Transition)).length :=
  ⟨by decide,
    (trainingSequences_skips_failures toyDecoder.Base List.length List.length 5 toyModel
      [[2, 2], [2, 0], [1]] (some toySystem) toyDecoder.FeatExtractor).2.1 _ 1 (by decide)⟩

end TrainingSequencesTheorem

/-! ## The guard on high transitions (C23) -/

theorem wrap64_add_right (a b : Int) : wrap64 (a + wrap64 b) = wrap64 (a + b) := by
  unfold wrap64; omega

/-- C23: on a feature list whose head has a transition of 96 or more, `apply`, `Add` and
`Subtract` return the matrix as it is, without panic, whatever the amount and the rest of
the list; `TransitionScore` and `Score` have no such guard: at that transition
`TransitionScore` returns the `int64` sum of the shard values at the features present, and
`Score` adds this sum, taken at the features of the predecessor, to the score of the rest. -/
theorem high_transition_update_dropped (t : AvgMatrixSparse) (n : FeaturesNode)
    (rest : FeaturesList) (amount : Int) (h96 : n.Transition ≥ 96) :
    t.apply (n :: rest) amount = .ok t ∧ t.Add (n :: rest) = .ok t ∧
    t.Subtract (n :: rest) = .ok t ∧
    (∀ (features : List (Option Feature)), features.length ≤ t.Mat.length →
      t.TransitionScore n.Transition features
        = .ok (wrap64 (List.zipWith
            (fun (shard : AvgSparse) (x : Option Feature) =>
              match x with
              | some feature => shard.Value n.Transition feature
              | none => 0)
            t.Mat features).sum)) ∧
    (∀ (p : FeaturesNode) (r : FeaturesList) (prevScore : Int),
      t.Score (p :: r) = .ok prevScore → p.Features.length ≤ t.Mat.length →
      t.Score (n :: p :: r)
        = .ok (wrap64 (prevScore + (List.zipWith
            (fun (shard : AvgSparse) (x : Option Feature) =>
              match x with
              | some feature => shard.Value n.Transition feature
              | none => 0)
            t.Mat p.Features).sum))) := by
  have happly : ∀ a : Int, t.apply (n :: rest) a = .ok t := by
    intro a
    cases rest with
    | nil => rfl
    | cons p r => simp [AvgMatrixSparse.apply, h96]
  have hloop : ∀ (features : List (Option Feature)), features.length ≤ t.Mat.length →
      scoreLoop t.Mat n.Transition 0 features 0
        = .ok (wrap64 (List.zipWith
            (fun (shard : AvgSparse) (x : Option Feature) =>
              match x with
              | some feature => shard.Value n.Transition feature
              | none => 0)
            t.Mat features).sum) := by
    intro features hlen
    have h1 := scoreLoop_sum t.Mat n.Transition features 0 0 (by omega)
    rw [wrap64_zero] at h1
    simpa using h1
  refine ⟨happly amount, happly 1, happly (-1), ?_, ?_⟩
  · intro features hlen
    simp only [AvgMatrixSparse.TransitionScore, if_neg (not_lt.mpr hlen), hloop features hlen]
  · intro p r prevScore hprev hlen
    simp only [AvgMatrixSparse.Score, hprev, hloop p.Features hlen]
    rw [wrap64_add_right]

/-- C23 on `highMatrix` and `highList`, whose head has transition 96: the update is dropped,
and the weight 3 of the cell at transition 96 is read by both scores. -/
theorem high_transition_update_dropped_witness :
    (highMatrix.apply highList 7 = .ok highMatrix ∧ highMatrix.Add highList = .ok highMatrix ∧
      highMatrix.Subtract highList = .ok highMatrix) ∧
    highMatrix.TransitionScore 96 [some 5] = .ok 3 ∧ highMatrix.Score highList = .ok 3 :=
  ⟨⟨(high_transition_update_dropped highMatrix ⟨[some 7], 96⟩ [⟨[some 5], 0⟩] 7
      (by decide)).1,
    (high_transition_update_dropped highMatrix ⟨[some 7], 96⟩ [⟨[some 5], 0⟩] 7
      (by decide)).2.1,
    (high_transition_update_dropped highMatrix ⟨[some 7], 96⟩ [⟨[some 5], 0⟩] 7
      (by decide)).2.2.1⟩, by decide, by decide⟩

/-! ## The lists emitted at a divergence (C24) -/

section DivergenceLists

variable {Conf Sent Gold Constraints : Type} [Configuration Conf]

/-- When the early-update loop returns a gold feature list, the nodes it has put on the
predicted list are those of steps at which the oracle and the classifier chose the same
transition, each node carrying that transition and the features of the configuration it led
to; at the configuration reached by these steps the oracle and the classifier chose
different transitions. The gold list and the predicted list are these nodes under a head
that carries, for the gold list, the transition of the oracle with the features of the
configuration it leads to and, for the predicted list, the transition of the classifier with
the features of the configuration returned. -/
theorem earlyUpdateLoop_diverges_heads (d : Deterministic Conf Sent Gold)
    (classifier : TransitionClassifier Conf Gold) (gold : Gold) :
    ∀ (fuel : Nat) (c : Conf) (pred : FeaturesList) (i : Nat)
      (c1 : Conf) (goldList pred1 : FeaturesList) (i1 : Nat),
      earlyUpdateLoop d classifier.TransFunc classifier gold fuel c pred i
        = .ok (c1, goldList, pred1, i1) →
      goldList ≠ [] →
      ∃ (nodes : FeaturesList) (cDiv : Conf) (goldTrans predTrans : Transition),
        classifier.TransFunc.Oracle gold cDiv = .ok goldTrans ∧
        classifier.TransitionWithConf cDiv = .ok (c1, predTrans) ∧
        predTrans ≠ goldTrans ∧
        pred1 = ⟨d.FeatExtractor c1, predTrans⟩ :: (nodes ++ pred) ∧
        goldList = ⟨d.FeatExtractor (classifier.TransFunc.Transition cDiv goldTrans), goldTrans⟩
          :: (nodes ++ pred) ∧
        i1 = i + nodes.length ∧
        cDiv = (nodes.reverse.map (fun n => n.Transition)).foldl
          classifier.TransFunc.Transition c ∧
        ∀ (k : Nat) (node : FeaturesNode), nodes.reverse[k]? = some node →
          classifier.TransFunc.Oracle gold
              (((nodes.reverse.take k).map (fun n => n.Transition)).foldl
                classifier.TransFunc.Transition c) = .ok node.Transition ∧
          classifier.TransitionWithConf
              (((nodes.reverse.take k).map (fun n => n.Transition)).foldl
                classifier.TransFunc.Transition c)
            = .ok (((nodes.reverse.take (k + 1)).map (fun n => n.Transition)).foldl
                classifier.TransFunc.Transition c, node.Transition) ∧
          node.Features = d.FeatExtractor
            (((nodes.reverse.take (k + 1)).map (fun n => n.Transition)).foldl
              classifier.TransFunc.Transition c) := by
  intro fuel
  induction fuel with
  | zero =>
    intro c pred i c1 goldList pred1 i1 h hne
    unfold earlyUpdateLoop at h
    split_ifs at h with ht
    · injection h with h
      injection h with h1 h2
      injection h2 with h2 h3
      exact absurd h2.symm hne
  | succ m ih =>
    intro c pred i c1 goldList pred1 i1 h hne
    unfold earlyUpdateLoop at h
    split_ifs at h with ht
    · injection h with h
      injection h with h1 h2
      injection h2 with h2 h3
      exact absurd h2.symm hne
    · simp only at h
      cases ho : classifier.TransFunc.Oracle gold c with
      | error e => rw [ho] at h; exact Except.noConfusion h
      | ok goldTrans =>
        rw [ho] at h
        simp only at h
        cases hc : classifier.TransitionWithConf c with
        | error e => rw [hc] at h; exact Except.noConfusion h
        | ok r =>
          obtain ⟨c2, predTrans⟩ := r
          rw [hc] at h
          simp only at h
          split_ifs at h with hdiff
          · injection h with h
            injection h with h1 h2
            injection h2 with h2 h3
            injection h3 with h3 h4
            subst h1
            exact ⟨[], c, goldTrans, predTrans, ho, hc, hdiff, by simp [h3], by simp [h2],
              by simp [h4], by simp, by intro k node hk; simp at hk⟩
          · have heq : predTrans = goldTrans := not_not.mp hdiff
            have hc2 : c2 = classifier.TransFunc.Transition c predTrans :=
              transitionWithConf_conf classifier c c2 predTrans hc
            obtain ⟨nodes, cDiv, gt, pt, e1, e2, e3, e4, e5, e6, e7, e8⟩ :=
              ih _ _ _ _ _ _ _ h hne
            refine ⟨nodes ++ [⟨d.FeatExtractor c2, predTrans⟩], cDiv, gt, pt, e1, e2, e3,
              by simp [e4], by simp [e5], by simp [e6]; omega, ?_, ?_⟩
            · rw [e7, hc2]
              simp
            · intro k node hk
              simp only [List.reverse_append, List.reverse_cons, List.reverse_nil,
                List.nil_append, List.singleton_append] at hk ⊢
              cases k with
              | zero =>
                simp only [List.getElem?_cons_zero, Option.some.injEq] at hk
                subst hk
                simp only [List.take_zero, List.map_nil, List.foldl_nil, List.take_succ_cons,
                  List.map_cons, List.foldl_cons]
                exact ⟨by rw [ho, heq], by rw [hc, hc2], by rw [hc2]⟩
              | succ k =>
                simp only [List.getElem?_cons_succ] at hk
                have := e8 k node hk
                simp only [List.take_succ_cons, List.map_cons, List.foldl_cons, ← hc2]
                exact this

/-- C24: when `ParseOracleEarlyUpdate` returns index `i` with a gold feature list (a
divergence), the gold list and the predicted list handed to the result parameters have
`i + 1` nodes each and the same tail of `i` nodes. The tail is the matched prefix: its node
at position `k` from the bottom carries the transition that the oracle and the classifier
both chose at the configuration reached from the initial one by the `k` transitions below
it, and the features of the configuration that transition leads to. At the configuration
reached by all `i` of them, the oracle chose the transition of the head of the gold list,
whose features are those of the configuration that transition leads to, while the classifier
chose the transition of the head of the predicted list, a different one, whose features are
those of the configuration the classifier returned, the one reached by its transition. -/
theorem earlyUpdate_divergence_lists (d : Deterministic Conf Sent Gold) (Sentence : Gold → Sent)
    (fuel : Nat) (gold : Gold) (constraints : Option Constraints)
    (model : Transition → List (Option Feature) → Float64) (c : Conf)
    (params : Option (ParseResultParameters Conf)) (goldList : FeaturesList) (i : Nat)
    (h : d.ParseOracleEarlyUpdate Sentence fuel gold constraints model
      = .ok (c, params, goldList, i))
    (hdiv : goldList ≠ []) :
    ∃ (transFunc : TransitionSystem Conf Gold) (predList tail : FeaturesList) (cDiv : Conf)
      (goldTrans predTrans : Transition),
      d.TransFunc = some transFunc ∧ params = d.resultParams c predList ∧
      goldList.length = i + 1 ∧ predList.length = i + 1 ∧ tail.length = i ∧
      goldList = ⟨d.FeatExtractor (transFunc.Transition cDiv goldTrans), goldTrans⟩ :: tail ∧
      predList = ⟨d.FeatExtractor c, predTrans⟩ :: tail ∧
      transFunc.Oracle gold cDiv = .ok goldTrans ∧
      (TransitionClassifier.Init
          (TransitionClassifier.mk model transFunc d.FeatExtractor Float64.zero []
            d.ShowConsiderations)).TransitionWithConf cDiv = .ok (c, predTrans) ∧
      c = transFunc.Transition cDiv predTrans ∧ predTrans ≠ goldTrans ∧
      cDiv = (tail.reverse.map (fun n => n.Transition)).foldl transFunc.Transition
        (d.Base (Sentence gold)) ∧
      ∀ (k : Nat) (node : FeaturesNode), tail.reverse[k]? = some node →
        transFunc.Oracle gold
            (((tail.reverse.take k).map (fun n => n.Transition)).foldl transFunc.Transition
              (d.Base (Sentence gold))) = .ok node.Transition ∧
        (TransitionClassifier.Init
            (TransitionClassifier.mk model transFunc d.FeatExtractor Float64.zero []
              d.ShowConsiderations)).TransitionWithConf
            (((tail.reverse.take k).map (fun n => n.Transition)).foldl transFunc.Transition
              (d.Base (Sentence gold)))
          = .ok (((tail.reverse.take (k + 1)).map (fun n => n.Transition)).foldl
              transFunc.Transition (d.Base (Sentence gold)), node.Transition) ∧
        node.Features = d.FeatExtractor
          (((tail.reverse.take (k + 1)).map (fun n => n.Transition)).foldl
            transFunc.Transition (d.Base (Sentence gold))) := by
  unfold Deterministic.ParseOracleEarlyUpdate at h
  split_ifs at h with hcons
  cases hd : d.TransFunc with
  | none => rw [hd] at h; exact Except.noConfusion h
  | some transFunc =>
    rw [hd] at h
    simp only at h
    split at h
    · exact Except.noConfusion h
    · rename_i c1 g1 p1 i1 hloop
      injection h with h
      injection h with h1 h2
      injection h2 with h2 h3
      injection h3 with h3 h4
      subst h1 h3 h4
      obtain ⟨nodes, cDiv, gt, pt, e1, e2, e3, e4, e5, e6, e7, e8⟩ :=
        earlyUpdateLoop_diverges_heads d
          (TransitionClassifier.Init
            (TransitionClassifier.mk model transFunc d.FeatExtractor Float64.zero []
              d.ShowConsiderations))
          gold fuel _ _ _ _ _ _ _ hloop hdiv
      simp only [List.append_nil, Nat.zero_add] at e4 e5 e6
      subst e6
      have hconf := transitionWithConf_conf _ _ _ _ e2
      exact ⟨transFunc, p1, nodes, cDiv, gt, pt, rfl, h2.symm, by simp [e5], by simp [e4], rfl,
        e5, e4, e1, e2, hconf, e3, e7, e8⟩

/-- C24 on the small system with gold transitions 2 then 1: the divergence is at index 1,
at the configuration with one step left, which the matched transition 2 leads to; there the
oracle chose 1 and the classifier 2. -/
theorem earlyUpdate_divergence_lists_witness :
    toyDecoder.ParseOracleEarlyUpdate List.length 5 [2, 1] (none : Option Unit) toyModel
      = .ok (⟨0, 2⟩, some ⟨some [⟨[some 0], 2⟩, ⟨[some 1], 2⟩], []⟩,
          [⟨[some 0], 1⟩, ⟨[some 1], 2⟩], 1) ∧
    ([⟨[some 0], 1⟩, ⟨[some 1], 2⟩] : FeaturesList) ≠ [] ∧
    toySystem.Oracle [2, 1] ⟨1, 2⟩ = .ok 1 ∧
    (TransitionClassifier.Init toyClassifier).TransitionWithConf ⟨1, 2⟩ = .ok (⟨0, 2⟩, 2) ∧
    ∃ (transFunc : TransitionSystem ToyConf (List Transition)) (predList tail : FeaturesList)
      (cDiv : ToyConf) (goldTrans predTrans : Transition),
      toyDecoder.TransFunc = some transFunc ∧
      (some ⟨some [⟨[some 0], 2⟩, ⟨[some 1], 2⟩], []⟩ : Option (ParseResultParameters ToyConf))
        = toyDecoder.resultParams ⟨0, 2⟩ predList ∧
      ([⟨[some 0], 1⟩, ⟨[some 1], 2⟩] : FeaturesList).length = 1 + 1 ∧
      predList.length = 1 + 1 ∧ tail.length = 1 ∧
      ([⟨[some 0], 1⟩, ⟨[some 1], 2⟩] : FeaturesList)
        = ⟨toyDecoder.FeatExtractor (transFunc.Transition cDiv goldTrans), goldTrans⟩ :: tail ∧
      predList = ⟨toyDecoder.FeatExtractor ⟨0, 2⟩, predTrans⟩ :: tail ∧
      transFunc.Oracle [2, 1] cDiv = .ok goldTrans ∧
      (TransitionClassifier.Init
          (TransitionClassifier.mk toyModel transFunc toyDecoder.FeatExtractor Float64.zero []
            toyDecoder.ShowConsiderations)).TransitionWithConf cDiv = .ok (⟨0, 2⟩, predTrans) ∧
      (⟨0, 2⟩ : ToyConf) = transFunc.Transition cDiv predTrans ∧ predTrans ≠ goldTrans ∧
      cDiv = (tail.reverse.map (fun n => n.Transition)).foldl transFunc.Transition
        (toyDecoder.Base (List.length [2, 1])) :=
  ⟨by decide, by decide, by decide, by decide,
    (earlyUpdate_divergence_lists toyDecoder List.length 5 [2, 1] (none : Option Unit) toyModel
      ⟨0, 2⟩ (some ⟨some [⟨[some 0], 2⟩, ⟨[some 1], 2⟩], []⟩)
      [⟨[some 0], 1⟩, ⟨[some 1], 2⟩] 1 (by decide) (by decide)).imp
      (fun _ h1 => h1.imp (fun _ h2 => h2.imp (fun _ h3 => h3.imp (fun _ h4 => h4.imp
        (fun _ h5 => h5.imp (fun _ h6 =>
          ⟨h6.1, h6.2.1, h6.2.2.1, h6.2.2.2.1, h6.2.2.2.2.1, h6.2.2.2.2.2.1,
            h6.2.2.2.2.2.2.1, h6.2.2.2.2.2.2.2.1, h6.2.2.2.2.2.2.2.2.1,
            h6.2.2.2.2.2.2.2.2.2.1, h6.2.2.2.2.2.2.2.2.2.2.1,
            h6.2.2.2.2.2.2.2.2.2.2.2.1⟩))))))⟩

end DivergenceLists

/-! ## The choice of the classifier and its cumulative score (C28) -/

section ScoreIndependence

variable {Conf Sent Gold : Type} [Configuration Conf]

/-- Two classifiers over the same system, under which the scores of the transitions of a
list compare alike, run the loop of `TransitionWithConf` over transitions of that list in
step: the best configuration and transition are the same. -/
theorem considerLoop_alike (tc1 tc2 : TransitionClassifier Conf Gold)
    (hT : tc2.TransFunc = tc1.TransFunc) (c : Conf) (all : List Transition)
    (halike : ∀ u ∈ all, ∀ v ∈ all,
      (tc2.ScoreWithConf (tc1.TransFunc.Transition c u)).gt
          (tc2.ScoreWithConf (tc1.TransFunc.Transition c v))
        = (tc1.ScoreWithConf (tc1.TransFunc.Transition c u)).gt
          (tc1.ScoreWithConf (tc1.TransFunc.Transition c v))) :
    ∀ (rest : List Transition) (t : Transition), (∀ x ∈ rest, x ∈ all) → t ∈ all →
      ∃ t1, t1 ∈ all ∧
        tc1.considerLoop c rest
            (tc1.ScoreWithConf (tc1.TransFunc.Transition c t),
              some (tc1.TransFunc.Transition c t), t)
          = (tc1.ScoreWithConf (tc1.TransFunc.Transition c t1),
              some (tc1.TransFunc.Transition c t1), t1) ∧
        tc2.considerLoop c rest
            (tc2.ScoreWithConf (tc1.TransFunc.Transition c t),
              some (tc1.TransFunc.Transition c t), t)
          = (tc2.ScoreWithConf (tc1.TransFunc.Transition c t1),
              some (tc1.TransFunc.Transition c t1), t1) := by
  intro rest
  induction rest with
  | nil => intro t _ ht; exact ⟨t, ht, rfl, rfl⟩
  | cons x rest ih =>
    intro t hrest ht
    have hx : x ∈ all := hrest x (by simp)
    have hrest2 : ∀ y ∈ rest, y ∈ all := fun y hy => hrest y (by simp [hy])
    have hcmp := halike x hx t ht
    simp only [TransitionClassifier.considerLoop, Option.isNone_some, Bool.false_eq_true,
      false_or, hT, hcmp]
    by_cases hgt : (tc1.ScoreWithConf (tc1.TransFunc.Transition c x)).gt
        (tc1.ScoreWithConf (tc1.TransFunc.Transition c t)) = true
    · rw [if_pos hgt, if_pos hgt]
      exact ih x hrest2 hx
    · rw [if_neg hgt, if_neg hgt]
      exact ih t hrest2 ht

/-- Two classifiers over the same system, under which the scores of the transitions yielded
for `c` compare alike, choose the same configuration and transition at `c`, or both
panic. -/
theorem transitionWithConf_alike (tc1 tc2 : TransitionClassifier Conf Gold)
    (hT : tc2.TransFunc = tc1.TransFunc) (c : Conf)
    (halike : ∀ u ∈ tc1.TransFunc.YieldTransitions c, ∀ v ∈ tc1.TransFunc.YieldTransitions c,
      (tc2.ScoreWithConf (tc1.TransFunc.Transition c u)).gt
          (tc2.ScoreWithConf (tc1.TransFunc.Transition c v))
        = (tc1.ScoreWithConf (tc1.TransFunc.Transition c u)).gt
          (tc1.ScoreWithConf (tc1.TransFunc.Transition c v))) :
    tc2.TransitionWithConf c = tc1.TransitionWithConf c := by
  unfold TransitionClassifier.TransitionWithConf
  rw [hT]
  cases hy : tc1.TransFunc.YieldTransitions c with
  | nil => rfl
  | cons x rest =>
    rw [hy] at halike
    obtain ⟨t1, _, h1, h2⟩ := considerLoop_alike tc1 tc2 hT c (x :: rest) halike rest x
      (fun y hy => by simp [hy]) (by simp)
    simp only [TransitionClassifier.considerLoop, Option.isNone_none, true_or, if_true, hT,
      h1, h2]

/-- Every state of a decoding loop holds a classifier over the model, system and extractor of
the classifier the loop was entered with. -/
theorem loopStates_components (step : Conf → TransitionClassifier Conf Gold → Option Conf) :
    ∀ (fuel : Nat) (c : Conf) (tc : TransitionClassifier Conf Gold)
      (s : Conf × TransitionClassifier Conf Gold),
      s ∈ loopStates step fuel c tc →
      s.2.Model = tc.Model ∧ s.2.TransFunc = tc.TransFunc ∧
        s.2.FeatExtractor = tc.FeatExtractor := by
  intro fuel
  induction fuel with
  | zero =>
    intro c tc s hs
    unfold loopStates at hs
    split_ifs at hs with ht <;> simp at hs <;> subst hs <;> exact ⟨rfl, rfl, rfl⟩
  | succ n ih =>
    intro c tc s hs
    unfold loopStates at hs
    rw [List.mem_cons] at hs
    rcases hs with hs | hs
    · subst hs; exact ⟨rfl, rfl, rfl⟩
    · split_ifs at hs with ht
      · simp at hs
      · simp only at hs
        cases hst : step c tc with
        | none => rw [hst] at hs; simp at hs
        | some c1 =>
          rw [hst] at hs
          exact ih c1 (tc.Increment c1) s hs

/-- C28, as stated, fails in the `float64` arithmetic of the source. At the configuration
with one step left, the classifier over `roundingModel` with cumulative score 0 chooses
transition 2, whose score 1 is the greatest; with cumulative score 2^53, which it has after
`Increment` on that configuration, the sums 2^53 + 0 and 2^53 + 1 are both 2^53 and it
chooses transition 1, the first. So `Parse` on a sentence of two tokens ends by transition
1, while `ParseOracleEarlyUpdate`, on the gold transitions 3 then 2, predicts transition 2 at
the same configuration and reports no divergence. -/
theorem transitionWithConf_depends_on_score :
    (TransitionClassifier.Init roundingClassifier).TransitionWithConf ⟨1, 3⟩
      = .ok (⟨0, 2⟩, 2) ∧
    ((TransitionClassifier.Init roundingClassifier).Increment ⟨1, 3⟩).Score
      = Float64.ofInt 9007199254740992 ∧
    Float64.add (Float64.ofInt 9007199254740992) (Float64.ofInt 1)
      = Float64.ofInt 9007199254740992 ∧
    ((TransitionClassifier.Init roundingClassifier).Increment ⟨1, 3⟩).TransitionWithConf ⟨1, 3⟩
      = .ok (⟨0, 1⟩, 1) ∧
    (toyDecoder.Parse 5 2 (none : Option Unit) roundingModel).map (fun r => r.1)
      = .ok ⟨0, 1⟩ ∧
    (toyDecoder.ParseOracleEarlyUpdate List.length 5 [3, 2] (none : Option Unit)
        roundingModel).map (fun r => (r.1, r.2.2.1, r.2.2.2))
      = .ok (⟨0, 2⟩, [], 2) := by
  decide

/-- C28, amended: `TransitionWithConf` returns a configuration and a transition only and
assigns no field of the classifier. Its choice depends on the cumulative `Score` only
through the way the `float64` sums of `Score` and the scores of the candidates compare: a
classifier with another `Score` and `FeaturesList`, under which these sums compare alike for
the transitions yielded, returns the same configuration and transition, or the same panic.
Hence the classifier of a state the loop of `Parse` passes through chooses at a
configuration what the classifier of `ParseOracleEarlyUpdate`, built in the same way and
never incremented, chooses there, whenever the sums under its cumulative score compare as
those under the score 0. -/
theorem transitionWithConf_same_choice_of_same_order (d : Deterministic Conf Sent Gold)
    (transFunc : TransitionSystem Conf Gold)
    (model : Transition → List (Option Feature) → Float64)
    (tc : TransitionClassifier Conf Gold) (s : Float64) (fl : FeaturesList) (fuel : Nat)
    (sent : Sent) (c : Conf) :
    ((∀ u ∈ tc.TransFunc.YieldTransitions c, ∀ v ∈ tc.TransFunc.YieldTransitions c,
        (s.add (tc.Model (Configuration.GetLastTransition (tc.TransFunc.Transition c u))
            (tc.FeatExtractor (tc.TransFunc.Transition c u)))).gt
          (s.add (tc.Model (Configuration.GetLastTransition (tc.TransFunc.Transition c v))
            (tc.FeatExtractor (tc.TransFunc.Transition c v))))
        = (tc.ScoreWithConf (tc.TransFunc.Transition c u)).gt
          (tc.ScoreWithConf (tc.TransFunc.Transition c v))) →
      (TransitionClassifier.mk tc.Model tc.TransFunc tc.FeatExtractor s fl
        tc.ShowConsiderations).TransitionWithConf c = tc.TransitionWithConf c) ∧
    ∀ (k : Nat) (st : Conf × TransitionClassifier Conf Gold),
      (loopStates parseStep fuel (d.Base sent)
        (TransitionClassifier.Init
          (TransitionClassifier.mk model transFunc d.FeatExtractor Float64.zero []
            d.ShowConsiderations)))[k]? = some st →
      (∀ u ∈ transFunc.YieldTransitions c, ∀ v ∈ transFunc.YieldTransitions c,
        (st.2.Score.add (model (Configuration.GetLastTransition (transFunc.Transition c u))
            (d.FeatExtractor (transFunc.Transition c u)))).gt
          (st.2.Score.add (model (Configuration.GetLastTransition (transFunc.Transition c v))
            (d.FeatExtractor (transFunc.Transition c v))))
        = (Float64.zero.add
            (model (Configuration.GetLastTransition (transFunc.Transition c u))
              (d.FeatExtractor (transFunc.Transition c u)))).gt
          (Float64.zero.add
            (model (Configuration.GetLastTransition (transFunc.Transition c v))
              (d.FeatExtractor (transFunc.Transition c v))))) →
      st.2.TransitionWithConf c
        = (TransitionClassifier.Init
            (TransitionClassifier.mk model transFunc d.FeatExtractor Float64.zero []
              d.ShowConsiderations)).TransitionWithConf c := by
  refine ⟨fun halike => transitionWithConf_alike tc
    (TransitionClassifier.mk tc.Model tc.TransFunc tc.FeatExtractor s fl tc.ShowConsiderations)
    rfl c halike, ?_⟩
  intro k st hst halike
  obtain ⟨h1, h2, h3⟩ := loopStates_components parseStep fuel _ _ st (List.getElem?_mem hst)
  refine transitionWithConf_alike _ st.2 h2 c ?_
  intro u hu v hv
  have := halike u hu v hv
  simp only [TransitionClassifier.ScoreWithConf, h1, h3]
  exact this

/-- The amended C28 on the small system: at the configuration with one step left, under the
cumulative scores 7 and 0 the scores 1, 2, 2 of the transitions compare alike, and so they
do under the cumulative score 2 of the second state of the loop of `Parse`; the classifiers
choose transition 2 as the fresh classifier does. -/
theorem transitionWithConf_same_choice_of_same_order_witness :
    (TransitionClassifier.mk toyClassifier.Model toyClassifier.TransFunc
        toyClassifier.FeatExtractor (Float64.ofInt 7) exampleList
        toyClassifier.ShowConsiderations).TransitionWithConf ⟨1, 2⟩
      = toyClassifier.TransitionWithConf ⟨1, 2⟩ ∧
    (TransitionClassifier.Increment
        (TransitionClassifier.Init
          (TransitionClassifier.mk toyModel toySystem toyDecoder.FeatExtractor Float64.zero []
            toyDecoder.ShowConsiderations)) (⟨1, 2⟩ : ToyConf)).Score = Float64.ofInt 2 ∧
    (TransitionClassifier.Increment
        (TransitionClassifier.Init
          (TransitionClassifier.mk toyModel toySystem toyDecoder.FeatExtractor Float64.zero []
            toyDecoder.ShowConsiderations)) (⟨1, 2⟩ : ToyConf)).TransitionWithConf ⟨1, 2⟩
      = (TransitionClassifier.Init
          (TransitionClassifier.mk toyModel toySystem toyDecoder.FeatExtractor Float64.zero []
            toyDecoder.ShowConsiderations)).TransitionWithConf ⟨1, 2⟩ ∧
    toyClassifier.TransitionWithConf ⟨1, 2⟩ = .ok (⟨0, 2⟩, 2) :=
  ⟨(transitionWithConf_same_choice_of_same_order toyDecoder toySystem toyModel toyClassifier
      (Float64.ofInt 7) exampleList 5 2 ⟨1, 2⟩).1 (by decide),
    by decide,
    (transitionWithConf_same_choice_of_same_order toyDecoder toySystem toyModel toyClassifier
      (Float64.ofInt 7) exampleList 5 2 ⟨1, 2⟩).2 1 _ (by rfl) (by decide),
    by decide⟩

end ScoreIndependence

/-! ## What `AddSubtract` does, as it stands (C25) -/

theorem applyEach_append (a : Int) :
    ∀ (Ls Ms : List FeaturesList) (t : AvgMatrixSparse),
      applyEach a (Ls ++ Ms) t
        = match applyEach a Ls t with
          | .error e => .error e
          | .ok t1 => applyEach a Ms t1 := by
  intro Ls
  induction Ls with
  | nil => intro Ms t; rfl
  | cons L Ls ih =>
    intro Ms t
    simp only [List.cons_append, applyEach]
    cases h : t.apply L a with
    | error e => rfl
    | ok t1 => exact ih Ms t1

theorem goldSuffixes_succ (g : FeaturesNode) (gPrevious : FeaturesList) (n : Nat) :
    goldSuffixes (g :: gPrevious) (n + 1) = (g :: gPrevious) :: goldSuffixes gPrevious n := by
  unfold goldSuffixes
  rw [List.range_succ_eq_map]
  simp [Function.comp_def]

/-- The method `AddSubtract` is `apply` on the gold list at each level of the recursion, the
deepest level first. -/
theorem addSubtract_eq_applyEach (a : Int) :
    ∀ (D G : FeaturesList) (t : AvgMatrixSparse), D ≠ [] → D.length ≤ G.length + 1 →
      t.AddSubtract G D a = applyEach a (goldSuffixes G (D.length - 1)).reverse t := by
  intro D
  induction D with
  | nil => intro G t h; exact absurd rfl h
  | cons d rest ih =>
    intro G t _ hlen
    cases rest with
    | nil => cases G <;> simp [AvgMatrixSparse.AddSubtract, goldSuffixes, applyEach]
    | cons d1 rest =>
      cases G with
      | nil => simp at hlen
      | cons g gPrev =>
        have hrec := ih gPrev t (by simp) (by simpa using hlen)
        simp only [List.length_cons, Nat.add_sub_cancel] at hrec ⊢
        rw [goldSuffixes_succ, List.reverse_cons, applyEach_append, ← hrec]
        simp only [AvgMatrixSparse.AddSubtract]
        cases h : t.AddSubtract gPrev (d1 :: rest) a with
        | error e => rfl
        | ok t1 =>
          simp only [applyEach]
          cases h2 : t1.apply (g :: gPrev) a <;> rfl

theorem featureUpdates_amount (tr : Transition) (a : Int) :
    ∀ (feats : List (Option Feature)) (i : Nat) (u : ShardUpdate),
      u ∈ featureUpdates tr a i feats → u.amount = a ∧ u.intTrans = tr := by
  intro feats
  induction feats with
  | nil => intro i u h; simp [featureUpdates] at h
  | cons x rest ih =>
    intro i u h
    cases x with
    | none => exact ih (i + 1) u (by simpa [featureUpdates] using h)
    | some feat =>
      simp only [featureUpdates, List.mem_cons] at h
      rcases h with h | h
      · subst h; exact ⟨rfl, rfl⟩
      · exact ih (i + 1) u h

theorem applyUpdates_amount (L : FeaturesList) (a : Int) (u : ShardUpdate)
    (h : u ∈ applyUpdates L a) : u.amount = a := by
  unfold applyUpdates at h
  split at h
  · split_ifs at h
    · simp at h
    · exact (featureUpdates_amount _ a _ 0 u h).1
  · simp at h

/-- On lists that fit, a sequence of calls of `apply` returns the shards after the
goroutines of each call have taken effect, in the order of the program. -/
theorem applyEach_updates (a : Int) :
    ∀ (Ls : List FeaturesList) (t : AvgMatrixSparse),
      (∀ L ∈ Ls, L ≠ [] ∧ ∀ n ∈ L.tail, t.fits n) →
      applyEach a Ls t
        = .ok { t with
            Mat := (Ls.flatMap (fun L => applyUpdates L a)).foldl
              (ShardUpdate.run t.Generation) t.Mat } := by
  intro Ls
  induction Ls with
  | nil => intro t _; rfl
  | cons L Ls ih =>
    intro t h
    obtain ⟨hne, hfit⟩ := h L (by simp)
    simp only [applyEach, apply_updates t L a hne hfit]
    rw [ih]
    · simp [List.flatMap_cons, List.foldl_append]
    · intro M hM
      obtain ⟨hne2, hfit2⟩ := h M (by simp [hM])
      refine ⟨hne2, fun n hn => ?_⟩
      have := hfit2 n hn
      simpa [AvgMatrixSparse.fits, foldl_run_length] using this

theorem goldSuffixes_fit (G : FeaturesList) (t : AvgMatrixSparse) (n : Nat)
    (hn : n ≤ G.length) (hfit : ∀ x ∈ G, t.fits x) :
    ∀ L ∈ goldSuffixes G n, L ≠ [] ∧ ∀ x ∈ L.tail, t.fits x := by
  intro L hL
  unfold goldSuffixes at hL
  rw [List.mem_map] at hL
  obtain ⟨j, hj, rfl⟩ := hL
  rw [List.mem_range] at hj
  refine ⟨?_, fun x hx => hfit x (List.mem_of_mem_drop (List.mem_of_mem_tail hx))⟩
  intro h
  have := congrArg List.length h
  simp at this
  omega

/-- C25, against the claim as stated: on the one-template matrix `zeroMatrix`, with the
two-node decoded list `exampleList` and a gold list of two nodes whose second node has a
feature at template 1, `AddSubtract` panics with an index out of range. -/
theorem addSubtract_faults_on_second_template :
    exampleList ≠ [] ∧ exampleList.length ≤ secondTemplateList.length + 1 ∧
    zeroMatrix.AddSubtract secondTemplateList exampleList 1 = .error indexOutOfRange :=
  ⟨by decide, by decide, by rfl⟩

/-- C25, amended: for a decoded list `D` of `k ≥ 1` nodes and a gold list `G` of at least
`k - 1` nodes, `AddSubtract(G, D, a)` has the outcome of `apply(g, a)` run on the list
headed by each of the first `k - 1` nodes of `G`, the deepest first (the same panic or the
same matrix), and it is the same for every decoded list of `k` nodes. When every feature
vector of `G` fits the matrix, it returns; running these calls of `apply` in any order
returns the same matrix; the shards left are those obtained by letting the shard updates of
these calls take effect in any order; and every one of these updates has amount `a`. -/
theorem addSubtract_is_gold_applies (a : Int) (D G : FeaturesList) (t : AvgMatrixSparse)
    (hD : D ≠ []) (hlen : D.length ≤ G.length + 1) :
    t.AddSubtract G D a = applyEach a (goldSuffixes G (D.length - 1)).reverse t ∧
    (∀ D1 : FeaturesList, D1.length = D.length → t.AddSubtract G D1 a = t.AddSubtract G D a) ∧
    ((∀ x ∈ G, t.fits x) →
      ∃ t1, t.AddSubtract G D a = .ok t1 ∧
        t1.Generation = t.Generation ∧ t1.Mat.length = t.Mat.length ∧
        (∀ Ls : List FeaturesList, Ls.Perm (goldSuffixes G (D.length - 1)) →
          applyEach a Ls t = .ok t1) ∧
        (∀ sched : List ShardUpdate,
          sched.Perm ((goldSuffixes G (D.length - 1)).flatMap (fun L => applyUpdates L a)) →
          t1.Mat = sched.foldl (ShardUpdate.run t.Generation) t.Mat ∧
          ∀ u ∈ sched, u.amount = a)) := by
  have hA := addSubtract_eq_applyEach a D G t hD hlen
  refine ⟨hA, ?_, ?_⟩
  · intro D1 h1
    have hD1 : D1 ≠ [] := by
      intro h
      subst h
      cases D with
      | nil => exact hD rfl
      | cons d rest => simp at h1
    rw [hA, addSubtract_eq_applyEach a D1 G t hD1 (by omega), h1]
  · intro hfit
    have hk : D.length - 1 ≤ G.length := by omega
    have hsuf := goldSuffixes_fit G t (D.length - 1) hk hfit
    have hperm : ∀ Ls : List FeaturesList, Ls.Perm (goldSuffixes G (D.length - 1)) →
        applyEach a Ls t
          = .ok { t with
              Mat := ((goldSuffixes G (D.length - 1)).flatMap
                (fun L => applyUpdates L a)).foldl (ShardUpdate.run t.Generation) t.Mat } := by
      intro Ls hLs
      rw [applyEach_updates a Ls t (fun L hL => hsuf L (hLs.mem_iff.mp hL))]
      rw [foldl_run_perm t.Generation _ _ (hLs.flatMap_right _)]
    refine ⟨{ t with
        Mat := ((goldSuffixes G (D.length - 1)).flatMap
          (fun L => applyUpdates L a)).foldl (ShardUpdate.run t.Generation) t.Mat },
      ?_, rfl, ?_, hperm, ?_⟩
    · rw [hA]
      exact hperm _ (List.reverse_perm _)
    · exact foldl_run_length _ _ _
    · intro sched hs
      refine ⟨(foldl_run_perm t.Generation _ _ hs t.Mat).symm, fun u hu => ?_⟩
      have hu2 := hs.mem_iff.mp hu
      rw [List.mem_flatMap] at hu2
      obtain ⟨L, _, hL⟩ := hu2
      exact applyUpdates_amount L a u hL

/-- C25 amended, on `zeroMatrix` with the three-node gold list `threeList` and a decoded list
of three nodes: the hypotheses hold, `AddSubtract` is `apply` on the list headed by the
second gold node and then on the whole gold list, and it returns. -/
theorem addSubtract_is_gold_applies_witness :
    (⟨[some 9], 3⟩ :: decodedList) ≠ [] ∧
    (⟨[some 9], 3⟩ :: decodedList).length ≤ threeList.length + 1 ∧
    (∀ x ∈ threeList, zeroMatrix.fits x) ∧
    zeroMatrix.AddSubtract threeList (⟨[some 9], 3⟩ :: decodedList) 1
      = applyEach 1
          (goldSuffixes threeList ((⟨[some 9], 3⟩ :: decodedList).length - 1)).reverse
          zeroMatrix ∧
    (goldSuffixes threeList ((⟨[some 9], 3⟩ :: decodedList).length - 1)).reverse
      = [[⟨[some 5], 2⟩, ⟨[some 3], 0⟩], threeList] ∧
    ∃ t1, zeroMatrix.AddSubtract threeList (⟨[some 9], 3⟩ :: decodedList) 1 = .ok t1 ∧
      t1.Generation = zeroMatrix.Generation ∧ t1.Mat.length = zeroMatrix.Mat.length ∧
      (∀ Ls : List FeaturesList,
        Ls.Perm (goldSuffixes threeList ((⟨[some 9], 3⟩ :: decodedList).length - 1)) →
        applyEach 1 Ls zeroMatrix = .ok t1) ∧
      (∀ sched : List ShardUpdate,
        sched.Perm ((goldSuffixes threeList
          ((⟨[some 9], 3⟩ :: decodedList).length - 1)).flatMap
            (fun L => applyUpdates L 1)) →
        t1.Mat = sched.foldl (ShardUpdate.run zeroMatrix.Generation) zeroMatrix.Mat ∧
        ∀ u ∈ sched, u.amount = 1) :=
  ⟨by decide, by decide, by decide,
    (addSubtract_is_gold_applies 1 (⟨[some 9], 3⟩ :: decodedList) threeList zeroMatrix
      (by decide) (by decide)).1,
    by decide,
    (addSubtract_is_gold_applies 1 (⟨[some 9], 3⟩ :: decodedList) threeList zeroMatrix
      (by decide) (by decide)).2.2 (by decide)⟩

/-! ## The cells `Score` reads and `apply` updates (C26) -/

theorem presentFeaturesFrom_nil (i : Nat) : presentFeaturesFrom i [] = [] := rfl

theorem presentFeaturesFrom_none (i : Nat) (rest : List (Option Feature)) :
    presentFeaturesFrom i (none :: rest) = presentFeaturesFrom (i + 1) rest := by
  simp [presentFeaturesFrom, List.enumFrom_cons]

theorem presentFeaturesFrom_some (i : Nat) (feat : Feature) (rest : List (Option Feature)) :
    presentFeaturesFrom i (some feat :: rest) = (i, feat) :: presentFeaturesFrom (i + 1) rest := by
  simp [presentFeaturesFrom, List.enumFrom_cons]

theorem presentFeaturesFrom_mem (feats : List (Option Feature)) (start i : Nat) (feat : Feature) :
    (i, feat) ∈ presentFeaturesFrom start feats
      ↔ start ≤ i ∧ feats[i - start]? = some (some feat) := by
  unfold presentFeaturesFrom
  rw [List.mem_filterMap]
  constructor
  · rintro ⟨⟨j, x⟩, hmem, hx⟩
    rw [List.mk_mem_enumFrom_iff_le_and_getElem?_sub] at hmem
    cases x with
    | none => simp at hx
    | some f0 =>
      simp only [Option.map_some', Option.some.injEq, Prod.mk.injEq] at hx
      obtain ⟨rfl, rfl⟩ := hx
      exact hmem
  · intro h
    exact ⟨(i, some feat), List.mk_mem_enumFrom_iff_le_and_getElem?_sub.mpr h, rfl⟩

theorem presentFeaturesFrom_nodup :
    ∀ (feats : List (Option Feature)) (start : Nat),
      ((presentFeaturesFrom start feats).map Prod.fst).Nodup := by
  intro feats
  induction feats with
  | nil => intro start; simp [presentFeaturesFrom_nil]
  | cons x rest ih =>
    intro start
    cases x with
    | none => rw [presentFeaturesFrom_none]; exact ih (start + 1)
    | some feat =>
      rw [presentFeaturesFrom_some, List.map_cons, List.nodup_cons]
      refine ⟨?_, ih (start + 1)⟩
      intro hmem
      rw [List.mem_map] at hmem
      obtain ⟨⟨j, f0⟩, hj, hj2⟩ := hmem
      have := ((presentFeaturesFrom_mem rest (start + 1) j f0).mp hj).1
      simp only at hj2
      omega

theorem featureUpdates_present (tr : Transition) (a : Int) :
    ∀ (feats : List (Option Feature)) (i : Nat),
      featureUpdates tr a i feats
        = (presentFeaturesFrom i feats).map (fun c => ShardUpdate.mk c.1 tr c.2 a) := by
  intro feats
  induction feats with
  | nil => intro i; rfl
  | cons x rest ih =>
    intro i
    cases x with
    | none => rw [presentFeaturesFrom_none, featureUpdates, ih]
    | some feat => rw [presentFeaturesFrom_some, featureUpdates, ih, List.map_cons]

/-- When the loop of `apply` returns, the shards it returns are those left by its goroutines
taking effect in the order of the program. -/
theorem applyLoop_ok_updates (Log : Bool) (Fm : List String) (g : Int) (tr : Transition)
    (a : Int) :
    ∀ (feats : List (Option Feature)) (i : Nat) (Mat M : List AvgSparse),
      applyLoop Log Fm g tr a i feats Mat = .ok M →
      M = (featureUpdates tr a i feats).foldl (ShardUpdate.run g) Mat := by
  intro feats
  induction feats with
  | nil => intro i Mat M h; simp only [applyLoop] at h; injection h with h; exact h.symm
  | cons x rest ih =>
    intro i Mat M h
    cases x with
    | none =>
      simp only [applyLoop] at h
      simpa [featureUpdates] using ih (i + 1) Mat M h
    | some feat =>
      simp only [applyLoop] at h
      split_ifs at h with hlog
      cases hget : Mat[i]? with
      | none => rw [hget] at h; exact Except.noConfusion h
      | some shard =>
        rw [hget] at h
        simp only at h
        have := ih (i + 1) _ M h
        simp only [featureUpdates, List.foldl_cons, ShardUpdate.run, hget]
        exact this

/-- When the loop of `Score` returns, it returns the accumulated value plus the live weights
of the cells of the present features, as an int64. -/
theorem scoreLoop_ok_present (Mat : List AvgSparse) (tr : Transition) :
    ∀ (feats : List (Option Feature)) (i : Nat) (acc r : Int),
      scoreLoop Mat tr i feats (wrap64 acc) = .ok r →
      r = wrap64 (acc + ((presentFeaturesFrom i feats).map
            (fun c => matCell Mat c.1 tr c.2)).sum) := by
  intro feats
  induction feats with
  | nil =>
    intro i acc r h
    simp only [scoreLoop] at h
    injection h with h
    simp [presentFeaturesFrom_nil, ← h]
  | cons x rest ih =>
    intro i acc r h
    cases x with
    | none =>
      simp only [scoreLoop] at h
      rw [presentFeaturesFrom_none]
      exact ih (i + 1) acc r h
    | some feat =>
      simp only [scoreLoop] at h
      cases hget : Mat[i]? with
      | none => rw [hget] at h; exact Except.noConfusion h
      | some shard =>
        rw [hget] at h
        simp only at h
        rw [wrap64_add_left] at h
        have := ih (i + 1) _ r h
        rw [this, presentFeaturesFrom_some, List.map_cons, List.sum_cons]
        simp only [matCell, hget]
        congr 1
        ring

/-- C26: `Score` and `apply` address the same cells. For a feature list with head `n`, of
transition below 96, and predecessor `p`: the cells are the pairs (template `i`, feature)
at which `p` has a feature, one per such template; the shard updates of `apply` are
`Mat[i].Add(Generation, n.Transition, feature, a)`, one for each of these cells, and when
`apply` returns the shards are those these updates leave; when `Score` returns, it returns
the score of the list from `p` down plus the live weights at the same cells for the
transition of `n`, as an int64. When the feature vector of `p` fits the matrix `apply`
returns, and `Score` returns whenever it does on the list from `p` down. A list of one
node is scored 0, and `apply` on it returns the matrix as it was, with no shard update. -/
theorem score_and_apply_same_cells (t : AvgMatrixSparse) (n p : FeaturesNode)
    (rest : FeaturesList) (a : Int) (h96 : n.Transition < 96) :
    (∀ (i : Nat) (feat : Feature),
      (i, feat) ∈ presentFeatures p.Features ↔ p.Features[i]? = some (some feat)) ∧
    ((presentFeatures p.Features).map Prod.fst).Nodup ∧
    applyUpdates (n :: p :: rest) a
      = (presentFeatures p.Features).map (fun c => ShardUpdate.mk c.1 n.Transition c.2 a) ∧
    (∀ t1 : AvgMatrixSparse, t.apply (n :: p :: rest) a = .ok t1 →
      t1.Mat = ((presentFeatures p.Features).map
          (fun c => ShardUpdate.mk c.1 n.Transition c.2 a)).foldl
            (ShardUpdate.run t.Generation) t.Mat) ∧
    (∀ s : Int, t.Score (n :: p :: rest) = .ok s →
      ∃ prevScore, t.Score (p :: rest) = .ok prevScore ∧
        s = wrap64 (prevScore + ((presentFeatures p.Features).map
              (fun c => t.cell c.1 n.Transition c.2)).sum)) ∧
    (t.fits p →
      (∃ t1, t.apply (n :: p :: rest) a = .ok t1) ∧
      ∀ prevScore : Int, t.Score (p :: rest) = .ok prevScore →
        ∃ s, t.Score (n :: p :: rest) = .ok s) ∧
    (∀ m : FeaturesNode,
      t.Score [m] = .ok 0 ∧ t.apply [m] a = .ok t ∧ applyUpdates [m] a = []) := by
  have hnot : ¬ n.Transition ≥ 96 := not_le.mpr h96
  have hupd : applyUpdates (n :: p :: rest) a
      = (presentFeatures p.Features).map
          (fun c => ShardUpdate.mk c.1 n.Transition c.2 a) := by
    simp only [applyUpdates, hnot, if_false]
    exact featureUpdates_present n.Transition a p.Features 0
  refine ⟨?_, presentFeaturesFrom_nodup p.Features 0, hupd, ?_, ?_, ?_, ?_⟩
  · intro i feat
    have := presentFeaturesFrom_mem p.Features 0 i feat
    simpa [presentFeatures] using this
  · intro t1 h
    simp only [AvgMatrixSparse.apply, hnot, if_false] at h
    cases hloop : applyLoop t.Log t.Formatters t.Generation n.Transition a 0 p.Features t.Mat with
    | error e => rw [hloop] at h; exact Except.noConfusion h
    | ok M =>
      rw [hloop] at h
      injection h with h
      subst h
      have := applyLoop_ok_updates _ _ _ _ _ _ _ _ _ hloop
      rw [featureUpdates_present] at this
      exact this
  · intro s h
    simp only [AvgMatrixSparse.Score] at h
    cases hprev : t.Score (p :: rest) with
    | error e => rw [hprev] at h; exact Except.noConfusion h
    | ok prevScore =>
      rw [hprev] at h
      simp only at h
      cases hloop : scoreLoop t.Mat n.Transition 0 p.Features 0 with
      | error e => rw [hloop] at h; exact Except.noConfusion h
      | ok retval =>
        rw [hloop] at h
        injection h with h
        refine ⟨prevScore, rfl, ?_⟩
        have hz : scoreLoop t.Mat n.Transition 0 p.Features (wrap64 0) = .ok retval := by
          rw [wrap64_zero]; exact hloop
        have := scoreLoop_ok_present t.Mat n.Transition p.Features 0 0 retval hz
        rw [← h, this, wrap64_add_right, Int.zero_add]
        rfl
  · intro hfit
    constructor
    · obtain ⟨t1, h1, _⟩ := apply_cell t n p rest a hfit
      exact ⟨t1, h1⟩
    · intro prevScore hprev
      obtain ⟨r, hr⟩ := scoreLoop_ok t.Mat n.Transition p.Features 0 0 (by simpa using hfit.1)
      exact ⟨wrap64 (prevScore + r), by simp [AvgMatrixSparse.Score, hprev, hr]⟩
  · intro m
    exact ⟨rfl, rfl, rfl⟩

/-- C26 on `exampleMatrix` and `exampleList`: the one cell is template 0 at feature 5; the
score is the weight 1 held there for transition 1, and `Add` raises that weight to 2. -/
theorem score_and_apply_same_cells_witness :
    (1 : Transition) < 96 ∧
    presentFeatures [some 5] = [(0, 5)] ∧
    applyUpdates exampleList 1 = [ShardUpdate.mk 0 1 5 1] ∧
    exampleMatrix.Score exampleList = .ok 1 ∧
    (∃ prevScore, exampleMatrix.Score [⟨[some 5], 0⟩] = .ok prevScore ∧
      (1 : Int) = wrap64 (prevScore + ((presentFeatures [some 5]).map
            (fun c => exampleMatrix.cell c.1 1 c.2)).sum)) ∧
    (exampleMatrix.apply exampleList 1).map (fun t1 => t1.cell 0 1 5) = .ok 2 :=
  ⟨by decide, by decide, by decide, by decide,
    (score_and_apply_same_cells exampleMatrix ⟨[some 7], 1⟩ ⟨[some 5], 0⟩ [] 1
      (by decide)).2.2.2.2.1 1 (by decide),
    by decide⟩

/-! ## Decoding a gold instance (C21) -/

section DecodeGoldFacts

variable {Conf Sent Gold Inst : Type} [Configuration Conf]

/-- C21, as stated, fails: on a decoder with `NoRecover` set and the gold list `[1, 0]`, on
which the oracle fails at the second step, the panic of the oracle is not recovered and
`DecodeGold` fails with the message of the oracle, not with "Oracle parse result does not
equal gold". -/
theorem decodeGold_propagates_oracle_panic :
    noRecoverDecoder.DecodeGold List.length toyEqual 5 (PerceptronDecoded.mk "s" [1, 0])
        toyModel
      = .error (.panic "no gold path") ∧
    toySystem.Oracle [1, 0] ⟨1, 1⟩ = .error "no gold path" := by
  decide

/-- C21, amended: `DecodeGold` returns only if `ParseOracle`, run on the gold graph with
`ReturnModelValue` set, returned a graph that `Equal` finds equal to the gold graph, and it
then returns the decoded instance holding the instance of the gold instance and the gold
graph, with the model value of the parse; it does return in that case. Whenever
`ParseOracle` returns a graph that `Equal` rejects, `DecodeGold` panics with "Oracle parse
result does not equal gold": so it does after `ParseOracle`, with `NoRecover` unset, has
recovered from a panic and returned no graph, when `Equal` rejects the nil graph; if `Equal`
accepted the nil graph, `DecodeGold` would panic on the type assertion of the nil result
parameters. A fault of `ParseOracle` is the fault of `DecodeGold`: with `NoRecover` set, a
panic of the oracle reaches the caller with its own message. -/
theorem decodeGold_outcomes (d : Deterministic Conf Sent Gold)
    (Sentence : Gold → Sent) (Equal : Gold → Option Conf → Bool) (fuel : Nat)
    (goldInstance : PerceptronDecoded Inst Gold)
    (model : Transition → List (Option Feature) → Float64) :
    (∀ r, d.DecodeGold Sentence Equal fuel goldInstance model = .ok r →
      ∃ parsedGraph parseParams,
        (Deterministic.mk d.TransFunc d.FeatExtractor true d.ReturnSequence
            d.ShowConsiderations d.Base d.NoRecover).ParseOracle Sentence fuel
            goldInstance.DecodedVal (none : Option Unit) model
          = .ok (some parsedGraph, some parseParams) ∧
        Equal goldInstance.DecodedVal (some parsedGraph) = true ∧
        r = (⟨goldInstance.InstanceVal, goldInstance.DecodedVal⟩, parseParams.modelValue) ∧
        r.1.DecodedVal = goldInstance.DecodedVal) ∧
    (∀ parsedGraph parseParams,
      (Deterministic.mk d.TransFunc d.FeatExtractor true d.ReturnSequence
          d.ShowConsiderations d.Base d.NoRecover).ParseOracle Sentence fuel
          goldInstance.DecodedVal (none : Option Unit) model
        = .ok (some parsedGraph, some parseParams) →
      Equal goldInstance.DecodedVal (some parsedGraph) = true →
      d.DecodeGold Sentence Equal fuel goldInstance model
        = .ok (⟨goldInstance.InstanceVal, goldInstance.DecodedVal⟩, parseParams.modelValue)) ∧
    (∀ parsedGraph parseParams,
      (Deterministic.mk d.TransFunc d.FeatExtractor true d.ReturnSequence
          d.ShowConsiderations d.Base d.NoRecover).ParseOracle Sentence fuel
          goldInstance.DecodedVal (none : Option Unit) model
        = .ok (parsedGraph, parseParams) →
      Equal goldInstance.DecodedVal parsedGraph = false →
      d.DecodeGold Sentence Equal fuel goldInstance model
        = .error (.panic "Oracle parse result does not equal gold")) ∧
    (d.NoRecover = false → ∀ e,
      (Deterministic.mk d.TransFunc d.FeatExtractor true d.ReturnSequence
          d.ShowConsiderations d.Base d.NoRecover).parseOracleBody Sentence fuel
          goldInstance.DecodedVal (none : Option Unit) model
        = .error (.panic e) →
      (Equal goldInstance.DecodedVal none = false →
        d.DecodeGold Sentence Equal fuel goldInstance model
          = .error (.panic "Oracle parse result does not equal gold")) ∧
      (Equal goldInstance.DecodedVal none = true →
        d.DecodeGold Sentence Equal fuel goldInstance model
          = .error (.panic
              "interface conversion: interface is nil, not *ParseResultParameters"))) ∧
    (∀ f,
      (Deterministic.mk d.TransFunc d.FeatExtractor true d.ReturnSequence
          d.ShowConsiderations d.Base d.NoRecover).ParseOracle Sentence fuel
          goldInstance.DecodedVal (none : Option Unit) model
        = .error f →
      d.DecodeGold Sentence Equal fuel goldInstance model = .error f) ∧
    (d.NoRecover = true → ∀ e,
      (Deterministic.mk d.TransFunc d.FeatExtractor true d.ReturnSequence
          d.ShowConsiderations d.Base d.NoRecover).parseOracleBody Sentence fuel
          goldInstance.DecodedVal (none : Option Unit) model
        = .error (.panic e) →
      d.DecodeGold Sentence Equal fuel goldInstance model = .error (.panic e)) := by
  have hbody : ∀ c rp,
      (Deterministic.mk d.TransFunc d.FeatExtractor true d.ReturnSequence
          d.ShowConsiderations d.Base d.NoRecover).parseOracleBody Sentence fuel
          goldInstance.DecodedVal (none : Option Unit) model = .ok (c, rp) → rp.isSome = true := by
    intro c rp h
    unfold Deterministic.parseOracleBody at h
    simp only [Option.isSome_none, Bool.false_eq_true, if_false] at h
    split at h
    · exact Except.noConfusion h
    · split at h
      · exact Except.noConfusion h
      · injection h with h
        injection h with h1 h2
        rw [← h2]
        simp [Deterministic.resultParams]
  have hpo : ∀ pg rp,
      (Deterministic.mk d.TransFunc d.FeatExtractor true d.ReturnSequence
          d.ShowConsiderations d.Base d.NoRecover).ParseOracle Sentence fuel
          goldInstance.DecodedVal (none : Option Unit) model = .ok (pg, rp) →
      (pg = none ∧ rp = none) ∨ (∃ c p, pg = some c ∧ rp = some p) := by
    intro pg rp h
    unfold Deterministic.ParseOracle at h
    split at h
    · rename_i c resultParams hb
      injection h with h
      injection h with h1 h2
      have := hbody c resultParams hb
      obtain ⟨p, hp⟩ := Option.isSome_iff_exists.mp this
      exact Or.inr ⟨c, p, h1.symm, by rw [← h2, hp]⟩
    · split_ifs at h
      · injection h with h
        injection h with h1 h2
        exact Or.inl ⟨h1.symm, h2.symm⟩
    · exact Except.noConfusion h
  have hne : ∀ pg rp,
      (Deterministic.mk d.TransFunc d.FeatExtractor true d.ReturnSequence
          d.ShowConsiderations d.Base d.NoRecover).ParseOracle Sentence fuel
          goldInstance.DecodedVal (none : Option Unit) model = .ok (pg, rp) →
      Equal goldInstance.DecodedVal pg = false →
      d.DecodeGold Sentence Equal fuel goldInstance model
        = .error (.panic "Oracle parse result does not equal gold") := by
    intro pg rp hp heq
    unfold Deterministic.DecodeGold
    simp only [hp, heq, if_true]
  have hrec : d.NoRecover = false → ∀ e,
      (Deterministic.mk d.TransFunc d.FeatExtractor true d.ReturnSequence
          d.ShowConsiderations d.Base d.NoRecover).parseOracleBody Sentence fuel
          goldInstance.DecodedVal (none : Option Unit) model = .error (.panic e) →
      (Deterministic.mk d.TransFunc d.FeatExtractor true d.ReturnSequence
          d.ShowConsiderations d.Base d.NoRecover).ParseOracle Sentence fuel
          goldInstance.DecodedVal (none : Option Unit) model = .ok (none, none) := by
    intro hd e hb
    unfold Deterministic.ParseOracle
    rw [hb]
    simp only [hd, if_true]
  refine ⟨?_, ?_, hne, ?_, ?_, ?_⟩
  · intro r h
    unfold Deterministic.DecodeGold at h
    simp only at h
    split at h
    · exact Except.noConfusion h
    · rename_i pg rp hp
      split_ifs at h with heq
      rcases hpo pg rp hp with ⟨h1, h2⟩ | ⟨c, p, h1, h2⟩
      · subst h1 h2
        exact Except.noConfusion h
      · subst h1 h2
        simp only at h
        injection h with h
        exact ⟨c, p, hp, by simpa using heq, h.symm, by rw [← h]⟩
  · intro c p hp heq
    unfold Deterministic.DecodeGold
    simp only [hp, heq]
    simp
  · intro hd e hb
    have hp := hrec hd e hb
    refine ⟨fun hnil => hne none none hp hnil, fun hnil => ?_⟩
    unfold Deterministic.DecodeGold
    simp only [hp, hnil]
    simp
  · intro f hp
    unfold Deterministic.DecodeGold
    simp only [hp]
  · intro hd e hb
    have hp : (Deterministic.mk d.TransFunc d.FeatExtractor true d.ReturnSequence
          d.ShowConsiderations d.Base d.NoRecover).ParseOracle Sentence fuel
          goldInstance.DecodedVal (none : Option Unit) model = .error (.panic e) := by
      unfold Deterministic.ParseOracle
      rw [hb]
      simp only [hd]
      simp
    unfold Deterministic.DecodeGold
    simp only [hp]

/-- The amended C21 on the small system: with the gold transitions 2 then 1 the oracle parse
equals the gold standard and `DecodeGold` returns the gold instance with the model value of
the parse; with the gold list `[1, 0]`, on which the oracle fails at the second step,
`ParseOracle` recovers, the nil graph equals no gold standard, and `DecodeGold` panics with
the message of the comparison. -/
theorem decodeGold_outcomes_witness :
    toyDecoder.DecodeGold List.length toyEqual 5 (PerceptronDecoded.mk "s" [2, 1]) toyModel
      = .ok (⟨"s", [2, 1]⟩, some [⟨[some 0], 1⟩, ⟨[some 1], 2⟩]) ∧
    toyEqual [1, 0] none = false ∧
    toyDecoder.DecodeGold List.length toyEqual 5 (PerceptronDecoded.mk "s" [1, 0]) toyModel
      = .error (.panic "Oracle parse result does not equal gold") ∧
    ∃ parsedGraph parseParams,
      (Deterministic.mk toyDecoder.TransFunc toyDecoder.FeatExtractor true
          toyDecoder.ReturnSequence toyDecoder.ShowConsiderations toyDecoder.Base
          toyDecoder.NoRecover).ParseOracle List.length 5
          (PerceptronDecoded.mk "s" [2, 1]).DecodedVal (none : Option Unit) toyModel
        = .ok (some parsedGraph, some parseParams) ∧
      toyEqual (PerceptronDecoded.mk "s" [2, 1]).DecodedVal (some parsedGraph) = true ∧
      ((⟨"s", [2, 1]⟩, some [⟨[some 0], 1⟩, ⟨[some 1], 2⟩]) :
          PerceptronDecoded String (List Transition) × Option FeaturesList)
        = (⟨(PerceptronDecoded.mk "s" [2, 1]).InstanceVal,
            (PerceptronDecoded.mk "s" [2, 1]).DecodedVal⟩, parseParams.modelValue) ∧
      (((⟨"s", [2, 1]⟩, some [⟨[some 0], 1⟩, ⟨[some 1], 2⟩]) :
          PerceptronDecoded String (List Transition) × Option FeaturesList).1).DecodedVal
        = (PerceptronDecoded.mk "s" [2, 1]).DecodedVal :=
  ⟨by decide, by decide,
    ((decodeGold_outcomes toyDecoder List.length toyEqual 5
      (PerceptronDecoded.mk "s" [1, 0]) toyModel).2.2.2.1 (by decide) "no gold path"
        (by decide)).1 (by decide),
    (decodeGold_outcomes toyDecoder List.length toyEqual 5
      (PerceptronDecoded.mk "s" [2, 1]) toyModel).1 _ (by decide)⟩

end DecodeGoldFacts

/-! ## Serialising and deserialising the matrix (C22) -/

theorem set_append_length (pre : List String) (p val : String) (ps : List String) :
    (pre ++ p :: ps).set pre.length val = pre ++ val :: ps := by
  induction pre with
  | nil => rfl
  | cons x xs ih => simp [ih]

theorem descriptorsLoop_spec :
    ∀ (formatters pre post : List String),
      formatters.length ≤ post.length →
      descriptorsLoop pre.length formatters (pre ++ post)
        = .ok (pre ++ formatters ++ post.drop formatters.length) := by
  intro formatters
  induction formatters with
  | nil => intro pre post _; simp [descriptorsLoop]
  | cons val rest ih =>
    intro pre post h
    cases post with
    | nil => simp at h
    | cons p ps =>
      simp only [List.length_cons, Nat.add_le_add_iff_right] at h
      have hi : pre.length < (pre ++ p :: ps).length := by simp
      simp only [descriptorsLoop, hi, if_true]
      rw [set_append_length]
      have := ih (pre ++ [val]) ps h
      simp only [List.length_append, List.length_singleton, List.append_assoc,
        List.singleton_append] at this
      rw [this]
      simp

/-- A list of descriptors longer than the slice made for them is an index out of range. -/
theorem descriptorsLoop_short :
    ∀ (formatters pre post : List String),
      post.length < formatters.length →
      descriptorsLoop pre.length formatters (pre ++ post) = .error indexOutOfRange := by
  intro formatters
  induction formatters with
  | nil => intro pre post h; simp at h
  | cons val rest ih =>
    intro pre post h
    cases post with
    | nil => simp [descriptorsLoop]
    | cons p ps =>
      simp only [List.length_cons, Nat.add_lt_add_iff_right] at h
      have hi : pre.length < (pre ++ p :: ps).length := by simp
      simp only [descriptorsLoop, hi, if_true]
      rw [set_append_length]
      have := ih (pre ++ [val]) ps h
      simp only [List.length_append, List.length_singleton, List.append_assoc,
        List.singleton_append] at this
      exact this

/-- What `Serialize` returns on a matrix with no more formatters than its template count:
the descriptors of the formatters, then empty strings up to the template count. -/
theorem serialize_spec {S : Type} (ser : AvgSparse → S) (t : AvgMatrixSparse)
    (h0 : 0 ≤ t.Features) (hF : t.Formatters.length ≤ t.Features.toNat) :
    t.Serialize ser
      = .ok { Generation := t.Generation
              Features := t.Formatters
                ++ List.replicate (t.Features.toNat - t.Formatters.length) ""
              Mat := t.Mat.map ser } := by
  unfold AvgMatrixSparse.Serialize
  rw [if_neg (not_lt.mpr h0)]
  have := descriptorsLoop_spec t.Formatters [] (List.replicate t.Features.toNat "")
    (by simpa using hF)
  simp only [List.length_nil, List.nil_append] at this
  rw [this]
  simp

/-- C22, against the claim as stated: `zeroMatrix` has one formatter, of descriptor "t0",
for its one template; its record deserialised into a fresh matrix and serialised again is
not the record `Serialize` gave, the descriptor being the empty string. -/
theorem roundtrip_loses_descriptors :
    zeroMatrix.Formatters.length = zeroMatrix.Mat.length ∧
    (zeroMatrix.Mat.length : Int) = zeroMatrix.Features ∧
    (zeroMatrix.Serialize exampleSerialize).map (fun r => r.Features) = .ok ["t0"] ∧
    ((zeroMatrix.Serialize exampleSerialize).bind (fun data =>
        (freshMatrix.Deserialize exampleDeserialize data).Serialize exampleSerialize)).map
      (fun r => r.Features) = .ok [""] ∧
    (zeroMatrix.Serialize exampleSerialize).bind (fun data =>
        (freshMatrix.Deserialize exampleDeserialize data).Serialize exampleSerialize)
      ≠ zeroMatrix.Serialize exampleSerialize := by
  decide

/-- C22, amended: for a matrix `t` with one formatter per template, `Serialize` returns a
record with the generation of `t`, the descriptors of its formatters in order and its
serialised shards. Deserialising it into a matrix `receiver` gives the same `Generation`,
as many shards as `t` has, `Features` equal to that count, shard `i` deserialised from
serialised shard `i`, and leaves the formatters of the receiver as they were. Serialising
that matrix again gives the same generation and the shards serialised again, with the
descriptors of the formatters of the receiver, filled up with empty strings: for a fresh
matrix every descriptor is the empty string, and the record is the one `Serialize` gave on
`t` when the receiver holds the formatters of `t` and serialising a deserialised shard
gives back what it was deserialised from. -/
theorem roundtrip_keeps_generation_and_shards {S : Type} (ser : AvgSparse → S)
    (deser : S → Int → AvgSparse) (t receiver : AvgMatrixSparse)
    (h0 : 0 ≤ t.Features) (hF : t.Formatters.length = t.Features.toNat)
    (hM : t.Mat.length = t.Features.toNat) :
    ∃ data, t.Serialize ser = .ok data ∧
      data.Generation = t.Generation ∧ data.Features = t.Formatters ∧
      data.Mat = t.Mat.map ser ∧
      (receiver.Deserialize deser data).Generation = t.Generation ∧
      (receiver.Deserialize deser data).Mat.length = t.Mat.length ∧
      (receiver.Deserialize deser data).Features = t.Mat.length ∧
      (∀ (i : Nat) (val : S), data.Mat[i]? = some val →
        (receiver.Deserialize deser data).Mat[i]? = some (deser val t.Generation)) ∧
      (receiver.Deserialize deser data).Formatters = receiver.Formatters ∧
      (receiver.Formatters.length ≤ t.Mat.length →
        (receiver.Deserialize deser data).Serialize ser
          = .ok { Generation := t.Generation
                  Features := receiver.Formatters
                    ++ List.replicate (t.Mat.length - receiver.Formatters.length) ""
                  Mat := t.Mat.map (fun shard => ser (deser (ser shard) t.Generation)) }) ∧
      (freshMatrix.Deserialize deser data).Serialize ser
        = .ok { Generation := t.Generation
                Features := List.replicate t.Mat.length ""
                Mat := t.Mat.map (fun shard => ser (deser (ser shard) t.Generation)) } ∧
      (receiver.Formatters = t.Formatters →
        (∀ shard ∈ t.Mat, ser (deser (ser shard) t.Generation) = ser shard) →
        (receiver.Deserialize deser data).Serialize ser = .ok data) := by
  have hser := serialize_spec ser t h0 (le_of_eq hF)
  rw [hF, Nat.sub_self, List.replicate_zero, List.append_nil] at hser
  have hre : ∀ r : AvgMatrixSparse, r.Formatters.length ≤ t.Mat.length →
      (r.Deserialize deser ⟨t.Generation, t.Formatters, t.Mat.map ser⟩).Serialize ser
        = .ok { Generation := t.Generation
                Features := r.Formatters
                  ++ List.replicate (t.Mat.length - r.Formatters.length) ""
                Mat := t.Mat.map (fun shard => ser (deser (ser shard) t.Generation)) } := by
    intro r hr
    rw [serialize_spec ser _ (by simp [AvgMatrixSparse.Deserialize])
      (by simpa [AvgMatrixSparse.Deserialize] using hr)]
    simp [AvgMatrixSparse.Deserialize, Function.comp_def]
  refine ⟨_, hser, rfl, rfl, rfl, rfl, by simp [AvgMatrixSparse.Deserialize],
    by simp [AvgMatrixSparse.Deserialize], ?_, rfl, hre receiver, ?_, ?_⟩
  · intro i val hval
    simp only [AvgMatrixSparse.Deserialize, List.getElem?_map, hval, Option.map_some']
  · have := hre freshMatrix (by simp [freshMatrix])
    simpa [freshMatrix] using this
  · intro hfm hlaw
    rw [hre receiver (by rw [hfm, hF, hM]), hfm, hF, hM, Nat.sub_self, List.replicate_zero,
      List.append_nil]
    congr 2
    exact List.map_congr_left hlaw

/-- C22 amended, on `zeroMatrix`: the hypotheses hold, and the record deserialised into a
fresh matrix and serialised again has the empty string for its one descriptor. -/
theorem roundtrip_keeps_generation_and_shards_witness :
    (0 : Int) ≤ zeroMatrix.Features ∧
    zeroMatrix.Formatters.length = zeroMatrix.Features.toNat ∧
    zeroMatrix.Mat.length = zeroMatrix.Features.toNat ∧
    zeroMatrix.Serialize exampleSerialize = .ok ⟨0, ["t0"], [0]⟩ ∧
    (freshMatrix.Deserialize exampleDeserialize ⟨0, ["t0"], [0]⟩).Serialize exampleSerialize
      = .ok ⟨0, [""], [0]⟩ ∧
    ∃ data, zeroMatrix.Serialize exampleSerialize = .ok data ∧
      data.Generation = zeroMatrix.Generation ∧ data.Features = zeroMatrix.Formatters :=
  ⟨by decide, by decide, by decide, by decide, by decide,
    (roundtrip_keeps_generation_and_shards exampleSerialize exampleDeserialize zeroMatrix
      freshMatrix (by decide) (by decide) (by decide)).imp
      (fun _ h => ⟨h.1, h.2.1, h.2.2.1⟩)⟩

/-! ## Matrices built without formatters (C27) -/

/-- C27 at a failing input: the matrix `NewAvgMatrixSparse(1, nil)`, built with `AllOut` set
as the package has it, and the one `New()` builds from it; the two-node list `exampleList`,
whose feature vectors have one entry. `Add`, `Subtract` and `SetTransitionScores` panic with
an index out of range, `t.Formatters[0]` being read before the test `t.Formatters != nil`.
Built with `AllOut` unset, the same matrix takes the same calls, and so does the matrix
built with a formatter. -/
theorem nil_formatters_index_out_of_range
    (SetScores : AvgSparse → Feature → List Int → List Int) (scores : List Int) :
    (∀ n ∈ exampleList, n.Features.length ≤ 1) ∧
    ((NewAvgMatrixSparse true 1 []).bind (fun t => t.Add exampleList)).map
        (fun t => t.cell 0 1 5) = .error indexOutOfRange ∧
    ((NewAvgMatrixSparse true 1 []).bind (fun t => t.Subtract exampleList)).map
        (fun t => t.cell 0 1 5) = .error indexOutOfRange ∧
    (NewAvgMatrixSparse true 1 []).bind
        (fun t => t.SetTransitionScores SetScores [some 5] scores) = .error indexOutOfRange ∧
    (((NewAvgMatrixSparse true 1 ["t0"]).bind (fun t => t.New true)).bind
        (fun t => t.Add exampleList)).map (fun t => t.cell 0 1 5) = .error indexOutOfRange ∧
    ((NewAvgMatrixSparse false 1 []).bind (fun t => t.Add exampleList)).map
        (fun t => t.cell 0 1 5) = .ok 1 ∧
    ((NewAvgMatrixSparse true 1 ["t0"]).bind (fun t => t.Add exampleList)).map
        (fun t => t.cell 0 1 5) = .ok 1 ∧
    (NewAvgMatrixSparse false 1 []).bind
        (fun t => t.SetTransitionScores SetScores [some 5] scores)
      = .ok (SetScores NewAvgSparse 5 scores) :=
  ⟨by decide, by decide, by decide, rfl, by decide, by decide, by decide, rfl⟩

/-! ## The difference of two feature arrays (C29) -/

/-- On sorted slices, with fuel for one step per element, the loop of `ArrayDiff` appends to
`onlyLeft` a sublist of the left slice and to `onlyRight` a sublist of the right slice, which
hold every string as often as it occurs more on the one side than on the other. -/
theorem diffLoop_spec (Strcmp : String → String → Int)
    (h0 : ∀ a b, Strcmp a b = 0 ↔ a = b) (hlt : ∀ a b, Strcmp a b < 0 ↔ a < b) :
    ∀ (fuel : Nat) (l r oL oR : List String),
      l.Sorted (fun a b => a ≤ b) → r.Sorted (fun a b => a ≤ b) →
      l.length + r.length ≤ fuel →
      ∃ dl dr, diffLoop Strcmp fuel l r oL oR = .ok (oL ++ dl, oR ++ dr) ∧
        dl.Sublist l ∧ dr.Sublist r ∧
        (∀ x, dl.count x = l.count x - r.count x) ∧
        (∀ x, dr.count x = r.count x - l.count x) := by
  intro fuel
  induction fuel with
  | zero =>
    intro l r oL oR _ _ hlen
    have hl : l = [] := List.length_eq_zero.mp (by omega)
    have hr : r = [] := List.length_eq_zero.mp (by omega)
    subst hl hr
    exact ⟨[], [], by simp [diffLoop], List.Sublist.refl _, List.Sublist.refl _, by simp,
      by simp⟩
  | succ n ih =>
    intro l r oL oR hsl hsr hlen
    cases l with
    | nil =>
      cases r with
      | nil =>
        exact ⟨[], [], by simp [diffLoop], List.Sublist.refl _, List.Sublist.refl _, by simp,
          by simp⟩
      | cons b r =>
        obtain ⟨dl, dr, h1, h2, h3, h4, h5⟩ := ih [] r oL (oR ++ [b]) hsl hsr.of_cons
          (by simp at hlen ⊢; omega)
        refine ⟨dl, b :: dr, by simp [diffLoop, h1], h2, h3.cons₂ b, ?_, ?_⟩
        · intro x; have := h4 x; simp at this ⊢; exact this
        · intro x; have := h5 x; simp [List.count_cons] at this ⊢; omega
    | cons a l =>
      cases r with
      | nil =>
        obtain ⟨dl, dr, h1, h2, h3, h4, h5⟩ := ih l [] (oL ++ [a]) oR hsl.of_cons hsr
          (by simp at hlen ⊢; omega)
        refine ⟨a :: dl, dr, by simp [diffLoop, h1], h2.cons₂ a, h3, ?_, ?_⟩
        · intro x; have := h4 x; simp [List.count_cons] at this ⊢; omega
        · intro x; have := h5 x; simp at this ⊢; exact this
      | cons b r =>
        simp only [List.length_cons] at hlen
        by_cases hab : a = b
        · subst hab
          obtain ⟨dl, dr, h1, h2, h3, h4, h5⟩ := ih l r oL oR hsl.of_cons hsr.of_cons
            (by omega)
          refine ⟨dl, dr, by simp [diffLoop, (h0 a a).mpr rfl, h1], h2.cons a, h3.cons a,
            ?_, ?_⟩
          · intro x; have := h4 x; simp [List.count_cons] at this ⊢; omega
          · intro x; have := h5 x; simp [List.count_cons] at this ⊢; omega
        · have hne0 : ¬ Strcmp a b = 0 := fun h => hab ((h0 a b).mp h)
          by_cases hlt1 : a < b
          · have hnotin : (b :: r).count a = 0 := by
              apply List.count_eq_zero_of_not_mem
              intro hmem
              rcases List.mem_cons.mp hmem with h | h
              · exact hab h
              · have := (List.sorted_cons.mp hsr).1 a h
                exact absurd hlt1 (not_lt.mpr this)
            obtain ⟨dl, dr, h1, h2, h3, h4, h5⟩ := ih l (b :: r) (oL ++ [a]) oR hsl.of_cons hsr
              (by simp; omega)
            refine ⟨a :: dl, dr, by simp [diffLoop, hne0, (hlt a b).mpr hlt1, h1],
              h2.cons₂ a, h3, ?_, ?_⟩
            · intro x
              have := h4 x
              by_cases hx : x = a
              · subst hx; rw [hnotin] at this ⊢; simp at this ⊢; omega
              · have hx2 : ¬ a = x := fun h => hx h.symm
                simp only [List.count_cons, beq_iff_eq, hx2, if_false, Nat.add_zero] at this ⊢
                simpa using this
            · intro x
              have := h5 x
              by_cases hx : x = a
              · subst hx; rw [hnotin] at this ⊢; simp at this ⊢; exact this
              · have hx2 : ¬ a = x := fun h => hx h.symm
                simp only [List.count_cons, beq_iff_eq, hx2, if_false, Nat.add_zero] at this ⊢
                simpa using this
          · have hgt : b < a := lt_of_le_of_ne (not_lt.mp hlt1) (Ne.symm hab)
            have hnlt : ¬ Strcmp a b < 0 := fun h => hlt1 ((hlt a b).mp h)
            have hnotin : (a :: l).count b = 0 := by
              apply List.count_eq_zero_of_not_mem
              intro hmem
              rcases List.mem_cons.mp hmem with h | h
              · exact hab h.symm
              · have := (List.sorted_cons.mp hsl).1 b h
                exact absurd hgt (not_lt.mpr this)
            obtain ⟨dl, dr, h1, h2, h3, h4, h5⟩ := ih (a :: l) r oL (oR ++ [b]) hsl hsr.of_cons
              (by simp; omega)
            refine ⟨dl, b :: dr, by simp [diffLoop, hne0, hnlt, h1], h2, h3.cons₂ b, ?_, ?_⟩
            · intro x
              have := h4 x
              by_cases hx : x = b
              · subst hx; rw [hnotin] at this ⊢; simp at this ⊢; exact this
              · have hx2 : ¬ b = x := fun h => hx h.symm
                simp only [List.count_cons, beq_iff_eq, hx2, if_false, Nat.add_zero] at this ⊢
                simpa using this
            · intro x
              have := h5 x
              by_cases hx : x = b
              · subst hx; rw [hnotin] at this ⊢; simp at this ⊢; omega
              · have hx2 : ¬ b = x := fun h => hx h.symm
                simp only [List.count_cons, beq_iff_eq, hx2, if_false, Nat.add_zero] at this ⊢
                simpa using this

theorem exampleStrcmp_zero (a b : String) : exampleStrcmp a b = 0 ↔ a = b := by
  unfold exampleStrcmp
  split_ifs with h1 h2
  · simp [h1]
  · simp [h1]
  · simp [h1]

theorem exampleStrcmp_neg (a b : String) : exampleStrcmp a b < 0 ↔ a < b := by
  unfold exampleStrcmp
  split_ifs with h1 h2
  · subst h1; simp
  · simp [h2]
  · simp [h2]

/-- C29: with a three-way comparison `Strcmp` (0 just on equal strings, negative just when
the first is the smaller) and fuel for one step per element, `ArrayDiff(left, right)`
returns a pair `(onlyLeft, onlyRight)` of lists in ascending order, where `onlyLeft` is the
multiset difference of `left` and `right` (every string occurs in it as often as it occurs
more in `left` than in `right`) and `onlyRight` the multiset difference of `right` and
`left`; `ArrayDiff(right, left)` returns the same pair swapped, and `ArrayDiff(left, left)`
returns two empty lists. -/
theorem arrayDiff_multiset_difference (Strcmp : String → String → Int)
    (h0 : ∀ a b, Strcmp a b = 0 ↔ a = b) (hlt : ∀ a b, Strcmp a b < 0 ↔ a < b)
    (fuel : Nat) (left right : List String) (hfuel : left.length + right.length ≤ fuel) :
    ∃ onlyLeft onlyRight, ArrayDiff Strcmp fuel left right = .ok (onlyLeft, onlyRight) ∧
      onlyLeft.Sorted (fun a b => a ≤ b) ∧ onlyRight.Sorted (fun a b => a ≤ b) ∧
      (∀ x, onlyLeft.count x = left.count x - right.count x) ∧
      (∀ x, onlyRight.count x = right.count x - left.count x) ∧
      (onlyLeft : Multiset String) = (left : Multiset String) - (right : Multiset String) ∧
      (onlyRight : Multiset String) = (right : Multiset String) - (left : Multiset String) ∧
      ArrayDiff Strcmp fuel right left = .ok (onlyRight, onlyLeft) ∧
      ArrayDiff Strcmp (left.length + left.length) left left = .ok ([], []) := by
  have key : ∀ (n : Nat) (l r : List String), l.length + r.length ≤ n →
      ∃ oL oR, ArrayDiff Strcmp n l r = .ok (oL, oR) ∧
        oL.Sorted (fun a b => a ≤ b) ∧ oR.Sorted (fun a b => a ≤ b) ∧
        (∀ x, oL.count x = l.count x - r.count x) ∧
        (∀ x, oR.count x = r.count x - l.count x) := by
    intro n l r hn
    have hsl := List.sorted_insertionSort (fun (a b : String) => a ≤ b) l
    have hsr := List.sorted_insertionSort (fun (a b : String) => a ≤ b) r
    have hpl := List.perm_insertionSort (fun (a b : String) => a ≤ b) l
    have hpr := List.perm_insertionSort (fun (a b : String) => a ≤ b) r
    obtain ⟨dl, dr, h1, h2, h3, h4, h5⟩ := diffLoop_spec Strcmp h0 hlt n _ _ [] [] hsl hsr
      (by rw [hpl.length_eq, hpr.length_eq]; exact hn)
    refine ⟨dl, dr, by simpa [ArrayDiff] using h1, hsl.sublist h2, hsr.sublist h3, ?_, ?_⟩
    · intro x; rw [h4 x, hpl.count_eq, hpr.count_eq]
    · intro x; rw [h5 x, hpl.count_eq, hpr.count_eq]
  obtain ⟨oL, oR, e1, s1, s2, c1, c2⟩ := key fuel left right hfuel
  obtain ⟨pL, pR, e2, t1, t2, d1, d2⟩ := key fuel right left (by omega)
  obtain ⟨qL, qR, e3, _, _, f1, f2⟩ := key (left.length + left.length) left left le_rfl
  have hpL : pL = oR :=
    List.eq_of_perm_of_sorted (List.perm_iff_count.mpr (fun x => by rw [d1 x, c2 x])) t1 s2
  have hpR : pR = oL :=
    List.eq_of_perm_of_sorted (List.perm_iff_count.mpr (fun x => by rw [d2 x, c1 x])) t2 s1
  have hqL : qL = [] := by
    apply List.eq_nil_iff_forall_not_mem.mpr
    intro x hx
    have := List.count_pos_iff.mpr hx
    rw [f1 x] at this
    omega
  have hqR : qR = [] := by
    apply List.eq_nil_iff_forall_not_mem.mpr
    intro x hx
    have := List.count_pos_iff.mpr hx
    rw [f2 x] at this
    omega
  refine ⟨oL, oR, e1, s1, s2, c1, c2, ?_, ?_, by rw [e2, hpL, hpR], by rw [e3, hqL, hqR]⟩
  · ext x; rw [Multiset.count_sub]; simp only [Multiset.coe_count]; exact c1 x
  · ext x; rw [Multiset.count_sub]; simp only [Multiset.coe_count]; exact c2 x

/-- C29 on the lists `["b", "a"]` and `["b", "c"]` with the comparison `exampleStrcmp`:
the pair returned is `(["a"], ["c"])`. -/
theorem arrayDiff_multiset_difference_witness :
    (∀ a b, exampleStrcmp a b = 0 ↔ a = b) ∧ (∀ a b, exampleStrcmp a b < 0 ↔ a < b) ∧
    (["b", "a"] : List String).length + (["b", "c"] : List String).length ≤ 4 ∧
    ArrayDiff exampleStrcmp 4 ["b", "a"] ["b", "c"] = .ok (["a"], ["c"]) ∧
    ∃ onlyLeft onlyRight,
      ArrayDiff exampleStrcmp 4 ["b", "a"] ["b", "c"] = .ok (onlyLeft, onlyRight) ∧
      onlyLeft.Sorted (fun a b => a ≤ b) ∧ onlyRight.Sorted (fun a b => a ≤ b) ∧
      (∀ x, onlyLeft.count x = (["b", "a"] : List String).count x
        - (["b", "c"] : List String).count x) ∧
      (∀ x, onlyRight.count x = (["b", "c"] : List String).count x
        - (["b", "a"] : List String).count x) ∧
      (onlyLeft : Multiset String)
        = ((["b", "a"] : List String) : Multiset String)
          - ((["b", "c"] : List String) : Multiset String) ∧
      (onlyRight : Multiset String)
        = ((["b", "c"] : List String) : Multiset String)
          - ((["b", "a"] : List String) : Multiset String) ∧
      ArrayDiff exampleStrcmp 4 ["b", "c"] ["b", "a"] = .ok (onlyRight, onlyLeft) ∧
      ArrayDiff exampleStrcmp
          ((["b", "a"] : List String).length + (["b", "a"] : List String).length)
          ["b", "a"] ["b", "a"] = .ok ([], []) :=
  ⟨exampleStrcmp_zero, exampleStrcmp_neg, by decide,
    by
      have h1 : ¬ ("b" : String) ≤ "a" := by rw [not_le, String.lt_iff_toList_lt]; decide
      have h2 : ("b" : String) ≤ "c" := by
        apply le_of_lt; rw [String.lt_iff_toList_lt]; decide
      have h3 : ("a" : String) < "b" := by rw [String.lt_iff_toList_lt]; decide
      have h4 : ("a" : String) < "c" := by rw [String.lt_iff_toList_lt]; decide
      have e1 : exampleStrcmp "a" "b" = -1 := by
        unfold exampleStrcmp; rw [if_neg (ne_of_lt h3), if_pos h3]
      have e2 : exampleStrcmp "b" "b" = 0 := (exampleStrcmp_zero "b" "b").mpr rfl
      simp [ArrayDiff, List.insertionSort, List.orderedInsert, h1, h2, diffLoop, e1, e2],
    arrayDiff_multiset_difference exampleStrcmp exampleStrcmp_zero exampleStrcmp_neg 4
      ["b", "a"] ["b", "c"] (by decide)⟩

end Yap
